import Mathlib

/-!
# PeachCompiler preprocessor: embedding and verified properties

A shallow embedding of `src/preprocessor/preprocessor.c`.  The C functions are
translated one by one and keep their names.  Pointers that may be `NULL` become
`Option`, the token cursor is the peek index of the input vector, and every C
loop becomes a recursion on a fuel counter that yields `Fault.outOfFuel` (or
`none`) when the counter runs out before the loop exits.
-/

namespace PeachCompiler

/-! ## Tokens -/

/-- Token tags of `compiler.h`, as listed in the data model. -/
inductive token_type where
  | TOKEN_TYPE_IDENTIFIER
  | TOKEN_TYPE_KEYWORD
  | TOKEN_TYPE_OPERATOR
  | TOKEN_TYPE_SYMBOL
  | TOKEN_TYPE_NUMBER
  | TOKEN_TYPE_STRING
  | TOKEN_TYPE_NEWLINE
  deriving DecidableEq, Repr

open token_type

/-- A lexical token (`struct token`): tag, payload and the whitespace flag. -/
structure token where
  type : token_type
  sval : String
  cval : Char
  llnum : Int
  whitespace : Bool
  deriving DecidableEq, Repr

/-- Modelled from the spec: `token_is_symbol` of `compiler.h` is not in the
sources; a present token that is a symbol carrying the character `c`. -/
def token_is_symbol (t : Option token) (c : Char) : Bool :=
  match t with
  | none => false
  | some tok => decide (tok.type = TOKEN_TYPE_SYMBOL) && decide (tok.cval = c)

/-- Modelled from the spec: `token_is_operator` of `compiler.h` is not in the
sources; a present token that is an operator spelled `op`. -/
def token_is_operator (t : Option token) (op : String) : Bool :=
  match t with
  | none => false
  | some tok => decide (tok.type = TOKEN_TYPE_OPERATOR) && decide (tok.sval = op)

/-- Modelled from the spec: `token_is_identifier` of `compiler.h` is not in the
sources; a present token tagged identifier. -/
def token_is_identifier (t : Option token) : Bool :=
  match t with
  | none => false
  | some tok => decide (tok.type = TOKEN_TYPE_IDENTIFIER)

/-- Modelled from the spec: `token_is_keyword` of `compiler.h` is not in the
sources; a present token that is a keyword spelled `value`. -/
def token_is_keyword (t : Option token) (value : String) : Bool :=
  match t with
  | none => false
  | some tok => decide (tok.type = TOKEN_TYPE_KEYWORD) && decide (tok.sval = value)

/-! ## The vector helper -/

/-- Modelled from the spec: `helpers/vector.h` is not in the sources.  A vector
is its elements, a peek index and a stack of saved peek indices. -/
structure vector (α : Type) where
  data : List α
  pindex : Nat
  saves : List Nat
  deriving Repr

/-- Modelled from the spec: `vector_create`, an empty vector. -/
def vector_create {α : Type} : vector α := ⟨[], 0, []⟩

/-- Modelled from the spec: `vector_push` appends one element at the end. -/
def vector_push {α : Type} (v : vector α) (x : α) : vector α :=
  { v with data := v.data ++ [x] }

/-- Modelled from the spec: `vector_count`, the number of elements. -/
def vector_count {α : Type} (v : vector α) : Nat := v.data.length

/-- Modelled from the spec: `vector_set_peek_pointer` moves the peek index. -/
def vector_set_peek_pointer {α : Type} (v : vector α) (i : Nat) : vector α :=
  { v with pindex := i }

/-- Modelled from the spec: `vector_peek_no_increment`, the element at the peek
index without advancing, absent when the index is past the end. -/
def vector_peek_no_increment {α : Type} (v : vector α) : Option α :=
  v.data[v.pindex]?

/-- Modelled from the spec: `vector_peek` (and `vector_peek_ptr`, its variant
for vectors of pointers) returns the element at the peek index and advances the
index; at the end it returns absence and leaves the index where it is. -/
def vector_peek {α : Type} (v : vector α) : Option α × vector α :=
  match v.data[v.pindex]? with
  | none => (none, v)
  | some x => (some x, { v with pindex := v.pindex + 1 })

/-- Modelled from the spec: `vector_peek_at`, the element at a given index,
absent when the index is negative or past the end. -/
def vector_peek_at {α : Type} (v : vector α) (index : Int) : Option α :=
  if index < 0 then none else v.data[index.toNat]?

/-- Modelled from the spec: `vector_back`, the last element. -/
def vector_back {α : Type} (v : vector α) : Option α := v.data.getLast?

/-- Modelled from the spec: `vector_pop_last_peek` of `helpers/vector.h` is not
in the sources, and the specification names only the removal it is used for.
It removes the element most recently returned by a peek, the one in slot
`pindex - 1`; the elements after it move down one slot and the peek index keeps
its value. -/
def vector_pop_last_peek {α : Type} (v : vector α) : vector α :=
  { v with data := v.data.eraseIdx (v.pindex - 1) }

/-- Modelled from the spec: `vector_save` pushes a checkpoint of the peek
index. -/
def vector_save {α : Type} (v : vector α) : vector α :=
  { v with saves := v.pindex :: v.saves }

/-- Modelled from the spec: `vector_restore` pops the newest checkpoint and
moves the peek index back to it.  Every restore in the preprocessor follows its
own save, so the empty stack is left as it is. -/
def vector_restore {α : Type} (v : vector α) : vector α :=
  match v.saves with
  | [] => v
  | p :: rest => { v with pindex := p, saves := rest }

/-- Modelled from the spec: `vector_save_purge` drops the newest checkpoint and
keeps the peek index. -/
def vector_save_purge {α : Type} (v : vector α) : vector α :=
  { v with saves := v.saves.tail }

/-! ## The definition table -/

/-- Kinds of definition record (`compiler.h`). -/
inductive definition_type where
  | PREPROCESSOR_DEFINITION_STANDARD
  | PREPROCESSOR_DEFINITION_MACRO_FUNCTION
  | PREPROCESSOR_DEFINITION_NATIVE_CALLBACK
  | PREPROCESSOR_DEFINITION_TYPEDEF
  deriving DecidableEq, Repr

open definition_type

/-- A definition record (`struct preprocessor_definition`): kind, name, the
body tokens (`standard.value`) and the parameter names (`standard.arguments`,
a pointer that may be `NULL`). -/
structure preprocessor_definition where
  type : definition_type
  name : String
  value : List token
  arguments : Option (List String)
  deriving DecidableEq, Repr

/-- The preprocessor instance (`struct preprocessor`).  Every traversal of
`definitions` starts with `vector_set_peek_pointer(..., 0)`, so the peek index
of that vector carries nothing from one call to the next and only its elements
are kept here. -/
structure preprocessor where
  definitions : List preprocessor_definition
  includes : List String
  deriving DecidableEq, Repr

/-- The `while(current_definition)` loop of `preprocessor_definition_remove`:
`cur` is `current_definition`, `v` the definitions vector after the peek that
produced it. -/
def preprocessor_definition_remove_loop (name : String) :
    Nat → vector preprocessor_definition → Option preprocessor_definition →
      Option (vector preprocessor_definition)
  | _, v, none => some v
  | 0, _, some _ => none
  | fuel + 1, v, some cur =>
    let v1 := if cur.name = name then vector_pop_last_peek v else v
    let r := vector_peek v1
    preprocessor_definition_remove_loop name fuel r.2 r.1

/-- Translation of `preprocessor_definition_remove`, lines 579-592.  The loop
peeks at most `count + 1` times; `remove_loop_spec` shows the fuel given here
is always enough. -/
def preprocessor_definition_remove (p : preprocessor) (name : String) : preprocessor :=
  let v0 : vector preprocessor_definition := ⟨p.definitions, 0, []⟩
  let r := vector_peek v0
  match preprocessor_definition_remove_loop name (vector_count v0) r.2 r.1 with
  | some v => { p with definitions := v.data }
  | none => p

/-- Translation of `preprocessor_definition_create`, lines 593-612: the new
record is returned together with the updated preprocessor. -/
def preprocessor_definition_create (name : String) (value_vec : List token)
    (arguments : Option (List String)) (p : preprocessor) :
    preprocessor_definition × preprocessor :=
  let p1 := preprocessor_definition_remove p name
  let ty :=
    match arguments with
    | some args => if args.length ≠ 0 then PREPROCESSOR_DEFINITION_MACRO_FUNCTION
                   else PREPROCESSOR_DEFINITION_STANDARD
    | none => PREPROCESSOR_DEFINITION_STANDARD
  let definition : preprocessor_definition :=
    { type := ty, name := name, value := value_vec, arguments := arguments }
  (definition, { p1 with definitions := p1.definitions ++ [definition] })

/-- The `while(definition)` loop of `preprocessor_get_definition`. -/
def preprocessor_get_definition_loop (name : String) :
    Nat → vector preprocessor_definition → Option preprocessor_definition →
      Option (Option preprocessor_definition)
  | _, _, none => some none
  | 0, _, some _ => none
  | fuel + 1, v, some d =>
    if d.name = name then some (some d)
    else
      let r := vector_peek v
      preprocessor_get_definition_loop name fuel r.2 r.1

/-- Translation of `preprocessor_get_definition`, lines 614-629; the fuel given
is always enough (`get_loop_spec`). -/
def preprocessor_get_definition (p : preprocessor) (name : String) :
    Option preprocessor_definition :=
  let v0 : vector preprocessor_definition := ⟨p.definitions, 0, []⟩
  let r := vector_peek v0
  match preprocessor_get_definition_loop name (vector_count v0) r.2 r.1 with
  | some d => d
  | none => none

/-! ## Outcomes, expression nodes and the host -/

/-- Ways a call can fail to return: a fatal diagnostic (`compiler_error`
aborts the run), a dereference of `NULL`, or the fuel of the embedding running
out before the C loop exits. -/
inductive Fault where
  | fatal (msg : String)
  | null_deref
  | outOfFuel
  deriving DecidableEq, Repr

/-- Result of a call that may not return normally. -/
abbrev Res (α : Type) := Except Fault α

/-- Expression nodes (`struct preprocessor_node`), one constructor per tag of
the node enum, carrying the fields that tag uses. -/
inductive preprocessor_node where
  | PREPROCESSOR_NUMBER_NODE (llnum : Int)
  | PREPROCESSOR_IDENTIFIER_NODE (sval : String)
  | PREPROCESSOR_KEYWORD_NODE (sval : String)
  | PREPROCESSOR_UNARY_NODE (op : String) (operand_node : preprocessor_node)
  | PREPROCESSOR_EXPRESSION_NODE (left right : preprocessor_node) (op : String)
  | PREPROCESSOR_PARENTHESES_NODE (exp : preprocessor_node)
  | PREPROCESSOR_JOINED_NODE (left right : preprocessor_node)
  | PREPROCESSOR_TENARY_NODE (true_node false_node : preprocessor_node)
  deriving DecidableEq, Repr

open preprocessor_node

/-- The collaborators that are declared in `compiler.h` and not part of the
sources.  `expressionable_parse is_preprocessor_expression tokens pindex`
stands for `expressionable_create`, `expressionable_parse` and
`expressionable_node_pop` on a token vector whose peek index is `pindex`: it
yields the root node (absent when no node was produced) and the number of
tokens the parser consumed, or fails.  `arithmetic left right op` yields the
value and the success flag of the host primitive. -/
structure Host where
  expressionable_parse : Bool → List token → Nat → Res (Option preprocessor_node × Nat)
  arithmetic : Int → Int → String → Int × Bool

/-- Conversion of a wider integer to the C type `int` (32 bits, wrapping). -/
def to_int (x : Int) : Int := (x + 2147483648) % 4294967296 - 2147483648

/-- The compile context (`struct compile_process`): the input token vector with
the cursor, the output token vector, the preprocessor instance, and the
warnings handed to the diagnostic sink so far. -/
structure compile_process where
  token_vec_original : vector token
  token_vec : vector token
  preprocessor : preprocessor
  warnings : List String
  deriving Repr

/-! ## Token cursor and output -/

/-- Translation of `preprocessor_token_push_to_dst`, lines 206-210. -/
def preprocessor_token_push_to_dst (token_vec : vector token) (t : token) : vector token :=
  vector_push token_vec t

/-- Translation of `preprocessor_token_push_dst`, lines 212-215. -/
def preprocessor_token_push_dst (c : compile_process) (t : token) : compile_process :=
  { c with token_vec := preprocessor_token_push_to_dst c.token_vec t }

/-- Translation of `preprocessor_previous_token`, lines 254-257. -/
def preprocessor_previous_token (c : compile_process) : Option token :=
  vector_peek_at c.token_vec_original ((c.token_vec_original.pindex : Int) - 1)

/-- Translation of `preprocessor_next_token`, lines 259-262. -/
def preprocessor_next_token (c : compile_process) : Option token × compile_process :=
  let r := vector_peek c.token_vec_original
  (r.1, { c with token_vec_original := r.2 })

/-- Translation of `preprocessor_next_token_no_increment`, lines 264-267. -/
def preprocessor_next_token_no_increment (c : compile_process) : Option token :=
  vector_peek_no_increment c.token_vec_original

/-- The `while` loop of `preprocessor_peek_next_token_skip_nl`. -/
def preprocessor_peek_next_token_skip_nl_loop :
    Nat → compile_process → Option token → Res compile_process
  | 0, _, _ => .error Fault.outOfFuel
  | fuel + 1, c, t =>
    match t with
    | none => .ok c
    | some tok =>
      if tok.type = TOKEN_TYPE_NEWLINE then
        let r := preprocessor_next_token c
        preprocessor_peek_next_token_skip_nl_loop fuel r.2 r.1
      else .ok c

/-- Translation of `preprocessor_peek_next_token_skip_nl`, lines 269-278. -/
def preprocessor_peek_next_token_skip_nl (fuel : Nat) (c : compile_process) :
    Res (Option token × compile_process) :=
  match preprocessor_peek_next_token_skip_nl_loop fuel c
      (preprocessor_next_token_no_increment c) with
  | .error e => .error e
  | .ok c1 => .ok (preprocessor_next_token_no_increment c1, c1)

/-! ## Directive keywords -/

/-- Translation of `preprocessor_is_preprocessor_keyword`, lines 443-457. -/
def preprocessor_is_preprocessor_keyword (value : String) : Bool :=
  decide (value = "define") || decide (value = "undef") || decide (value = "warning") ||
  decide (value = "error") || decide (value = "if") || decide (value = "eleif") ||
  decide (value = "ifdef") || decide (value = "ifndef") || decide (value = "endif") ||
  decide (value = "include") || decide (value = "typedef")

/-- Translation of `preprocessor_token_is_preprocessor_keyword`, lines 458-461;
`&&` binds tighter than `||` in C. -/
def preprocessor_token_is_preprocessor_keyword (t : token) : Bool :=
  decide (t.type = TOKEN_TYPE_IDENTIFIER) ||
    (decide (t.type = TOKEN_TYPE_KEYWORD) && preprocessor_is_preprocessor_keyword t.sval)

/-- Translation of `preprocessor_token_is_define`, lines 462-470. -/
def preprocessor_token_is_define (t : token) : Bool :=
  if !preprocessor_token_is_preprocessor_keyword t then false else decide (t.sval = "define")

/-- Translation of `preprocessor_token_is_undef`, lines 471-479. -/
def preprocessor_token_is_undef (t : token) : Bool :=
  if !preprocessor_token_is_preprocessor_keyword t then false else decide (t.sval = "undef")

/-- Translation of `preprocessor_token_is_warning`, lines 481-489. -/
def preprocessor_token_is_warning (t : token) : Bool :=
  if !preprocessor_token_is_preprocessor_keyword t then false else decide (t.sval = "warning")

/-- Translation of `preprocessor_token_is_error`, lines 490-498. -/
def preprocessor_token_is_error (t : token) : Bool :=
  if !preprocessor_token_is_preprocessor_keyword t then false else decide (t.sval = "error")

/-- Translation of `preprocessor_token_is_if`, lines 500-508. -/
def preprocessor_token_is_if (t : token) : Bool :=
  if !preprocessor_token_is_preprocessor_keyword t then false else decide (t.sval = "if")

/-- Translation of `preprocessor_token_is_ifdef`, lines 510-518. -/
def preprocessor_token_is_ifdef (t : token) : Bool :=
  if !preprocessor_token_is_preprocessor_keyword t then false else decide (t.sval = "ifdef")

/-- Translation of `preprocessor_token_is_ifndef`, lines 520-528. -/
def preprocessor_token_is_ifndef (t : token) : Bool :=
  if !preprocessor_token_is_preprocessor_keyword t then false else decide (t.sval = "ifndef")

/-! ## Capture of the rest of a directive line -/

/-- The `while(value_token)` loop of `preprocessor_multi_value_string`; `buffer`
is the text printed so far. -/
def preprocessor_multi_value_string_loop :
    Nat → compile_process → String → Option token → Res (String × compile_process)
  | 0, _, _, _ => .error Fault.outOfFuel
  | fuel + 1, c, buffer, value_token =>
    match value_token with
    | none => .ok (buffer, c)
    | some tok =>
      if tok.type = TOKEN_TYPE_NEWLINE then .ok (buffer, c)
      else if token_is_symbol (some tok) '\\' then
        let c1 := (preprocessor_next_token c).2
        let r := preprocessor_next_token c1
        preprocessor_multi_value_string_loop fuel r.2 buffer r.1
      else
        let r := preprocessor_next_token c
        preprocessor_multi_value_string_loop fuel r.2 (buffer ++ tok.sval) r.1

/-- Translation of `preprocessor_multi_value_string`, lines 530-554. -/
def preprocessor_multi_value_string (fuel : Nat) (c : compile_process) :
    Res (String × compile_process) :=
  let r := preprocessor_next_token c
  preprocessor_multi_value_string_loop fuel r.2 "" r.1

/-- The `while(value_token)` loop of `preprocessor_multi_value_insert_to_vector`. -/
def preprocessor_multi_value_insert_to_vector_loop :
    Nat → compile_process → vector token → Option token → Res (vector token × compile_process)
  | 0, _, _, _ => .error Fault.outOfFuel
  | fuel + 1, c, value_token_vec, value_token =>
    match value_token with
    | none => .ok (value_token_vec, c)
    | some tok =>
      if tok.type = TOKEN_TYPE_NEWLINE then .ok (value_token_vec, c)
      else if token_is_symbol (some tok) '\\' then
        let c1 := (preprocessor_next_token c).2
        let r := preprocessor_next_token c1
        preprocessor_multi_value_insert_to_vector_loop fuel r.2 value_token_vec r.1
      else
        let r := preprocessor_next_token c
        preprocessor_multi_value_insert_to_vector_loop fuel r.2 (vector_push value_token_vec tok) r.1

/-- Translation of `preprocessor_multi_value_insert_to_vector`, lines 556-577. -/
def preprocessor_multi_value_insert_to_vector (fuel : Nat) (c : compile_process)
    (value_token_vec : vector token) : Res (vector token × compile_process) :=
  let r := preprocessor_next_token c
  preprocessor_multi_value_insert_to_vector_loop fuel r.2 value_token_vec r.1

/-! ## `#define` and `#undef` -/

/-- Translation of `preprocessor_is_next_macro_arguments`, lines 695-709. -/
def preprocessor_is_next_macro_arguments (c : compile_process) : Bool × compile_process :=
  let c1 := { c with token_vec_original := vector_save c.token_vec_original }
  let last_token := preprocessor_previous_token c1
  let r := preprocessor_next_token c1
  let res :=
    token_is_operator r.1 "(" &&
      (match last_token with
       | none => true
       | some lt => !lt.whitespace)
  (res, { r.2 with token_vec_original := vector_restore r.2.token_vec_original })

/-- The `while(!token_is_symbol(next_token, ')'))` loop of
`preprocessor_parse_macro_argument_declaration`. -/
def preprocessor_parse_macro_argument_declaration_loop :
    Nat → compile_process → vector String → Option token → Res (vector String × compile_process)
  | 0, _, _, _ => .error Fault.outOfFuel
  | fuel + 1, c, arguments, next_token =>
    if token_is_symbol next_token ')' then .ok (arguments, c)
    else
      match next_token with
      | none => .error Fault.null_deref
      | some tok =>
        if tok.type ≠ TOKEN_TYPE_IDENTIFIER then
          .error (Fault.fatal "You must provide an identifier in the preprocessor definition!")
        else
          let arguments1 := vector_push arguments tok.sval
          let r := preprocessor_next_token c
          if !token_is_operator r.1 "," && !token_is_symbol r.1 ')' then
            .error (Fault.fatal "Incomplete sequence for macro arguments")
          else if token_is_symbol r.1 ')' then .ok (arguments1, r.2)
          else
            let r2 := preprocessor_next_token r.2
            preprocessor_parse_macro_argument_declaration_loop fuel r2.2 arguments1 r2.1

/-- Translation of `preprocessor_parse_macro_argument_declaration`, lines
711-741. -/
def preprocessor_parse_macro_argument_declaration (fuel : Nat) (c : compile_process)
    (arguments : vector String) : Res (vector String × compile_process) :=
  if token_is_operator (preprocessor_next_token_no_increment c) "(" then
    let c1 := (preprocessor_next_token c).2
    let r := preprocessor_next_token c1
    preprocessor_parse_macro_argument_declaration_loop fuel r.2 arguments r.1
  else .ok (arguments, c)

/-- Translation of `preprocessor_handle_definition_token`, lines 742-757.  The
name token is dereferenced last, in the call of `preprocessor_definition_create`. -/
def preprocessor_handle_definition_token (fuel : Nat) (c : compile_process) :
    Res compile_process :=
  let rn := preprocessor_next_token c
  let name_token := rn.1
  let arguments : vector String := vector_create
  let ra := preprocessor_is_next_macro_arguments rn.2
  let parsed : Res (vector String × compile_process) :=
    if ra.1 then preprocessor_parse_macro_argument_declaration fuel ra.2 arguments
    else .ok (arguments, ra.2)
  match parsed with
  | .error e => .error e
  | .ok (arguments1, c2) =>
    match preprocessor_multi_value_insert_to_vector fuel c2 vector_create with
    | .error e => .error e
    | .ok (value_token_vec, c3) =>
      match name_token with
      | none => .error Fault.null_deref
      | some nt =>
        .ok { c3 with preprocessor :=
                (preprocessor_definition_create nt.sval value_token_vec.data
                  (some arguments1.data) c3.preprocessor).2 }

/-- Translation of `preprocessor_handle_undef_token`, lines 759-763. -/
def preprocessor_handle_undef_token (c : compile_process) : Res compile_process :=
  let r := preprocessor_next_token c
  match r.1 with
  | none => .error Fault.null_deref
  | some name_token =>
    .ok { r.2 with preprocessor := preprocessor_definition_remove r.2.preprocessor name_token.sval }

/-! ## `#warning` and `#error` -/

/-- Translation of `preprocessor_execute_warning`, lines 104-107: the message
goes to the diagnostic sink and the run continues. -/
def preprocessor_execute_warning (c : compile_process) (msg : String) : compile_process :=
  { c with warnings := c.warnings ++ ["#warning " ++ msg] }

/-- Translation of `preprocessor_execute_error`, lines 109-112: `compiler_error`
does not return. -/
def preprocessor_execute_error (_c : compile_process) (msg : String) : Res compile_process :=
  .error (Fault.fatal ("#error " ++ msg))

/-- Translation of `preprocessor_handle_warning_token`, lines 764-768. -/
def preprocessor_handle_warning_token (fuel : Nat) (c : compile_process) : Res compile_process :=
  match preprocessor_multi_value_string fuel c with
  | .error e => .error e
  | .ok (str_buf, c1) => .ok (preprocessor_execute_warning c1 str_buf)

/-- Translation of `preprocessor_handle_error_token`, lines 770-774. -/
def preprocessor_handle_error_token (fuel : Nat) (c : compile_process) : Res compile_process :=
  match preprocessor_multi_value_string fuel c with
  | .error e => .error e
  | .ok (str_buf, c1) => preprocessor_execute_error c1 str_buf

/-! ## The constant-expression evaluator

`preprocessor_evaluate` and its helpers call one another; each helper takes the
recursive call as its argument `evaluate` and `preprocessor_evaluate` ties the
knot on the fuel. -/

/-- Translation of `preprocessor_definition_value_for_standard`, lines 632-635. -/
def preprocessor_definition_value_for_standard (definition : preprocessor_definition) :
    List token := definition.value

/-- Translation of `preprocessor_definition_value_with_arguments`, lines
637-652; `none` is the `NULL` result. -/
def preprocessor_definition_value_with_arguments (definition : preprocessor_definition) :
    Option (List token) :=
  if definition.type = PREPROCESSOR_DEFINITION_NATIVE_CALLBACK then none
  else if definition.type = PREPROCESSOR_DEFINITION_TYPEDEF then none
  else some (preprocessor_definition_value_for_standard definition)

/-- Translation of `preprocessor_definition_value`, lines 653-656. -/
def preprocessor_definition_value (definition : preprocessor_definition) :
    Option (List token) :=
  preprocessor_definition_value_with_arguments definition

/-- Translation of `preprocessor_evaluate_number`, lines 854-857; the result
type is `int`. -/
def preprocessor_evaluate_number (node : preprocessor_node) : Int :=
  match node with
  | PREPROCESSOR_NUMBER_NODE llnum => to_int llnum
  | _ => 0

/-- Translation of `preprocessor_parse_evaluate`, lines 934-941: the parser
runs on `token_vec` from its peek index, the root node is evaluated, and the
vector is returned with the peek index moved past the tokens consumed. -/
def preprocessor_parse_evaluate (host : Host) (evaluate : preprocessor_node → Res Int)
    (token_vec : vector token) : Res (Int × vector token) :=
  match host.expressionable_parse false token_vec.data token_vec.pindex with
  | .error e => .error e
  | .ok (root_node, consumed) =>
    match root_node with
    | none => .error Fault.null_deref
    | some root =>
      match evaluate root with
      | .error e => .error e
      | .ok result => .ok (result, { token_vec with pindex := token_vec.pindex + consumed })

/-- Translation of `preprocessor_parse_evaluate_token`, lines 658-663. -/
def preprocessor_parse_evaluate_token (host : Host) (evaluate : preprocessor_node → Res Int)
    (t : token) : Res Int :=
  let token_vec : vector token := vector_push vector_create t
  match preprocessor_parse_evaluate host evaluate token_vec with
  | .error e => .error e
  | .ok r => .ok r.1

/-- Translation of `preprocessor_definition_evaluated_value_for_standard`,
lines 665-678. -/
def preprocessor_definition_evaluated_value_for_standard (host : Host)
    (evaluate : preprocessor_node → Res Int) (definition : preprocessor_definition) : Res Int :=
  match vector_back (⟨definition.value, 0, []⟩ : vector token) with
  | none => .error Fault.null_deref
  | some tok =>
    if tok.type = TOKEN_TYPE_IDENTIFIER then preprocessor_parse_evaluate_token host evaluate tok
    else if tok.type ≠ TOKEN_TYPE_NUMBER then
      .error (Fault.fatal "The definition must hold a number value. Unable to use macro IF")
    else .ok (to_int tok.llnum)

/-- Translation of `preprocessor_definition_evaluated_value`, lines 680-694. -/
def preprocessor_definition_evaluated_value (host : Host)
    (evaluate : preprocessor_node → Res Int) (definition : preprocessor_definition) : Res Int :=
  if definition.type = PREPROCESSOR_DEFINITION_STANDARD then
    preprocessor_definition_evaluated_value_for_standard host evaluate definition
  else if definition.type = PREPROCESSOR_DEFINITION_NATIVE_CALLBACK then .ok (-1)
  else .error (Fault.fatal "The definition cannot be evaluated into a number")

/-- Translation of `preprocessor_evaluate_identifier`, lines 859-884.  A body of
more than one token is parsed from its first token. -/
def preprocessor_evaluate_identifier (host : Host) (evaluate : preprocessor_node → Res Int)
    (p : preprocessor) (sval : String) : Res Int :=
  match preprocessor_get_definition p sval with
  | none => .ok 1
  | some definition =>
    match preprocessor_definition_value definition with
    | none => .error Fault.null_deref
    | some value =>
      if value.length > 1 then
        match host.expressionable_parse true value 0 with
        | .error e => .error e
        | .ok (none, _) => .error Fault.null_deref
        | .ok (some node, _) => evaluate node
      else if value.length = 0 then .ok 0
      else preprocessor_definition_evaluated_value host evaluate definition

/-- Translation of `preprocessor_arithmetic`, lines 886-895; the result type is
`int`. -/
def preprocessor_arithmetic (host : Host) (left_operand right_operand : Int) (op : String) :
    Res Int :=
  let r := host.arithmetic left_operand right_operand op
  if !r.2 then
    .error (Fault.fatal
      ("We do not support the operator " ++ op ++ " for preprocessor arithmetic\n"))
  else .ok (to_int r.1)

/-- Translation of `preprocessor_evaluate_exp`, lines 896-912. -/
def preprocessor_evaluate_exp (host : Host) (evaluate : preprocessor_node → Res Int)
    (left right : preprocessor_node) (op : String) : Res Int :=
  match evaluate left with
  | .error e => .error e
  | .ok left_operand =>
    match evaluate right with
    | .error e => .error e
    | .ok right_operand => preprocessor_arithmetic host left_operand right_operand op

/-- Translation of `preprocessor_evaluate`, lines 913-932. -/
def preprocessor_evaluate (host : Host) (p : preprocessor) :
    Nat → preprocessor_node → Res Int
  | 0, _ => .error Fault.outOfFuel
  | fuel + 1, current =>
    match current with
    | PREPROCESSOR_NUMBER_NODE llnum =>
      .ok (preprocessor_evaluate_number (PREPROCESSOR_NUMBER_NODE llnum))
    | PREPROCESSOR_IDENTIFIER_NODE sval =>
      preprocessor_evaluate_identifier host (preprocessor_evaluate host p fuel) p sval
    | PREPROCESSOR_EXPRESSION_NODE left right op =>
      preprocessor_evaluate_exp host (preprocessor_evaluate host p fuel) left right op
    | _ => .ok 0

/-! ## The conditional engine -/

/-- Translation of `preprocessor_hashtag_and_identifier`, lines 776-805. -/
def preprocessor_hashtag_and_identifier (c : compile_process) (str : String) :
    Option token × compile_process :=
  if (preprocessor_next_token_no_increment c).isNone then (none, c)
  else if !token_is_symbol (preprocessor_next_token_no_increment c) '#' then (none, c)
  else
    let c1 := { c with token_vec_original := vector_save c.token_vec_original }
    let c2 := (preprocessor_next_token c1).2
    let target_token := preprocessor_next_token_no_increment c2
    if (token_is_identifier target_token &&
          (match target_token with
           | some tt => decide (tt.sval = str)
           | none => false)) ||
        token_is_keyword target_token str then
      let c3 := (preprocessor_next_token c2).2
      (target_token, { c3 with token_vec_original := vector_save_purge c3.token_vec_original })
    else
      (none, { c2 with token_vec_original := vector_restore c2.token_vec_original })

/-- Translation of `preprocessor_is_hashtag_and_any_starting_if`, lines 815-820;
`||` stops at the first probe that succeeds. -/
def preprocessor_is_hashtag_and_any_starting_if (c : compile_process) :
    Bool × compile_process :=
  let r1 := preprocessor_hashtag_and_identifier c "if"
  if r1.1.isSome then (true, r1.2)
  else
    let r2 := preprocessor_hashtag_and_identifier r1.2 "ifdef"
    if r2.1.isSome then (true, r2.2)
    else
      let r3 := preprocessor_hashtag_and_identifier r2.2 "ifndef"
      (r3.1.isSome, r3.2)

/-- Translation of `preprocessor_skip_to_endif`, lines 822-833. -/
def preprocessor_skip_to_endif : Nat → compile_process → Res compile_process
  | 0, _ => .error Fault.outOfFuel
  | fuel + 1, c =>
    let r := preprocessor_hashtag_and_identifier c "endif"
    if r.1.isSome then .ok r.2
    else
      let s := preprocessor_is_hashtag_and_any_starting_if r.2
      if s.1 then
        match preprocessor_skip_to_endif fuel s.2 with
        | .error e => .error e
        | .ok c1 => preprocessor_skip_to_endif fuel c1
      else
        preprocessor_skip_to_endif fuel (preprocessor_next_token s.2).2

/-- Translation of `preprocessor_read_to_end_if`, lines 835-853; `handle_token`
is the call of `preprocessor_handle_token`. -/
def preprocessor_read_to_end_if
    (handle_token : compile_process → Option token → Res compile_process) :
    Nat → compile_process → Bool → Res compile_process
  | 0, _, _ => .error Fault.outOfFuel
  | fuel + 1, c, true_clause =>
    if (preprocessor_next_token_no_increment c).isNone then .ok c
    else
      let r := preprocessor_hashtag_and_identifier c "endif"
      if r.1.isSome then .ok r.2
      else if true_clause then
        let n := preprocessor_next_token r.2
        match handle_token n.2 n.1 with
        | .error e => .error e
        | .ok c1 => preprocessor_read_to_end_if handle_token fuel c1 true_clause
      else
        let c1 := (preprocessor_next_token r.2).2
        let s := preprocessor_is_hashtag_and_any_starting_if c1
        if s.1 then
          match preprocessor_skip_to_endif fuel s.2 with
          | .error e => .error e
          | .ok c2 => preprocessor_read_to_end_if handle_token fuel c2 true_clause
        else preprocessor_read_to_end_if handle_token fuel s.2 true_clause

/-- Translation of `preprocessor_handle_if_token`, lines 943-947. -/
def preprocessor_handle_if_token (host : Host)
    (handle_token : compile_process → Option token → Res compile_process)
    (fuel : Nat) (c : compile_process) : Res compile_process :=
  match preprocessor_parse_evaluate host (preprocessor_evaluate host c.preprocessor fuel)
      c.token_vec_original with
  | .error e => .error e
  | .ok (result, v) =>
    preprocessor_read_to_end_if handle_token fuel { c with token_vec_original := v }
      (decide (result > 0))

/-- Translation of `preprocessor_handle_ifdef_token`, lines 949-961. -/
def preprocessor_handle_ifdef_token
    (handle_token : compile_process → Option token → Res compile_process)
    (fuel : Nat) (c : compile_process) : Res compile_process :=
  let r := preprocessor_next_token c
  match r.1 with
  | none => .error (Fault.fatal "No condition token was provided.\n")
  | some condition_token =>
    let definition := preprocessor_get_definition r.2.preprocessor condition_token.sval
    preprocessor_read_to_end_if handle_token fuel r.2 definition.isSome

/-- Translation of `preprocessor_handle_ifndef_token`, lines 964-974. -/
def preprocessor_handle_ifndef_token
    (handle_token : compile_process → Option token → Res compile_process)
    (fuel : Nat) (c : compile_process) : Res compile_process :=
  let r := preprocessor_next_token c
  match r.1 with
  | none => .error (Fault.fatal "No condition token was provided\n")
  | some condition_token =>
    let definition := preprocessor_get_definition r.2.preprocessor condition_token.sval
    preprocessor_read_to_end_if handle_token fuel r.2 definition.isNone

/-! ## Dispatcher and driver -/

/-- Translation of `preprocessor_handle_hashtag_token`, lines 976-1018: the
result is `is_preprocessed` together with the new state. -/
def preprocessor_handle_hashtag_token (host : Host)
    (handle_token : compile_process → Option token → Res compile_process)
    (fuel : Nat) (c : compile_process) (_t : token) : Res (Bool × compile_process) :=
  let r := preprocessor_next_token c
  match r.1 with
  | none => .error Fault.null_deref
  | some next_token =>
    if preprocessor_token_is_define next_token then
      (preprocessor_handle_definition_token fuel r.2).map (fun c1 => (true, c1))
    else if preprocessor_token_is_undef next_token then
      (preprocessor_handle_undef_token r.2).map (fun c1 => (true, c1))
    else if preprocessor_token_is_warning next_token then
      (preprocessor_handle_warning_token fuel r.2).map (fun c1 => (true, c1))
    else if preprocessor_token_is_error next_token then
      (preprocessor_handle_error_token fuel r.2).map (fun c1 => (true, c1))
    else if preprocessor_token_is_if next_token then
      (preprocessor_handle_if_token host handle_token fuel r.2).map (fun c1 => (true, c1))
    else if preprocessor_token_is_ifdef next_token then
      (preprocessor_handle_ifdef_token handle_token fuel r.2).map (fun c1 => (true, c1))
    else if preprocessor_token_is_ifndef next_token then
      (preprocessor_handle_ifndef_token handle_token fuel r.2).map (fun c1 => (true, c1))
    else .ok (false, r.2)

/-- Translation of `preprocessor_handle_symbol`, lines 1019-1031. -/
def preprocessor_handle_symbol (host : Host)
    (handle_token : compile_process → Option token → Res compile_process)
    (fuel : Nat) (c : compile_process) (t : token) : Res compile_process :=
  let r : Res (Bool × compile_process) :=
    if t.cval = '#' then preprocessor_handle_hashtag_token host handle_token fuel c t
    else .ok (false, c)
  match r with
  | .error e => .error e
  | .ok (is_preprocessed, c1) =>
    if !is_preprocessed then .ok (preprocessor_token_push_dst c1 t) else .ok c1

/-- Translation of `preprocessor_handle_token`, lines 1032-1050.  The token
pointer is dereferenced at once, so an absent token is a `NULL` dereference. -/
def preprocessor_handle_token (host : Host) :
    Nat → compile_process → Option token → Res compile_process
  | 0, _, _ => .error Fault.outOfFuel
  | _ + 1, _, none => .error Fault.null_deref
  | fuel + 1, c, some t =>
    match t.type with
    | TOKEN_TYPE_SYMBOL =>
      preprocessor_handle_symbol host (preprocessor_handle_token host fuel) fuel c t
    | TOKEN_TYPE_NEWLINE => .ok c
    | _ => .ok (preprocessor_token_push_dst c t)

/-- The `while(token)` loop of `preprocessor_run`. -/
def preprocessor_run_loop (host : Host) :
    Nat → compile_process → Option token → Res compile_process
  | 0, _, _ => .error Fault.outOfFuel
  | fuel + 1, c, t =>
    match t with
    | none => .ok c
    | some tok =>
      match preprocessor_handle_token host fuel c (some tok) with
      | .error e => .error e
      | .ok c1 =>
        let r := preprocessor_next_token c1
        preprocessor_run_loop host fuel r.2 r.1

/-- Translation of `preprocessor_run`, lines 1051-1063. -/
def preprocessor_run (host : Host) (fuel : Nat) (c : compile_process) : Res compile_process :=
  let c0 := { c with token_vec_original := vector_set_peek_pointer c.token_vec_original 0 }
  let r := preprocessor_next_token c0
  preprocessor_run_loop host fuel r.2 r.1

/-! ## Auxiliary definitions used by the statements -/

/-- What the loop of `preprocessor_definition_remove` leaves of a list of
records: a record named `name` is dropped, and the record that moves into its
slot is passed over by the next peek without being compared. -/
def remove_skip (name : String) : List preprocessor_definition → List preprocessor_definition
  | [] => []
  | [d] => if d.name = name then [] else [d]
  | d :: e :: rest =>
    if d.name = name then e :: remove_skip name rest
    else d :: remove_skip name (e :: rest)

/-- A call on the definition table: `preprocessor_definition_create` or
`preprocessor_definition_remove`. -/
inductive table_op where
  | create (name : String) (value_vec : List token) (arguments : Option (List String))
  | remove (name : String)
  deriving DecidableEq, Repr

/-- The identifier a table call names. -/
def table_op.name : table_op → String
  | .create name _ _ => name
  | .remove name => name

/-- The table after one call. -/
def table_op.run (p : preprocessor) : table_op → preprocessor
  | .create name value_vec arguments =>
    (preprocessor_definition_create name value_vec arguments p).2
  | .remove name => preprocessor_definition_remove p name

/-- The table after a sequence of calls, first call first. -/
def run_table_ops (p : preprocessor) (ops : List table_op) : preprocessor :=
  ops.foldl table_op.run p

/-- No two records of the table share a name. -/
def names_unique (p : preprocessor) : Prop :=
  (p.definitions.map (fun d => d.name)).Nodup

/-- The records of the table that are named `name`, in table order. -/
def records_named (p : preprocessor) (name : String) : List preprocessor_definition :=
  p.definitions.filter (fun d => decide (d.name = name))

/-- An identifier token. -/
def tok_identifier (s : String) : token := ⟨TOKEN_TYPE_IDENTIFIER, s, ' ', 0, false⟩

/-- A keyword token. -/
def tok_keyword (s : String) : token := ⟨TOKEN_TYPE_KEYWORD, s, ' ', 0, false⟩

/-- A number token. -/
def tok_number (n : Int) : token := ⟨TOKEN_TYPE_NUMBER, "", ' ', n, false⟩

/-- A symbol token. -/
def tok_symbol (ch : Char) : token := ⟨TOKEN_TYPE_SYMBOL, "", ch, 0, false⟩

/-- The newline token. -/
def tok_newline : token := ⟨TOKEN_TYPE_NEWLINE, "", ' ', 0, false⟩

/-- An object-like record named `name` whose body is the number `n`. -/
def number_definition (name : String) (n : Int) : preprocessor_definition :=
  ⟨PREPROCESSOR_DEFINITION_STANDARD, name, [tok_number n], some []⟩

/-- A compile context at the start of a run over `toks`: cursor at the first
token, empty output, the given definition table, no warnings. -/
def initial_process (toks : List token) (defs : List preprocessor_definition) :
    compile_process :=
  ⟨⟨toks, 0, []⟩, ⟨[], 0, []⟩, ⟨defs, []⟩, []⟩

/-- An operator token. -/
def tok_operator (s : String) : token := ⟨TOKEN_TYPE_OPERATOR, s, ' ', 0, false⟩

/-- The node the sample parser builds for a single token. -/
def sample_primary (t : token) : Res (Option preprocessor_node × Nat) :=
  if t.type = TOKEN_TYPE_NUMBER then .ok (some (PREPROCESSOR_NUMBER_NODE t.llnum), 1)
  else if t.type = TOKEN_TYPE_IDENTIFIER then
    .ok (some (PREPROCESSOR_IDENTIFIER_NODE t.sval), 1)
  else .ok (none, 0)

/-- A small host used for concrete runs.  Its parser reads `number operator
number` as one Binary node and otherwise a single number or identifier token;
its arithmetic supports `+` and `-`. -/
def sample_host : Host where
  expressionable_parse := fun _ toks i =>
    match toks[i]?, toks[i + 1]?, toks[i + 2]? with
    | some a, some o, some b =>
      if a.type = TOKEN_TYPE_NUMBER ∧ o.type = TOKEN_TYPE_OPERATOR ∧
          b.type = TOKEN_TYPE_NUMBER then
        .ok (some (PREPROCESSOR_EXPRESSION_NODE (PREPROCESSOR_NUMBER_NODE a.llnum)
          (PREPROCESSOR_NUMBER_NODE b.llnum) o.sval), 3)
      else sample_primary a
    | some a, _, _ => sample_primary a
    | none, _, _ => .ok (none, 0)
  arithmetic := fun l r op =>
    if op = "+" then (l + r, true) else if op = "-" then (l - r, true) else (0, false)

/-- The input `# if 0 - 1 NL A NL # endif NL B`. -/
def if_minus_one_input : List token :=
  [tok_symbol '#', tok_keyword "if", tok_number 0, tok_operator "-", tok_number 1, tok_newline,
   tok_identifier "A", tok_newline, tok_symbol '#', tok_identifier "endif", tok_newline,
   tok_identifier "B"]

/-- The input `# pragma once NL C`. -/
def pragma_input : List token :=
  [tok_symbol '#', tok_identifier "pragma", tok_identifier "once", tok_newline,
   tok_identifier "C"]

/-- A skipped body that starts with a nested conditional, followed by the outer
`#endif`: `# ifdef Y NL A NL # endif NL B NL # endif NL C`. -/
def nested_first_body : List token :=
  [tok_symbol '#', tok_identifier "ifdef", tok_identifier "Y", tok_newline,
   tok_identifier "A", tok_newline, tok_symbol '#', tok_identifier "endif", tok_newline,
   tok_identifier "B", tok_newline, tok_symbol '#', tok_identifier "endif", tok_newline,
   tok_identifier "C"]

/-- The tokens of `l` in slots `i` to `j - 1`. -/
def segment (l : List token) (i j : Nat) : List token := (l.drop i).take (j - i)

/-- Between `c` and `c'` only the cursor changed, and it did not move back: the
input tokens and the output vector are the same. -/
def cursor_moved (c c' : compile_process) : Prop :=
  c'.token_vec_original.data = c.token_vec_original.data ∧
  c.token_vec_original.pindex ≤ c'.token_vec_original.pindex ∧
  c'.token_vec = c.token_vec

/-- Between `c` and `c'` the input tokens are the same, the cursor did not move
back, and the output grew by tokens `e` that are a subsequence of the input
tokens in slots `lo` to `c'.pindex - 1`, none of them a newline. -/
def emits_from (lo : Nat) (c c' : compile_process) : Prop :=
  c'.token_vec_original.data = c.token_vec_original.data ∧
  c.token_vec_original.pindex ≤ c'.token_vec_original.pindex ∧
  ∃ e : List token, c'.token_vec.data = c.token_vec.data ++ e ∧
    e.Sublist (segment c.token_vec_original.data lo c'.token_vec_original.pindex) ∧
    ∀ t ∈ e, t.type ≠ TOKEN_TYPE_NEWLINE

/-- What the conditional engine needs of the driver it calls back: handling the
token that sits just before the cursor moves the cursor forward only and emits
a newline-free subsequence of the input from that token on. -/
def callback_emits (handle_token : compile_process → Option token → Res compile_process) :
    Prop :=
  ∀ (c : compile_process) (t : token) (c' : compile_process),
    0 < c.token_vec_original.pindex →
    c.token_vec_original.data[c.token_vec_original.pindex - 1]? = some t →
    handle_token c (some t) = .ok c' →
    emits_from (c.token_vec_original.pindex - 1) c c'

/-- Between `c` and `c'` nothing changed but the position of the cursor, which
did not move back: same input tokens and save stack, same output, same
preprocessor instance, same warnings. -/
def cursor_only (c c' : compile_process) : Prop :=
  c.token_vec_original.pindex ≤ c'.token_vec_original.pindex ∧
  c' = { c with token_vec_original :=
          { c.token_vec_original with pindex := c'.token_vec_original.pindex } }

/-- The state `preprocessor_run` returns on `if_minus_one_input` with an empty
table: cursor at the end, `B` in the output. -/
def if_minus_one_result : compile_process :=
  ⟨⟨if_minus_one_input, 12, []⟩, ⟨[tok_identifier "B"], 0, []⟩, ⟨[], []⟩, []⟩

/-- The input `int x NL = ;`, which has no `#`. -/
def plain_input : List token :=
  [tok_keyword "int", tok_identifier "x", tok_newline, tok_symbol '=', tok_symbol ';']

/-- A string token. -/
def tok_string (s : String) : token := ⟨TOKEN_TYPE_STRING, s, ' ', 0, false⟩

/-- The input `# endif NL C`: a bare `#endif` outside any conditional. -/
def bare_endif_input : List token :=
  [tok_symbol '#', tok_identifier "endif", tok_newline, tok_identifier "C"]

/-- The input `# if 4294967296 NL A NL # endif`. -/
def if_wide_number_input : List token :=
  [tok_symbol '#', tok_keyword "if", tok_number 4294967296, tok_newline, tok_identifier "A",
   tok_newline, tok_symbol '#', tok_identifier "endif"]

/-- A table whose record for `X` is of the reserved native-callback kind and
has an empty body. -/
def table_native_X : preprocessor :=
  ⟨[⟨PREPROCESSOR_DEFINITION_NATIVE_CALLBACK, "X", [], none⟩], []⟩

/-- A table whose record for `X` is function-like with an empty body. -/
def table_function_like_X : preprocessor :=
  ⟨[⟨PREPROCESSOR_DEFINITION_MACRO_FUNCTION, "X", [], some ["a"]⟩], []⟩

/-- A table whose record for `S` is object-like with the one-token body `"s"`,
a string. -/
def table_string_S : preprocessor :=
  ⟨[⟨PREPROCESSOR_DEFINITION_STANDARD, "S", [tok_string "s"], some []⟩], []⟩

/-- The rest of a `#define` line in which a `\` is followed by a token that is
not a newline: `a \ b c NL d`. -/
def backslash_mid_line : List token :=
  [tok_identifier "a", tok_symbol '\\', tok_identifier "b", tok_identifier "c", tok_newline,
   tok_identifier "d"]

/-- A parameter list with a trailing comma, `( a , ) x`. -/
def trailing_comma_list : List token :=
  [tok_operator "(", tok_identifier "a", tok_operator ",", tok_symbol ')', tok_identifier "x"]

/-- The fatal diagnostic of `preprocessor_definition_evaluated_value_for_standard`. -/
def must_hold_number : Fault :=
  Fault.fatal "The definition must hold a number value. Unable to use macro IF"

/-- What may follow an identifier of a well-formed parameter list: the closing
`)`, or a comma, the next identifier (spelled as the next name) and again such
a tail. -/
def parameter_tail_ok : List token → List String → Bool
  | [close], [] => token_is_symbol (some close) ')'
  | comma :: i :: rest, s :: ids =>
    token_is_operator (some comma) "," && decide (i.type = TOKEN_TYPE_IDENTIFIER) &&
      decide (i.sval = s) && parameter_tail_ok rest ids
  | _, _ => false

/-- The tokens after a `(` up to and including the first `)` form a well-formed
parameter list with the names `ids`: identifiers separated by single commas,
with no leading, doubled or trailing comma. -/
def parameter_list_ok : List token → List String → Bool
  | [close], [] => token_is_symbol (some close) ')'
  | i :: rest, s :: ids =>
    decide (i.type = TOKEN_TYPE_IDENTIFIER) && decide (i.sval = s) && parameter_tail_ok rest ids
  | _, _ => false

/-- The input `# ifdef K NL A`: an opening that is never closed. -/
def unmatched_ifdef_input : List token :=
  [tok_symbol '#', tok_identifier "ifdef", tok_identifier "K", tok_newline, tok_identifier "A"]

/-- The input `# if 1 NL A`: an opening that is never closed. -/
def unmatched_if_input : List token :=
  [tok_symbol '#', tok_keyword "if", tok_number 1, tok_newline, tok_identifier "A"]

/-- The tokens after `# define` of a function-like definition,
`F ( a , b ) a NL`; the name token carries no whitespace flag. -/
def define_F_tokens : List token :=
  [tok_identifier "F", tok_operator "(", tok_identifier "a", tok_operator ",",
   tok_identifier "b", tok_symbol ')', tok_identifier "a", tok_newline]

/-- The tokens after `# define` of an object-like definition whose body starts
with a parenthesis, `G ( a ) NL`; the name token carries the whitespace flag. -/
def define_G_tokens : List token :=
  [⟨TOKEN_TYPE_IDENTIFIER, "G", ' ', 0, true⟩, tok_operator "(", tok_identifier "a",
   tok_symbol ')', tok_newline]

/-- The state `c` with the cursor moved forward by `n` tokens. -/
def advance (c : compile_process) (n : Nat) : compile_process :=
  { c with token_vec_original :=
      { c.token_vec_original with pindex := c.token_vec_original.pindex + n } }

/-- The token the specification lets `preprocessor_hashtag_and_identifier`
return for the name `s`: the token after the cursor token, when the cursor
token is the `#` symbol and the one after it is an identifier or keyword
spelled `s`. -/
def hashtag_then_name (c : compile_process) (s : String) : Option token :=
  match c.token_vec_original.data[c.token_vec_original.pindex]?,
      c.token_vec_original.data[c.token_vec_original.pindex + 1]? with
  | some h, some t =>
    if h.type = TOKEN_TYPE_SYMBOL ∧ h.cval = '#' ∧
        (t.type = TOKEN_TYPE_IDENTIFIER ∨ t.type = TOKEN_TYPE_KEYWORD) ∧ t.sval = s
    then some t else none
  | _, _ => none

/-- An identifier or keyword token whose spelling is `d`. -/
def spelled (t : token) (d : String) : Prop :=
  (t.type = TOKEN_TYPE_IDENTIFIER ∨ t.type = TOKEN_TYPE_KEYWORD) ∧ t.sval = d

/-- The seven names `preprocessor_handle_hashtag_token` dispatches on. -/
def directive_names : List String :=
  ["define", "undef", "warning", "error", "if", "ifdef", "ifndef"]

/-- The input `# ifdef int NL A NL # endif NL B`, where the token after
`ifdef` is the keyword `int`. -/
def ifdef_keyword_input : List token :=
  [tok_symbol '#', tok_keyword "ifdef", tok_keyword "int", tok_newline, tok_identifier "A",
   tok_newline, tok_symbol '#', tok_identifier "endif", tok_newline, tok_identifier "B"]

/-- The input `# ifndef NL A NL # endif NL B`, where the token after `ifndef`
is a newline. -/
def ifndef_newline_input : List token :=
  [tok_symbol '#', tok_keyword "ifndef", tok_newline, tok_identifier "A", tok_newline,
   tok_symbol '#', tok_identifier "endif", tok_newline, tok_identifier "B"]

/-- The tokens `NL A B`. -/
def newline_A_B : List token := [tok_newline, tok_identifier "A", tok_identifier "B"]

/-- A skipped branch body `NL # define Z 1 NL # error NL # endif NL`. -/
def skipped_body_input : List token :=
  [tok_newline, tok_symbol '#', tok_keyword "define", tok_identifier "Z", tok_number 1,
   tok_newline, tok_symbol '#', tok_keyword "error", tok_newline, tok_symbol '#',
   tok_identifier "endif", tok_newline]

/-- The tokens from the cursor to the end of the input. -/
def remaining (c : compile_process) : List token :=
  c.token_vec_original.data.drop c.token_vec_original.pindex

/-- The `#` symbol followed by an identifier or keyword spelled `s`. -/
def directive_pair (h t : token) (s : String) : Bool :=
  decide (h.type = TOKEN_TYPE_SYMBOL ∧ h.cval = '#' ∧
    (t.type = TOKEN_TYPE_IDENTIFIER ∨ t.type = TOKEN_TYPE_KEYWORD) ∧ t.sval = s)

/-- The pair `# endif`. -/
def is_endif_pair (h t : token) : Bool := directive_pair h t "endif"

/-- One of the pairs `# if`, `# ifdef`, `# ifndef`. -/
def is_opening_pair (h t : token) : Bool :=
  directive_pair h t "if" || directive_pair h t "ifdef" || directive_pair h t "ifndef"

/-- Following the specification's words, the `#endif` that matches the current
nesting level: reading the tokens from left to right, an opening pair adds one
level and is closed by the next `# endif` read at its level; `depth` counts
the openings read and not yet closed.  The result is the number of tokens up to
and including the `# endif` read at depth 0, absent when the tokens end before
it. -/
def matching_endif : Nat → List token → Option Nat
  | _, [] => none
  | _, [_] => none
  | depth, h :: t :: rest =>
    if is_endif_pair h t then
      match depth with
      | 0 => some 2
      | d + 1 => (matching_endif d rest).map (fun k => k + 2)
    else if is_opening_pair h t then (matching_endif (depth + 1) rest).map (fun k => k + 2)
    else (matching_endif depth (t :: rest)).map (fun k => k + 1)

/-- The input `# ifdef NAME NL # ifdef` followed by `tail`: a conditional on
`NAME` whose body holds a nested `#ifdef`. -/
def nested_ifdef_input (name : String) (tail : List token) : List token :=
  [tok_symbol '#', tok_identifier "ifdef", tok_identifier name, tok_newline, tok_symbol '#',
   tok_identifier "ifdef"] ++ tail

/-- The calls of `preprocessor_skip_to_endif` that are pending at nesting depth
`n`: the innermost call and, each time one returns, the loop of its caller. -/
def skip_levels (fuel : Nat) : Nat → compile_process → Res compile_process
  | 0, c => .ok c
  | n + 1, c =>
    match preprocessor_skip_to_endif fuel c with
    | .error e => .error e
    | .ok c1 => skip_levels fuel n c1

/-- The tokens `A # ifdef B # endif C`: a nested conditional that is closed and
no `#endif` for the level around it. -/
def nested_closed_tail : List token :=
  [tok_identifier "A", tok_symbol '#', tok_identifier "ifdef", tok_identifier "B",
   tok_symbol '#', tok_identifier "endif", tok_identifier "C"]

/-- The input `# ifdef X # ifdef Y NL A NL # endif NL # define Z 1 NL B NL
# endif NL C`: a conditional on `X` whose body starts with a nested `#ifdef`
and goes on with a `#define` and the token `B`. -/
def ifdef_nested_define_input : List token :=
  [tok_symbol '#', tok_identifier "ifdef", tok_identifier "X",
   tok_symbol '#', tok_identifier "ifdef", tok_identifier "Y", tok_newline,
   tok_identifier "A", tok_newline, tok_symbol '#', tok_identifier "endif", tok_newline,
   tok_symbol '#', tok_identifier "define", tok_identifier "Z", tok_number 1, tok_newline,
   tok_identifier "B", tok_newline, tok_symbol '#', tok_identifier "endif", tok_newline,
   tok_identifier "C"]

theorem getElem?_append_length_add {α : Type} (pre l : List α) (k : Nat) :
    (pre ++ l)[pre.length + k]? = l[k]? := by
  induction pre with
  | nil => simp
  | cons a pre ih =>
    have : (a :: pre).length + k = (pre.length + k) + 1 := by simp; omega
    rw [this]; simpa using ih

theorem eraseIdx_append_length {α : Type} (pre : List α) (x : α) (suf : List α) :
    (pre ++ x :: suf).eraseIdx pre.length = pre ++ suf := by
  induction pre with
  | nil => simp
  | cons a pre ih => simpa using ih

theorem remove_loop_spec (name : String) :
    ∀ (fuel : Nat) (suf pre : List preprocessor_definition) (cur : preprocessor_definition)
      (s : List Nat), suf.length < fuel →
      ∃ q, preprocessor_definition_remove_loop name fuel
              ⟨pre ++ cur :: suf, pre.length + 1, s⟩ (some cur)
            = some ⟨pre ++ remove_skip name (cur :: suf), q, s⟩ := by
  intro fuel
  induction fuel with
  | zero => intro suf pre cur s h; omega
  | succ fuel ih =>
    intro suf pre cur s h
    by_cases hc : cur.name = name
    · -- the record is popped; the next peek passes over its successor
      match suf, h with
      | [], _ =>
        refine ⟨pre.length + 1, ?_⟩
        have hpeek : (pre ++ ([] : List preprocessor_definition))[pre.length + 1]? = none := by
          rw [getElem?_append_length_add]; simp
        simp only [preprocessor_definition_remove_loop, hc, if_true, vector_pop_last_peek,
          vector_peek, Nat.add_sub_cancel, eraseIdx_append_length, hpeek, remove_skip]
      | [e], _ =>
        refine ⟨pre.length + 1, ?_⟩
        have hpeek : (pre ++ [e])[pre.length + 1]? = none := by
          rw [getElem?_append_length_add]; simp
        simp only [preprocessor_definition_remove_loop, hc, if_true, vector_pop_last_peek,
          vector_peek, Nat.add_sub_cancel, eraseIdx_append_length, hpeek, remove_skip]
      | e :: f :: rest, h =>
        have hlen : rest.length < fuel := by simp at h; omega
        obtain ⟨q, hq⟩ := ih rest (pre ++ [e]) f s hlen
        refine ⟨q, ?_⟩
        have hpeek : (pre ++ e :: f :: rest)[pre.length + 1]? = some f := by
          rw [getElem?_append_length_add]; simp
        simp only [preprocessor_definition_remove_loop, hc, if_true, vector_pop_last_peek,
          vector_peek, Nat.add_sub_cancel, eraseIdx_append_length, hpeek, remove_skip]
        simpa using hq
    · match suf, h with
      | [], _ =>
        refine ⟨pre.length + 1, ?_⟩
        have hpeek : (pre ++ [cur])[pre.length + 1]? = none := by
          rw [getElem?_append_length_add]; simp
        simp only [preprocessor_definition_remove_loop, hc, if_false, vector_peek, hpeek,
          remove_skip]
      | e :: rest, h =>
        have hlen : rest.length < fuel := by simp at h; omega
        obtain ⟨q, hq⟩ := ih rest (pre ++ [cur]) e s hlen
        refine ⟨q, ?_⟩
        have hpeek : (pre ++ cur :: e :: rest)[pre.length + 1]? = some e := by
          rw [getElem?_append_length_add]; simp
        simp only [preprocessor_definition_remove_loop, hc, if_false, vector_peek, hpeek,
          remove_skip]
        simpa using hq

theorem preprocessor_definition_remove_eq (p : preprocessor) (name : String) :
    preprocessor_definition_remove p name =
      { p with definitions := remove_skip name p.definitions } := by
  cases p with
  | mk defs incl =>
    cases defs with
    | nil => simp [preprocessor_definition_remove, vector_peek, preprocessor_definition_remove_loop, remove_skip]
    | cons d rest =>
      obtain ⟨q, hq⟩ := remove_loop_spec name (rest.length + 1) rest [] d [] (by omega)
      simp only [List.nil_append, List.length_nil, Nat.zero_add] at hq
      simp [preprocessor_definition_remove, vector_peek, vector_count, hq]

theorem get_loop_spec (name : String) :
    ∀ (fuel : Nat) (suf pre : List preprocessor_definition) (cur : preprocessor_definition)
      (s : List Nat), suf.length < fuel →
      preprocessor_get_definition_loop name fuel ⟨pre ++ cur :: suf, pre.length + 1, s⟩ (some cur)
        = some ((cur :: suf).find? (fun d => decide (d.name = name))) := by
  intro fuel
  induction fuel with
  | zero => intro suf pre cur s h; omega
  | succ fuel ih =>
    intro suf pre cur s h
    by_cases hc : cur.name = name
    · simp [preprocessor_get_definition_loop, hc]
    · match suf, h with
      | [], _ =>
        have hpeek : (pre ++ [cur])[pre.length + 1]? = none := by
          rw [getElem?_append_length_add]; simp
        simp only [preprocessor_get_definition_loop, hc, if_false, vector_peek, hpeek]
        simp [hc]
      | e :: rest, h =>
        have hlen : rest.length < fuel := by simp at h; omega
        have hq := ih rest (pre ++ [cur]) e s hlen
        have hpeek : (pre ++ cur :: e :: rest)[pre.length + 1]? = some e := by
          rw [getElem?_append_length_add]; simp
        simp only [preprocessor_get_definition_loop, hc, if_false, vector_peek, hpeek]
        rw [List.find?_cons_of_neg _ (by simpa using hc)]
        simpa using hq

theorem preprocessor_get_definition_eq (p : preprocessor) (name : String) :
    preprocessor_get_definition p name = p.definitions.find? (fun d => decide (d.name = name)) := by
  cases p with
  | mk defs incl =>
    cases defs with
    | nil => simp [preprocessor_get_definition, vector_peek, preprocessor_get_definition_loop]
    | cons d rest =>
      have hq := get_loop_spec name (rest.length + 1) rest [] d [] (by omega)
      simp only [List.nil_append, List.length_nil, Nat.zero_add] at hq
      simp [preprocessor_get_definition, vector_peek, vector_count, hq]

theorem remove_skip_filter (name : String) (q : preprocessor_definition → Bool)
    (hq : ∀ d, q d = true → d.name ≠ name) :
    ∀ l : List preprocessor_definition, (remove_skip name l).filter q = l.filter q
  | [] => rfl
  | [d] => by
    by_cases hd : d.name = name
    · have : q d = false := by
        cases h : q d with
        | false => rfl
        | true => exact absurd hd (hq d h)
      simp [remove_skip, hd, this]
    · simp [remove_skip, hd]
  | d :: e :: rest => by
    have ih1 := remove_skip_filter name q hq rest
    have ih2 := remove_skip_filter name q hq (e :: rest)
    by_cases hd : d.name = name
    · have : q d = false := by
        cases h : q d with
        | false => rfl
        | true => exact absurd hd (hq d h)
      simp [remove_skip, hd, this, List.filter_cons, ih1]
    · simp only [remove_skip, hd, if_false, List.filter_cons, ih2]

theorem remove_skip_sublist (name : String) :
    ∀ l : List preprocessor_definition, (remove_skip name l).Sublist l
  | [] => List.Sublist.refl _
  | [d] => by
    by_cases hd : d.name = name <;> simp [remove_skip, hd]
  | d :: e :: rest => by
    have ih1 := remove_skip_sublist name rest
    have ih2 := remove_skip_sublist name (e :: rest)
    by_cases hd : d.name = name
    · simp only [remove_skip, hd, if_true]
      exact List.Sublist.cons _ (ih1.cons₂ _)
    · simp only [remove_skip, hd, if_false]
      exact ih2.cons₂ _

theorem remove_skip_of_unique (name : String) :
    ∀ l : List preprocessor_definition, (l.map (fun d => d.name)).Nodup →
      remove_skip name l = l.filter (fun d => !decide (d.name = name))
  | [], _ => rfl
  | [d], _ => by
    by_cases hd : d.name = name <;> simp [remove_skip, hd]
  | d :: e :: rest, h => by
    have hnd : ((e :: rest).map (fun d => d.name)).Nodup := (List.nodup_cons.mp h).2
    have hnd1 : (rest.map (fun d => d.name)).Nodup := (List.nodup_cons.mp hnd).2
    have ih1 := remove_skip_of_unique name rest hnd1
    have ih2 := remove_skip_of_unique name (e :: rest) hnd
    by_cases hd : d.name = name
    · have hnot : d.name ∉ (e :: rest).map (fun d => d.name) := (List.nodup_cons.mp h).1
      have he : e.name ≠ name := by
        intro hen
        apply hnot
        simp [hd, hen]
      simp [remove_skip, hd, he, List.filter_cons, ih1]
    · simp only [remove_skip, hd, if_false, ih2]
      simp [List.filter_cons, hd]

theorem definitions_after_remove (p : preprocessor) (name : String) :
    (preprocessor_definition_remove p name).definitions = remove_skip name p.definitions := by
  rw [preprocessor_definition_remove_eq]

theorem definitions_after_create (p : preprocessor) (name : String) (value_vec : List token)
    (arguments : Option (List String)) :
    (preprocessor_definition_create name value_vec arguments p).2.definitions =
      remove_skip name p.definitions ++
        [(preprocessor_definition_create name value_vec arguments p).1] := by
  simp [preprocessor_definition_create, definitions_after_remove]

theorem created_record_fields (p : preprocessor) (name : String) (value_vec : List token)
    (arguments : Option (List String)) :
    (preprocessor_definition_create name value_vec arguments p).1.name = name ∧
    (preprocessor_definition_create name value_vec arguments p).1.value = value_vec ∧
    (preprocessor_definition_create name value_vec arguments p).1.arguments = arguments := by
  simp [preprocessor_definition_create]

theorem names_unique_remove (p : preprocessor) (name : String) (h : names_unique p) :
    names_unique (preprocessor_definition_remove p name) := by
  unfold names_unique at *
  rw [definitions_after_remove]
  exact h.sublist ((remove_skip_sublist name p.definitions).map _)

theorem names_unique_create (p : preprocessor) (name : String) (value_vec : List token)
    (arguments : Option (List String)) (h : names_unique p) :
    names_unique (preprocessor_definition_create name value_vec arguments p).2 := by
  unfold names_unique at *
  rw [definitions_after_create, remove_skip_of_unique name _ h, List.map_append,
    List.nodup_append]
  refine ⟨h.sublist ((List.filter_sublist _).map _), by simp, ?_⟩
  intro a ha hb
  simp only [List.map_cons, List.map_nil, List.mem_singleton] at hb
  rw [(created_record_fields p name value_vec arguments).1] at hb
  simp only [List.mem_map, List.mem_filter] at ha
  obtain ⟨d, ⟨_, hd⟩, rfl⟩ := ha
  simp [hb] at hd

theorem names_unique_run (ops : List table_op) :
    ∀ p : preprocessor, names_unique p → names_unique (run_table_ops p ops) := by
  induction ops with
  | nil => intro p h; exact h
  | cons op ops ih =>
    intro p h
    unfold run_table_ops
    rw [List.foldl_cons]
    apply ih
    cases op with
    | create n v a => exact names_unique_create p n v a h
    | remove n => exact names_unique_remove p n h

theorem records_named_create (p : preprocessor) (name : String) (value_vec : List token)
    (arguments : Option (List String)) (h : names_unique p) :
    records_named (preprocessor_definition_create name value_vec arguments p).2 name =
      [(preprocessor_definition_create name value_vec arguments p).1] := by
  unfold records_named
  rw [definitions_after_create, remove_skip_of_unique name _ h, List.filter_append,
    List.filter_filter]
  simp [(created_record_fields p name value_vec arguments).1]

theorem records_named_run_other (name : String) (ops : List table_op)
    (hops : ∀ op ∈ ops, op.name ≠ name) :
    ∀ p : preprocessor, records_named (run_table_ops p ops) name = records_named p name := by
  induction ops with
  | nil => intro p; rfl
  | cons op ops ih =>
    intro p
    unfold run_table_ops
    rw [List.foldl_cons]
    have h1 := ih (fun o ho => hops o (List.mem_cons_of_mem _ ho)) (table_op.run p op)
    unfold run_table_ops at h1
    rw [h1]
    have hop : op.name ≠ name := hops op (List.mem_cons_self _ _)
    have hq : ∀ d : preprocessor_definition,
        (decide (d.name = name)) = true → d.name ≠ op.name := by
      intro d hd hdn
      simp only [decide_eq_true_eq] at hd
      exact hop (hdn ▸ hd)
    cases op with
    | create n v a =>
      simp only [table_op.name] at hq hop
      simp only [table_op.run, records_named]
      rw [definitions_after_create, List.filter_append, remove_skip_filter n _ hq]
      simp [(created_record_fields p n v a).1, hop]
    | remove n =>
      simp only [table_op.name] at hq
      simp only [table_op.run, records_named]
      rw [definitions_after_remove, remove_skip_filter n _ hq]

theorem get_definition_of_records_named (p : preprocessor) (name : String)
    (d : preprocessor_definition) (h : records_named p name = [d]) :
    preprocessor_get_definition p name = some d := by
  rw [preprocessor_get_definition_eq]
  unfold records_named at h
  generalize p.definitions = l at h
  induction l with
  | nil => simp at h
  | cons a l ih =>
    by_cases ha : a.name = name
    · simp [List.filter_cons, ha] at h
      rw [List.find?_cons_of_pos _ (by simpa using ha), h.1]
    · simp [List.filter_cons, ha] at h
      simp [ha, ih h]

theorem remove_skip_append_named (name : String) (n : preprocessor_definition)
    (hn : n.name = name) :
    ∀ l : List preprocessor_definition, (∀ d ∈ l, d.name ≠ name) →
      remove_skip name (l ++ [n]) = l
  | [], _ => by simp [remove_skip, hn]
  | [d], h => by
    have hd : d.name ≠ name := h d (List.mem_singleton.mpr rfl)
    simp [remove_skip, hd, hn]
  | d :: e :: rest, h => by
    have hd : d.name ≠ name := h d (List.mem_cons_self _ _)
    have ih := remove_skip_append_named name n hn (e :: rest)
      (fun x hx => h x (List.mem_cons_of_mem _ hx))
    have ih2 : remove_skip name (e :: (rest ++ [n])) = e :: rest := by simpa using ih
    show remove_skip name (d :: e :: (rest ++ [n])) = d :: e :: rest
    rw [remove_skip]
    simp only [hd, if_false, ih2]

theorem remove_skip_of_absent (name : String) (l : List preprocessor_definition)
    (h : ∀ d ∈ l, d.name ≠ name) : remove_skip name l = l := by
  have hu := remove_skip_filter name (fun d => !decide (d.name = name))
    (by intro d hd; simpa using hd) l
  have hl : ∀ m : List preprocessor_definition, (∀ d ∈ m, d.name ≠ name) →
      m.filter (fun d => !decide (d.name = name)) = m := by
    intro m hm
    rw [List.filter_eq_self]
    intro d hd
    simpa using hm d hd
  have hsub := remove_skip_sublist name l
  rw [hl l h, hl _ (fun d hd => h d (hsub.subset hd))] at hu
  exact hu

theorem get_definition_isSome_iff (p : preprocessor) (name : String) :
    (preprocessor_get_definition p name).isSome = true ↔
      ∃ d ∈ p.definitions, d.name = name := by
  rw [preprocessor_get_definition_eq, List.find?_isSome]
  simp

/-! ### The token cursor -/

theorem segment_append (l : List token) (i j k : Nat) (hij : i ≤ j) (hjk : j ≤ k) :
    segment l i j ++ segment l j k = segment l i k := by
  unfold segment
  have h1 : k - i = (j - i) + (k - j) := by omega
  have h2 : l.drop j = (l.drop i).drop (j - i) := by
    rw [List.drop_drop]; congr 1; omega
  rw [h1, List.take_add, h2]

theorem segment_sublist (l : List token) (i j : Nat) : (segment l i j).Sublist l :=
  ((List.take_sublist _ _).trans (List.drop_sublist _ _))

theorem segment_mono (l : List token) (i j k : Nat) (hij : i ≤ j) (hjk : j ≤ k) :
    (segment l i j).Sublist (segment l i k) := by
  rw [← segment_append l i j k hij hjk]
  exact List.sublist_append_left _ _

theorem segment_succ (l : List token) (i : Nat) (t : token) (h : l[i]? = some t) :
    segment l i (i + 1) = [t] := by
  unfold segment
  have : i + 1 - i = 1 := by omega
  rw [this]
  have hlt : i < l.length := by
    by_contra hge
    rw [List.getElem?_eq_none (by omega)] at h
    cases h
  rw [List.drop_eq_getElem_cons hlt]
  have : l[i] = t := by
    rw [List.getElem?_eq_getElem hlt] at h
    exact Option.some.inj h
  simp [this]

theorem next_token_cases (c : compile_process) :
    (c.token_vec_original.data[c.token_vec_original.pindex]? = none ∧
      preprocessor_next_token c = (none, c)) ∨
    (∃ t, c.token_vec_original.data[c.token_vec_original.pindex]? = some t ∧
      preprocessor_next_token c =
        (some t, { c with token_vec_original :=
                    { c.token_vec_original with pindex := c.token_vec_original.pindex + 1 } })) := by
  cases h : c.token_vec_original.data[c.token_vec_original.pindex]? with
  | none => left; simp [preprocessor_next_token, vector_peek, h]
  | some t => right; exact ⟨t, rfl, by simp [preprocessor_next_token, vector_peek, h]⟩

theorem next_token_at (c : compile_process) (pre rest : List token) (t : token)
    (hd : c.token_vec_original.data = pre ++ t :: rest)
    (hp : c.token_vec_original.pindex = pre.length) :
    preprocessor_next_token c =
      (some t, { c with token_vec_original :=
                  { c.token_vec_original with pindex := pre.length + 1 } }) := by
  have : c.token_vec_original.data[c.token_vec_original.pindex]? = some t := by
    rw [hd, hp]
    have := getElem?_append_length_add pre (t :: rest) 0
    simpa using this
  rw [hp] at this
  simp [preprocessor_next_token, vector_peek, this, hp]

theorem next_token_at_end (c : compile_process)
    (hp : c.token_vec_original.data.length ≤ c.token_vec_original.pindex) :
    preprocessor_next_token c = (none, c) := by
  have : c.token_vec_original.data[c.token_vec_original.pindex]? = none :=
    List.getElem?_eq_none hp
  simp [preprocessor_next_token, vector_peek, this]

theorem hashtag_and_identifier_cases (c : compile_process) (str : String) :
    preprocessor_hashtag_and_identifier c str = (none, c) ∨
    ∃ t, preprocessor_hashtag_and_identifier c str =
      (some t, { c with token_vec_original :=
                  { c.token_vec_original with pindex := c.token_vec_original.pindex + 2 } }) := by
  rcases c with ⟨⟨data, pindex, saves⟩, out, pp, w⟩
  unfold preprocessor_hashtag_and_identifier
  simp only [preprocessor_next_token_no_increment, vector_peek_no_increment]
  cases h0 : data[pindex]? with
  | none => left; simp
  | some a =>
    by_cases hs : token_is_symbol (some a) '#' = true
    · simp only [Option.isNone_some, hs, Bool.false_eq_true, if_false, Bool.not_true,
        preprocessor_next_token, vector_peek, vector_save, h0]
      cases h1 : data[pindex + 1]? with
      | none =>
        left
        simp [token_is_identifier, token_is_keyword, vector_restore]
      | some b =>
        by_cases hc : (token_is_identifier (some b) && decide (b.sval = str) ||
            token_is_keyword (some b) str) = true
        · right
          refine ⟨b, ?_⟩
          simp [hc, h1, vector_save_purge]
        · left
          simp [hc, vector_restore]
    · left
      simp [hs]

theorem hashtag_and_identifier_none (c : compile_process) (str : String)
    (h : (preprocessor_hashtag_and_identifier c str).1.isSome = false) :
    (preprocessor_hashtag_and_identifier c str).2 = c := by
  rcases hashtag_and_identifier_cases c str with h1 | ⟨t, h1⟩
  · rw [h1]
  · rw [h1] at h; simp at h

theorem is_next_macro_arguments_state (c : compile_process) :
    (preprocessor_is_next_macro_arguments c).2 = c := by
  rcases c with ⟨⟨data, pindex, saves⟩, out, pp, w⟩
  unfold preprocessor_is_next_macro_arguments
  simp only [preprocessor_next_token, vector_peek, vector_save]
  cases h0 : data[pindex]? <;> simp [vector_restore]

theorem cursor_only_refl (c : compile_process) : cursor_only c c :=
  ⟨Nat.le_refl _, rfl⟩

theorem cursor_only_trans {c c1 c2 : compile_process} (h1 : cursor_only c c1)
    (h2 : cursor_only c1 c2) : cursor_only c c2 := by
  refine ⟨Nat.le_trans h1.1 h2.1, ?_⟩
  have e2 := h2.2
  rw [h1.2] at e2
  rw [e2]

theorem cursor_only_frame {c c' : compile_process} (h : cursor_only c c') :
    c'.token_vec = c.token_vec ∧ c'.preprocessor = c.preprocessor ∧
      c'.warnings = c.warnings ∧ c'.token_vec_original.data = c.token_vec_original.data := by
  have e := h.2
  refine ⟨?_, ?_, ?_, ?_⟩ <;> rw [e]

theorem next_token_cursor_only (c : compile_process) :
    cursor_only c (preprocessor_next_token c).2 := by
  rcases next_token_cases c with ⟨_, h⟩ | ⟨t, _, h⟩
  · rw [h]; exact cursor_only_refl c
  · rw [h]; exact ⟨Nat.le_succ _, rfl⟩

theorem hashtag_and_identifier_cursor_only (c : compile_process) (str : String) :
    cursor_only c (preprocessor_hashtag_and_identifier c str).2 := by
  rcases hashtag_and_identifier_cases c str with h | ⟨t, h⟩
  · rw [h]; exact cursor_only_refl c
  · rw [h]; exact ⟨Nat.le_add_right _ _, rfl⟩

theorem is_hashtag_and_any_starting_if_cursor_only (c : compile_process) :
    cursor_only c (preprocessor_is_hashtag_and_any_starting_if c).2 := by
  unfold preprocessor_is_hashtag_and_any_starting_if
  simp only []
  split
  · exact hashtag_and_identifier_cursor_only c _
  · split
    · exact cursor_only_trans (hashtag_and_identifier_cursor_only c _)
        (hashtag_and_identifier_cursor_only _ _)
    · exact cursor_only_trans (hashtag_and_identifier_cursor_only c _)
        (cursor_only_trans (hashtag_and_identifier_cursor_only _ _)
          (hashtag_and_identifier_cursor_only _ _))

theorem skip_to_endif_cursor_only :
    ∀ (fuel : Nat) (c c' : compile_process),
      preprocessor_skip_to_endif fuel c = .ok c' → cursor_only c c' := by
  intro fuel
  induction fuel with
  | zero => intro c c' h; simp [preprocessor_skip_to_endif] at h
  | succ fuel ih =>
    intro c c' h
    unfold preprocessor_skip_to_endif at h
    simp only [] at h
    have hm := hashtag_and_identifier_cursor_only c "endif"
    split at h
    · cases h; exact hm
    · have hs := is_hashtag_and_any_starting_if_cursor_only
        (preprocessor_hashtag_and_identifier c "endif").2
      split at h
      · split at h
        · cases h
        · rename_i c1 h1
          exact cursor_only_trans hm (cursor_only_trans hs
            (cursor_only_trans (ih _ _ h1) (ih _ _ h)))
      · exact cursor_only_trans hm (cursor_only_trans hs
          (cursor_only_trans (next_token_cursor_only _) (ih _ _ h)))

theorem read_to_end_if_false_cursor_only
    (handle_token : compile_process → Option token → Res compile_process) :
    ∀ (fuel : Nat) (c c' : compile_process),
      preprocessor_read_to_end_if handle_token fuel c false = .ok c' → cursor_only c c' := by
  intro fuel
  induction fuel with
  | zero => intro c c' h; simp [preprocessor_read_to_end_if] at h
  | succ fuel ih =>
    intro c c' h
    unfold preprocessor_read_to_end_if at h
    split at h
    · cases h; exact cursor_only_refl c
    · simp only [Bool.false_eq_true, if_false] at h
      have m0 := hashtag_and_identifier_cursor_only c "endif"
      split at h
      · cases h; exact m0
      · have m1 := next_token_cursor_only (preprocessor_hashtag_and_identifier c "endif").2
        have m2 := is_hashtag_and_any_starting_if_cursor_only
          (preprocessor_next_token (preprocessor_hashtag_and_identifier c "endif").2).2
        split at h
        · split at h
          · cases h
          · rename_i c2 h2
            exact cursor_only_trans m0 (cursor_only_trans m1 (cursor_only_trans m2
              (cursor_only_trans (skip_to_endif_cursor_only _ _ _ h2) (ih _ _ h))))
        · exact cursor_only_trans m0 (cursor_only_trans m1 (cursor_only_trans m2 (ih _ _ h)))

theorem cursor_moved_refl (c : compile_process) : cursor_moved c c :=
  ⟨rfl, Nat.le_refl _, rfl⟩

theorem cursor_moved_trans {c c1 c2 : compile_process} (h1 : cursor_moved c c1)
    (h2 : cursor_moved c1 c2) : cursor_moved c c2 :=
  ⟨h2.1.trans h1.1, Nat.le_trans h1.2.1 h2.2.1, h2.2.2.trans h1.2.2⟩

theorem next_token_moved (c : compile_process) : cursor_moved c (preprocessor_next_token c).2 := by
  rcases next_token_cases c with ⟨_, h⟩ | ⟨t, _, h⟩
  · rw [h]; exact cursor_moved_refl c
  · rw [h]; exact ⟨rfl, Nat.le_succ _, rfl⟩

theorem hashtag_and_identifier_moved (c : compile_process) (str : String) :
    cursor_moved c (preprocessor_hashtag_and_identifier c str).2 := by
  rcases hashtag_and_identifier_cases c str with h | ⟨t, h⟩
  · rw [h]; exact cursor_moved_refl c
  · rw [h]; exact ⟨rfl, Nat.le_add_right _ _, rfl⟩

theorem is_hashtag_and_any_starting_if_moved (c : compile_process) :
    cursor_moved c (preprocessor_is_hashtag_and_any_starting_if c).2 := by
  unfold preprocessor_is_hashtag_and_any_starting_if
  simp only []
  split
  · exact hashtag_and_identifier_moved c _
  · split
    · exact cursor_moved_trans (hashtag_and_identifier_moved c _)
        (hashtag_and_identifier_moved _ _)
    · exact cursor_moved_trans (hashtag_and_identifier_moved c _)
        (cursor_moved_trans (hashtag_and_identifier_moved _ _)
          (hashtag_and_identifier_moved _ _))

theorem skip_to_endif_moved :
    ∀ (fuel : Nat) (c c' : compile_process),
      preprocessor_skip_to_endif fuel c = .ok c' → cursor_moved c c' := by
  intro fuel
  induction fuel with
  | zero => intro c c' h; simp [preprocessor_skip_to_endif] at h
  | succ fuel ih =>
    intro c c' h
    unfold preprocessor_skip_to_endif at h
    simp only [] at h
    have hm := hashtag_and_identifier_moved c "endif"
    split at h
    · cases h; exact hm
    · have hs := is_hashtag_and_any_starting_if_moved
        (preprocessor_hashtag_and_identifier c "endif").2
      split at h
      · split at h
        · cases h
        · rename_i c1 h1
          exact cursor_moved_trans hm (cursor_moved_trans hs
            (cursor_moved_trans (ih _ _ h1) (ih _ _ h)))
      · exact cursor_moved_trans hm (cursor_moved_trans hs
          (cursor_moved_trans (next_token_moved _) (ih _ _ h)))

theorem multi_value_string_loop_moved :
    ∀ (fuel : Nat) (c : compile_process) (buffer : String) (value_token : Option token)
      (r : String × compile_process),
      preprocessor_multi_value_string_loop fuel c buffer value_token = .ok r →
      cursor_moved c r.2 := by
  intro fuel
  induction fuel with
  | zero => intro c b v r h; simp [preprocessor_multi_value_string_loop] at h
  | succ fuel ih =>
    intro c b v r h
    unfold preprocessor_multi_value_string_loop at h
    split at h
    · cases h; exact cursor_moved_refl c
    · split at h
      · cases h; exact cursor_moved_refl c
      · split at h
        · exact cursor_moved_trans (next_token_moved c)
            (cursor_moved_trans (next_token_moved _) (ih _ _ _ _ h))
        · exact cursor_moved_trans (next_token_moved c) (ih _ _ _ _ h)

theorem multi_value_string_moved (fuel : Nat) (c : compile_process)
    (r : String × compile_process) (h : preprocessor_multi_value_string fuel c = .ok r) :
    cursor_moved c r.2 := by
  unfold preprocessor_multi_value_string at h
  exact cursor_moved_trans (next_token_moved c) (multi_value_string_loop_moved _ _ _ _ _ h)

theorem multi_value_insert_to_vector_loop_moved :
    ∀ (fuel : Nat) (c : compile_process) (vec : vector token) (value_token : Option token)
      (r : vector token × compile_process),
      preprocessor_multi_value_insert_to_vector_loop fuel c vec value_token = .ok r →
      cursor_moved c r.2 := by
  intro fuel
  induction fuel with
  | zero => intro c b v r h; simp [preprocessor_multi_value_insert_to_vector_loop] at h
  | succ fuel ih =>
    intro c b v r h
    unfold preprocessor_multi_value_insert_to_vector_loop at h
    split at h
    · cases h; exact cursor_moved_refl c
    · split at h
      · cases h; exact cursor_moved_refl c
      · split at h
        · exact cursor_moved_trans (next_token_moved c)
            (cursor_moved_trans (next_token_moved _) (ih _ _ _ _ h))
        · exact cursor_moved_trans (next_token_moved c) (ih _ _ _ _ h)

theorem parse_macro_argument_declaration_loop_moved :
    ∀ (fuel : Nat) (c : compile_process) (arguments : vector String) (next_token : Option token)
      (r : vector String × compile_process),
      preprocessor_parse_macro_argument_declaration_loop fuel c arguments next_token = .ok r →
      cursor_moved c r.2 := by
  intro fuel
  induction fuel with
  | zero => intro c a n r h; simp [preprocessor_parse_macro_argument_declaration_loop] at h
  | succ fuel ih =>
    intro c a n r h
    unfold preprocessor_parse_macro_argument_declaration_loop at h
    split at h
    · cases h; exact cursor_moved_refl c
    · split at h
      · cases h
      · split at h
        · cases h
        · simp only [] at h
          split at h
          · cases h
          · split at h
            · cases h; exact next_token_moved c
            · exact cursor_moved_trans (next_token_moved c)
                (cursor_moved_trans (next_token_moved _) (ih _ _ _ _ h))

theorem parse_macro_argument_declaration_moved (fuel : Nat) (c : compile_process)
    (arguments : vector String) (r : vector String × compile_process)
    (h : preprocessor_parse_macro_argument_declaration fuel c arguments = .ok r) :
    cursor_moved c r.2 := by
  unfold preprocessor_parse_macro_argument_declaration at h
  split at h
  · exact cursor_moved_trans (next_token_moved c)
      (cursor_moved_trans (next_token_moved _)
        (parse_macro_argument_declaration_loop_moved _ _ _ _ _ h))
  · cases h; exact cursor_moved_refl c

theorem handle_definition_token_moved (fuel : Nat) (c c' : compile_process)
    (h : preprocessor_handle_definition_token fuel c = .ok c') : cursor_moved c c' := by
  unfold preprocessor_handle_definition_token at h
  simp only [is_next_macro_arguments_state] at h
  have h0 := next_token_moved c
  split at h
  · cases h
  · rename_i arguments1 c2 hparsed
    have h1 : cursor_moved (preprocessor_next_token c).2 c2 := by
      split at hparsed
      · exact parse_macro_argument_declaration_moved _ _ _ _ hparsed
      · cases hparsed; exact cursor_moved_refl _
    split at h
    · cases h
    · rename_i value_token_vec c3 hval
      have h2 : cursor_moved c2 c3 := by
        unfold preprocessor_multi_value_insert_to_vector at hval
        exact cursor_moved_trans (next_token_moved c2)
          (multi_value_insert_to_vector_loop_moved _ _ _ _ _ hval)
      split at h
      · cases h
      · cases h
        have h3 := cursor_moved_trans h0 (cursor_moved_trans h1 h2)
        exact ⟨h3.1, h3.2.1, h3.2.2⟩

theorem handle_undef_token_moved (c c' : compile_process)
    (h : preprocessor_handle_undef_token c = .ok c') : cursor_moved c c' := by
  unfold preprocessor_handle_undef_token at h
  have h0 := next_token_moved c
  simp only [] at h
  split at h
  · cases h
  · cases h
    exact ⟨h0.1, h0.2.1, h0.2.2⟩

theorem handle_warning_token_moved (fuel : Nat) (c c' : compile_process)
    (h : preprocessor_handle_warning_token fuel c = .ok c') : cursor_moved c c' := by
  unfold preprocessor_handle_warning_token at h
  split at h
  · cases h
  · rename_i str_buf c1 hs
    cases h
    have h0 := multi_value_string_moved _ _ _ hs
    exact ⟨h0.1, h0.2.1, h0.2.2⟩

theorem handle_error_token_never_ok (fuel : Nat) (c c' : compile_process) :
    preprocessor_handle_error_token fuel c ≠ .ok c' := by
  unfold preprocessor_handle_error_token
  split
  · simp
  · simp [preprocessor_execute_error]

theorem parse_evaluate_vector (host : Host) (evaluate : preprocessor_node → Res Int)
    (token_vec : vector token) (result : Int) (v : vector token)
    (h : preprocessor_parse_evaluate host evaluate token_vec = .ok (result, v)) :
    v.data = token_vec.data ∧ token_vec.pindex ≤ v.pindex := by
  unfold preprocessor_parse_evaluate at h
  split at h
  · cases h
  · split at h
    · cases h
    · split at h
      · cases h
      · cases h
        exact ⟨rfl, Nat.le_add_right _ _⟩

/-! ### What reaches the output -/

theorem emits_of_cursor_moved {c c' : compile_process} (lo : Nat) (h : cursor_moved c c') :
    emits_from lo c c' :=
  ⟨h.1, h.2.1, [], by simp [h.2.2], List.nil_sublist _, by simp⟩

theorem emits_trans {lo : Nat} {c c1 c2 : compile_process} (hlo : lo ≤ c1.token_vec_original.pindex)
    (h1 : emits_from lo c c1) (h2 : emits_from c1.token_vec_original.pindex c1 c2) :
    emits_from lo c c2 := by
  obtain ⟨hd1, hp1, e1, ho1, hs1, hn1⟩ := h1
  obtain ⟨hd2, hp2, e2, ho2, hs2, hn2⟩ := h2
  refine ⟨hd2.trans hd1, Nat.le_trans hp1 hp2, e1 ++ e2, ?_, ?_, ?_⟩
  · rw [ho2, ho1, List.append_assoc]
  · rw [← segment_append _ lo _ _ hlo hp2]
    rw [hd1] at hs2
    exact List.Sublist.append hs1 hs2
  · intro t ht
    rcases List.mem_append.mp ht with h | h
    · exact hn1 t h
    · exact hn2 t h

theorem emits_lower {lo lo' : Nat} {c c' : compile_process} (hlo : lo' ≤ lo)
    (hle : lo ≤ c'.token_vec_original.pindex) (h : emits_from lo c c') : emits_from lo' c c' := by
  obtain ⟨hd, hp, e, ho, hs, hn⟩ := h
  refine ⟨hd, hp, e, ho, ?_, hn⟩
  rw [← segment_append _ lo' lo _ hlo hle]
  exact hs.trans (List.sublist_append_right _ _)

theorem emits_after_moved {c c0 c1 : compile_process} (h0 : cursor_moved c c0)
    (h1 : emits_from c0.token_vec_original.pindex c0 c1) :
    emits_from c.token_vec_original.pindex c c1 := by
  obtain ⟨hd, hp, e, ho, hs, hn⟩ := h1
  refine ⟨hd.trans h0.1, Nat.le_trans h0.2.1 hp, e, by rw [ho, h0.2.2], ?_, hn⟩
  rw [h0.1] at hs
  rw [← segment_append _ _ _ _ h0.2.1 hp]
  exact hs.trans (List.sublist_append_right _ _)

theorem emits_from_moved_left {lo : Nat} {c c0 c1 : compile_process} (h0 : cursor_moved c c0)
    (h1 : emits_from lo c0 c1) : emits_from lo c c1 := by
  obtain ⟨hd, hp, e, ho, hs, hn⟩ := h1
  refine ⟨hd.trans h0.1, Nat.le_trans h0.2.1 hp, e, by rw [ho, h0.2.2], ?_, hn⟩
  rw [h0.1] at hs
  exact hs

theorem emits_then_moved {lo : Nat} {c c1 c2 : compile_process}
    (hlo : lo ≤ c1.token_vec_original.pindex)
    (h1 : emits_from lo c c1) (h2 : cursor_moved c1 c2) : emits_from lo c c2 :=
  emits_trans hlo h1 (emits_of_cursor_moved _ h2)

theorem push_dst_emits (c c1 : compile_process) (t : token)
    (hpos : 0 < c.token_vec_original.pindex)
    (ht : c.token_vec_original.data[c.token_vec_original.pindex - 1]? = some t)
    (hnl : t.type ≠ TOKEN_TYPE_NEWLINE) (m : cursor_moved c c1) :
    emits_from (c.token_vec_original.pindex - 1) c (preprocessor_token_push_dst c1 t) := by
  refine ⟨m.1, m.2.1, [t], ?_, ?_, ?_⟩
  · simp [preprocessor_token_push_dst, preprocessor_token_push_to_dst, vector_push, m.2.2]
  · have h1 := segment_succ _ _ t ht
    have h2 : c.token_vec_original.pindex - 1 + 1 = c.token_vec_original.pindex := by omega
    rw [h2] at h1
    have h3 := segment_mono c.token_vec_original.data (c.token_vec_original.pindex - 1)
      c.token_vec_original.pindex c1.token_vec_original.pindex (by omega) m.2.1
    rw [h1] at h3
    simpa [preprocessor_token_push_dst] using h3
  · intro x hx
    rw [List.mem_singleton.mp hx]
    exact hnl

theorem read_to_end_if_emits
    (handle_token : compile_process → Option token → Res compile_process)
    (hcb : callback_emits handle_token) :
    ∀ (fuel : Nat) (c : compile_process) (true_clause : Bool) (c' : compile_process),
      preprocessor_read_to_end_if handle_token fuel c true_clause = .ok c' →
      emits_from c.token_vec_original.pindex c c' := by
  intro fuel
  induction fuel with
  | zero => intro c b c' h; simp [preprocessor_read_to_end_if] at h
  | succ fuel ih =>
    intro c b c' h
    unfold preprocessor_read_to_end_if at h
    split at h
    · cases h; exact emits_of_cursor_moved _ (cursor_moved_refl c)
    · rename_i hsome
      simp only [] at h
      split at h
      · cases h; exact emits_of_cursor_moved _ (hashtag_and_identifier_moved c _)
      · rename_i hnone
        have hc : (preprocessor_hashtag_and_identifier c "endif").2 = c :=
          hashtag_and_identifier_none c _ (by simpa using hnone)
        rw [hc] at h
        split at h
        · -- the branch is taken: the next token goes to the driver
          rcases next_token_cases c with ⟨hn, _⟩ | ⟨t, ht, hnext⟩
          · simp [preprocessor_next_token_no_increment, vector_peek_no_increment, hn] at hsome
          · rw [hnext] at h
            simp only [] at h
            split at h
            · cases h
            · rename_i c1 h1
              have e1 := hcb _ t c1 (by simp) (by simpa using ht) h1
              simp only [Nat.add_sub_cancel] at e1
              have e2 := ih _ _ _ h
              have hle : c.token_vec_original.pindex ≤ c1.token_vec_original.pindex :=
                Nat.le_trans (Nat.le_succ _) e1.2.1
              have m : cursor_moved c { c with token_vec_original :=
                  { c.token_vec_original with pindex := c.token_vec_original.pindex + 1 } } :=
                ⟨rfl, Nat.le_succ _, rfl⟩
              exact emits_trans hle (emits_from_moved_left m e1) e2
        · -- the branch is skipped
          have m1 := next_token_moved c
          have m2 := is_hashtag_and_any_starting_if_moved (preprocessor_next_token c).2
          split at h
          · split at h
            · cases h
            · rename_i c2 h2
              have m3 := skip_to_endif_moved _ _ _ h2
              exact emits_after_moved (cursor_moved_trans m1 (cursor_moved_trans m2 m3))
                (ih _ _ _ h)
          · exact emits_after_moved (cursor_moved_trans m1 m2) (ih _ _ _ h)

theorem handle_if_token_emits (host : Host)
    (handle_token : compile_process → Option token → Res compile_process)
    (hcb : callback_emits handle_token) (fuel : Nat) (c c' : compile_process)
    (h : preprocessor_handle_if_token host handle_token fuel c = .ok c') :
    emits_from c.token_vec_original.pindex c c' := by
  unfold preprocessor_handle_if_token at h
  split at h
  · cases h
  · rename_i result v hpe
    have hv := parse_evaluate_vector _ _ _ _ _ hpe
    have m : cursor_moved c { c with token_vec_original := v } := ⟨hv.1, hv.2, rfl⟩
    exact emits_after_moved m (read_to_end_if_emits handle_token hcb _ _ _ _ h)

theorem handle_ifdef_token_emits
    (handle_token : compile_process → Option token → Res compile_process)
    (hcb : callback_emits handle_token) (fuel : Nat) (c c' : compile_process)
    (h : preprocessor_handle_ifdef_token handle_token fuel c = .ok c') :
    emits_from c.token_vec_original.pindex c c' := by
  unfold preprocessor_handle_ifdef_token at h
  simp only [] at h
  split at h
  · cases h
  · exact emits_after_moved (next_token_moved c) (read_to_end_if_emits handle_token hcb _ _ _ _ h)

theorem handle_ifndef_token_emits
    (handle_token : compile_process → Option token → Res compile_process)
    (hcb : callback_emits handle_token) (fuel : Nat) (c c' : compile_process)
    (h : preprocessor_handle_ifndef_token handle_token fuel c = .ok c') :
    emits_from c.token_vec_original.pindex c c' := by
  unfold preprocessor_handle_ifndef_token at h
  simp only [] at h
  split at h
  · cases h
  · exact emits_after_moved (next_token_moved c) (read_to_end_if_emits handle_token hcb _ _ _ _ h)

theorem except_map_ok {ε α β : Type} (f : α → β) (x : Except ε α) (y : β)
    (h : x.map f = .ok y) : ∃ a, x = .ok a ∧ f a = y := by
  cases x with
  | error e => simp [Except.map] at h
  | ok a => exact ⟨a, rfl, by simpa [Except.map] using h⟩

theorem handle_hashtag_token_emits (host : Host)
    (handle_token : compile_process → Option token → Res compile_process)
    (hcb : callback_emits handle_token) (fuel : Nat) (c : compile_process) (t : token)
    (b : Bool) (c' : compile_process)
    (h : preprocessor_handle_hashtag_token host handle_token fuel c t = .ok (b, c')) :
    (b = true → emits_from c.token_vec_original.pindex c c') ∧
    (b = false → cursor_moved c c') := by
  unfold preprocessor_handle_hashtag_token at h
  simp only [] at h
  have m0 := next_token_moved c
  split at h
  · cases h
  · split at h
    · obtain ⟨a, ha, hab⟩ := except_map_ok _ _ _ h
      cases hab
      exact ⟨fun _ => emits_of_cursor_moved _
        (cursor_moved_trans m0 (handle_definition_token_moved _ _ _ ha)), by simp⟩
    · split at h
      · obtain ⟨a, ha, hab⟩ := except_map_ok _ _ _ h
        cases hab
        exact ⟨fun _ => emits_of_cursor_moved _
          (cursor_moved_trans m0 (handle_undef_token_moved _ _ ha)), by simp⟩
      · split at h
        · obtain ⟨a, ha, hab⟩ := except_map_ok _ _ _ h
          cases hab
          exact ⟨fun _ => emits_of_cursor_moved _
            (cursor_moved_trans m0 (handle_warning_token_moved _ _ _ ha)), by simp⟩
        · split at h
          · obtain ⟨a, ha, hab⟩ := except_map_ok _ _ _ h
            exact absurd ha (handle_error_token_never_ok _ _ _)
          · split at h
            · obtain ⟨a, ha, hab⟩ := except_map_ok _ _ _ h
              cases hab
              exact ⟨fun _ => emits_after_moved m0
                (handle_if_token_emits host handle_token hcb _ _ _ ha), by simp⟩
            · split at h
              · obtain ⟨a, ha, hab⟩ := except_map_ok _ _ _ h
                cases hab
                exact ⟨fun _ => emits_after_moved m0
                  (handle_ifdef_token_emits handle_token hcb _ _ _ ha), by simp⟩
              · split at h
                · obtain ⟨a, ha, hab⟩ := except_map_ok _ _ _ h
                  cases hab
                  exact ⟨fun _ => emits_after_moved m0
                    (handle_ifndef_token_emits handle_token hcb _ _ _ ha), by simp⟩
                · cases h
                  exact ⟨by simp, fun _ => m0⟩

theorem handle_symbol_emits (host : Host)
    (handle_token : compile_process → Option token → Res compile_process)
    (hcb : callback_emits handle_token) (fuel : Nat) (c : compile_process) (t : token)
    (c' : compile_process) (hpos : 0 < c.token_vec_original.pindex)
    (ht : c.token_vec_original.data[c.token_vec_original.pindex - 1]? = some t)
    (hnl : t.type ≠ TOKEN_TYPE_NEWLINE)
    (h : preprocessor_handle_symbol host handle_token fuel c t = .ok c') :
    emits_from (c.token_vec_original.pindex - 1) c c' := by
  unfold preprocessor_handle_symbol at h
  simp only [] at h
  split at h
  · cases h
  · rename_i is_preprocessed c1 hr
    have hcases : (is_preprocessed = true → emits_from c.token_vec_original.pindex c c1) ∧
        (is_preprocessed = false → cursor_moved c c1) := by
      split at hr
      · exact handle_hashtag_token_emits host handle_token hcb _ _ _ _ _ hr
      · cases hr
        exact ⟨by simp, fun _ => cursor_moved_refl c⟩
    cases hb : is_preprocessed with
    | false =>
      simp only [hb, Bool.not_false, if_true] at h
      cases h
      exact push_dst_emits c c1 t hpos ht hnl (hcases.2 hb)
    | true =>
      simp only [hb, Bool.not_true, Bool.false_eq_true, if_false] at h
      cases h
      have e := hcases.1 hb
      exact emits_lower (Nat.sub_le _ _) e.2.1 e

theorem handle_token_emits (host : Host) :
    ∀ fuel : Nat, callback_emits (preprocessor_handle_token host fuel) := by
  intro fuel
  induction fuel with
  | zero => intro c t c' _ _ h; simp [preprocessor_handle_token] at h
  | succ fuel ih =>
    intro c t c' hpos ht h
    unfold preprocessor_handle_token at h
    split at h
    · exact handle_symbol_emits host _ ih _ _ _ _ hpos ht (by simp_all) h
    · cases h; exact emits_of_cursor_moved _ (cursor_moved_refl c)
    · rename_i hns hnn
      cases h
      exact push_dst_emits c c t hpos ht (by simpa using hnn) (cursor_moved_refl c)

theorem run_loop_some (host : Host) (fuel : Nat) (c : compile_process) (tok : token) :
    preprocessor_run_loop host (fuel + 1) c (some tok) =
      match preprocessor_handle_token host fuel c (some tok) with
      | .error e => .error e
      | .ok c1 =>
        preprocessor_run_loop host fuel (preprocessor_next_token c1).2
          (preprocessor_next_token c1).1 := rfl

theorem run_loop_none (host : Host) (fuel : Nat) (c : compile_process) :
    preprocessor_run_loop host (fuel + 1) c none = .ok c := rfl

theorem run_loop_emits (host : Host) :
    ∀ (fuel : Nat) (c c' : compile_process),
      preprocessor_run_loop host fuel (preprocessor_next_token c).2
        (preprocessor_next_token c).1 = .ok c' →
      emits_from c.token_vec_original.pindex c c' := by
  intro fuel
  induction fuel with
  | zero => intro c c' h; simp [preprocessor_run_loop] at h
  | succ fuel ih =>
    intro c c' h
    rcases next_token_cases c with ⟨_, hn⟩ | ⟨t, ht, hn⟩
    · rw [hn, run_loop_none] at h
      cases h
      exact emits_of_cursor_moved _ (cursor_moved_refl c)
    · rw [hn, run_loop_some] at h
      split at h
      · cases h
      · rename_i c1 h1
        have e1 := handle_token_emits host fuel _ t c1 (by simp) (by simpa using ht) h1
        simp only [Nat.add_sub_cancel] at e1
        have e2 := ih _ _ h
        have hle : c.token_vec_original.pindex ≤ c1.token_vec_original.pindex :=
          Nat.le_trans (Nat.le_succ _) e1.2.1
        have m : cursor_moved c { c with token_vec_original :=
            { c.token_vec_original with pindex := c.token_vec_original.pindex + 1 } } :=
          ⟨rfl, Nat.le_succ _, rfl⟩
        exact emits_trans hle (emits_from_moved_left m e1) e2

theorem handle_token_plain (host : Host) (fuel : Nat) (c : compile_process) (t : token)
    (h : ¬ (t.type = TOKEN_TYPE_SYMBOL ∧ t.cval = '#')) :
    preprocessor_handle_token host (fuel + 1) c (some t) =
      .ok (if t.type = TOKEN_TYPE_NEWLINE then c else preprocessor_token_push_dst c t) := by
  cases ht : t.type <;>
    simp_all [preprocessor_handle_token, preprocessor_handle_symbol]

theorem run_loop_plain (host : Host) :
    ∀ (rest pre : List token) (c : compile_process) (fuel : Nat),
      c.token_vec_original.data = pre ++ rest →
      c.token_vec_original.pindex = pre.length →
      (∀ t ∈ rest, ¬ (t.type = TOKEN_TYPE_SYMBOL ∧ t.cval = '#')) →
      rest.length < fuel →
      preprocessor_run_loop host fuel (preprocessor_next_token c).2 (preprocessor_next_token c).1 =
        .ok { c with
              token_vec_original :=
                { c.token_vec_original with pindex := c.token_vec_original.data.length }
              token_vec :=
                { c.token_vec with
                  data := c.token_vec.data ++
                    rest.filter (fun t => decide (t.type ≠ TOKEN_TYPE_NEWLINE)) } } := by
  intro rest
  induction rest with
  | nil =>
    intro pre c fuel hd hp _ hf
    have hlen : c.token_vec_original.data.length = c.token_vec_original.pindex := by
      rw [hd, hp]; simp
    rw [next_token_at_end c (by omega)]
    obtain ⟨f, rfl⟩ : ∃ f, fuel = f + 1 := ⟨fuel - 1, by omega⟩
    rw [run_loop_none]
    simp [hlen]
  | cons t rest ih =>
    intro pre c fuel hd hp hno hf
    rw [next_token_at c pre rest t hd hp]
    obtain ⟨f, rfl⟩ : ∃ f, fuel = f + 1 := ⟨fuel - 1, by omega⟩
    have hf1 : rest.length < f := by simp at hf; omega
    obtain ⟨g, rfl⟩ : ∃ g, f = g + 1 := ⟨f - 1, by omega⟩
    have ht := hno t (List.mem_cons_self _ _)
    rw [run_loop_some, handle_token_plain host g _ t ht]
    simp only []
    by_cases hnl : t.type = TOKEN_TYPE_NEWLINE
    · simp only [hnl, if_true]
      rw [ih (pre ++ [t]) _ (g + 1) (by simp [hd]) (by simp)
        (fun x hx => hno x (List.mem_cons_of_mem _ hx)) hf1]
      simp [hnl, hd]
    · simp only [hnl, if_false]
      rw [ih (pre ++ [t]) _ (g + 1) (by simp [hd, preprocessor_token_push_dst])
        (by simp [preprocessor_token_push_dst])
        (fun x hx => hno x (List.mem_cons_of_mem _ hx)) hf1]
      simp [hnl, hd, preprocessor_token_push_dst, preprocessor_token_push_to_dst, vector_push]

theorem handle_if_token_eq (host : Host)
    (handle_token : compile_process → Option token → Res compile_process)
    (fuel : Nat) (c : compile_process) (result : Int) (v : vector token)
    (h : preprocessor_parse_evaluate host (preprocessor_evaluate host c.preprocessor fuel)
      c.token_vec_original = .ok (result, v)) :
    preprocessor_handle_if_token host handle_token fuel c =
      preprocessor_read_to_end_if handle_token fuel { c with token_vec_original := v }
        (decide (result > 0)) := by
  simp [preprocessor_handle_if_token, h]

theorem handle_hashtag_token_unhandled (host : Host)
    (handle_token : compile_process → Option token → Res compile_process)
    (fuel : Nat) (c : compile_process) (t next : token)
    (hn : (preprocessor_next_token c).1 = some next)
    (h1 : preprocessor_token_is_define next = false)
    (h2 : preprocessor_token_is_undef next = false)
    (h3 : preprocessor_token_is_warning next = false)
    (h4 : preprocessor_token_is_error next = false)
    (h5 : preprocessor_token_is_if next = false)
    (h6 : preprocessor_token_is_ifdef next = false)
    (h7 : preprocessor_token_is_ifndef next = false) :
    preprocessor_handle_hashtag_token host handle_token fuel c t =
      .ok (false, (preprocessor_next_token c).2) := by
  simp [preprocessor_handle_hashtag_token, hn, h1, h2, h3, h4, h5, h6, h7]

/-! ### The evaluator -/

theorem evaluate_number_node (host : Host) (p : preprocessor) (fuel : Nat) (n : Int) :
    preprocessor_evaluate host p (fuel + 1) (PREPROCESSOR_NUMBER_NODE n) = .ok (to_int n) := rfl

theorem evaluate_identifier_node (host : Host) (p : preprocessor) (fuel : Nat) (name : String) :
    preprocessor_evaluate host p (fuel + 1) (PREPROCESSOR_IDENTIFIER_NODE name) =
      preprocessor_evaluate_identifier host (preprocessor_evaluate host p fuel) p name := rfl

theorem evaluate_parentheses_node (host : Host) (p : preprocessor) (fuel : Nat)
    (e : preprocessor_node) :
    preprocessor_evaluate host p (fuel + 1) (PREPROCESSOR_PARENTHESES_NODE e) = .ok 0 := rfl

theorem evaluate_exp_of_operands (host : Host) (evaluate : preprocessor_node → Res Int)
    (left right : preprocessor_node) (op : String) (l r : Int)
    (hl : evaluate left = .ok l) (hr : evaluate right = .ok r) :
    preprocessor_evaluate_exp host evaluate left right op =
      if (host.arithmetic l r op).2 = true then .ok (to_int (host.arithmetic l r op).1)
      else .error (Fault.fatal
        ("We do not support the operator " ++ op ++ " for preprocessor arithmetic\n")) := by
  simp only [preprocessor_evaluate_exp, hl, hr, preprocessor_arithmetic]
  cases (host.arithmetic l r op).2 <;> simp

/-! ### Conditionals that run to the end of the input -/

theorem read_to_end_if_succ
    (handle_token : compile_process → Option token → Res compile_process)
    (fuel : Nat) (c : compile_process) (true_clause : Bool) :
    preprocessor_read_to_end_if handle_token (fuel + 1) c true_clause =
      if (preprocessor_next_token_no_increment c).isNone then .ok c
      else
        if (preprocessor_hashtag_and_identifier c "endif").1.isSome then
          .ok (preprocessor_hashtag_and_identifier c "endif").2
        else if true_clause then
          match handle_token
              (preprocessor_next_token (preprocessor_hashtag_and_identifier c "endif").2).2
              (preprocessor_next_token (preprocessor_hashtag_and_identifier c "endif").2).1 with
          | .error e => .error e
          | .ok c1 => preprocessor_read_to_end_if handle_token fuel c1 true_clause
        else
          if (preprocessor_is_hashtag_and_any_starting_if
              (preprocessor_next_token (preprocessor_hashtag_and_identifier c "endif").2).2).1 then
            match preprocessor_skip_to_endif fuel
                (preprocessor_is_hashtag_and_any_starting_if
                  (preprocessor_next_token
                    (preprocessor_hashtag_and_identifier c "endif").2).2).2 with
            | .error e => .error e
            | .ok c2 => preprocessor_read_to_end_if handle_token fuel c2 true_clause
          else
            preprocessor_read_to_end_if handle_token fuel
              (preprocessor_is_hashtag_and_any_starting_if
                (preprocessor_next_token (preprocessor_hashtag_and_identifier c "endif").2).2).2
              true_clause := rfl

theorem hashtag_and_identifier_not_hash (c : compile_process) (str : String)
    (h : token_is_symbol (preprocessor_next_token_no_increment c) '#' = false) :
    preprocessor_hashtag_and_identifier c str = (none, c) := by
  unfold preprocessor_hashtag_and_identifier
  split
  · rfl
  · simp [h]

theorem is_hashtag_and_any_starting_if_not_hash (c : compile_process)
    (h : token_is_symbol (preprocessor_next_token_no_increment c) '#' = false) :
    preprocessor_is_hashtag_and_any_starting_if c = (false, c) := by
  simp [preprocessor_is_hashtag_and_any_starting_if, hashtag_and_identifier_not_hash c _ h]

theorem next_token_no_increment_at (c : compile_process) (pre rest : List token)
    (hd : c.token_vec_original.data = pre ++ rest)
    (hp : c.token_vec_original.pindex = pre.length) :
    preprocessor_next_token_no_increment c = rest.head? := by
  unfold preprocessor_next_token_no_increment vector_peek_no_increment
  rw [hd, hp]
  have := getElem?_append_length_add pre rest 0
  simp only [Nat.add_zero] at this
  rw [this]
  cases rest <;> simp

theorem no_hash_at_cursor (c : compile_process) (pre rest : List token)
    (hd : c.token_vec_original.data = pre ++ rest)
    (hp : c.token_vec_original.pindex = pre.length)
    (hno : ∀ t ∈ rest, ¬ (t.type = TOKEN_TYPE_SYMBOL ∧ t.cval = '#')) :
    token_is_symbol (preprocessor_next_token_no_increment c) '#' = false := by
  rw [next_token_no_increment_at c pre rest hd hp]
  cases rest with
  | nil => rfl
  | cons t rest =>
    have := hno t (List.mem_cons_self _ _)
    simp only [List.head?_cons, token_is_symbol]
    by_cases h1 : t.type = TOKEN_TYPE_SYMBOL
    · have h2 : t.cval ≠ '#' := fun h => this ⟨h1, h⟩
      simp [h2]
    · simp [h1]

theorem read_to_end_if_plain_taken (host : Host) (g : Nat) :
    ∀ (rest pre : List token) (c : compile_process) (fuel : Nat),
      c.token_vec_original.data = pre ++ rest →
      c.token_vec_original.pindex = pre.length →
      (∀ t ∈ rest, ¬ (t.type = TOKEN_TYPE_SYMBOL ∧ t.cval = '#')) →
      rest.length < fuel →
      preprocessor_read_to_end_if (preprocessor_handle_token host (g + 1)) fuel c true =
        .ok { c with
              token_vec_original :=
                { c.token_vec_original with pindex := c.token_vec_original.data.length }
              token_vec :=
                { c.token_vec with
                  data := c.token_vec.data ++
                    rest.filter (fun t => decide (t.type ≠ TOKEN_TYPE_NEWLINE)) } } := by
  intro rest
  induction rest with
  | nil =>
    intro pre c fuel hd hp _ hf
    obtain ⟨f, rfl⟩ : ∃ f, fuel = f + 1 := ⟨fuel - 1, by omega⟩
    have hlen : c.token_vec_original.data.length = c.token_vec_original.pindex := by
      rw [hd, hp]; simp
    rw [read_to_end_if_succ, next_token_no_increment_at c pre [] hd hp]
    simp [hlen]
  | cons t rest ih =>
    intro pre c fuel hd hp hno hf
    obtain ⟨f, rfl⟩ : ∃ f, fuel = f + 1 := ⟨fuel - 1, by omega⟩
    have hf1 : rest.length < f := by simp at hf; omega
    have ht := hno t (List.mem_cons_self _ _)
    rw [read_to_end_if_succ, next_token_no_increment_at c pre (t :: rest) hd hp,
      hashtag_and_identifier_not_hash c _ (no_hash_at_cursor c pre (t :: rest) hd hp hno),
      next_token_at c pre rest t hd hp, handle_token_plain host g _ t ht]
    simp only [List.head?_cons, Option.isNone_some, Bool.false_eq_true, if_false,
      Option.isSome_none, if_true]
    by_cases hnl : t.type = TOKEN_TYPE_NEWLINE
    · simp only [hnl, if_true]
      rw [ih (pre ++ [t]) _ f (by simp [hd]) (by simp)
        (fun x hx => hno x (List.mem_cons_of_mem _ hx)) hf1]
      simp [hnl, hd]
    · simp only [hnl, if_false]
      rw [ih (pre ++ [t]) _ f (by simp [hd, preprocessor_token_push_dst])
        (by simp [preprocessor_token_push_dst])
        (fun x hx => hno x (List.mem_cons_of_mem _ hx)) hf1]
      simp [hnl, hd, preprocessor_token_push_dst, preprocessor_token_push_to_dst, vector_push]

theorem read_to_end_if_plain_skipped
    (handle_token : compile_process → Option token → Res compile_process) :
    ∀ (rest pre : List token) (c : compile_process) (fuel : Nat),
      c.token_vec_original.data = pre ++ rest →
      c.token_vec_original.pindex = pre.length →
      (∀ t ∈ rest, ¬ (t.type = TOKEN_TYPE_SYMBOL ∧ t.cval = '#')) →
      rest.length < fuel →
      preprocessor_read_to_end_if handle_token fuel c false =
        .ok { c with
              token_vec_original :=
                { c.token_vec_original with pindex := c.token_vec_original.data.length } } := by
  intro rest
  induction rest with
  | nil =>
    intro pre c fuel hd hp _ hf
    obtain ⟨f, rfl⟩ : ∃ f, fuel = f + 1 := ⟨fuel - 1, by omega⟩
    have hlen : c.token_vec_original.data.length = c.token_vec_original.pindex := by
      rw [hd, hp]; simp
    rw [read_to_end_if_succ, next_token_no_increment_at c pre [] hd hp]
    simp [hlen]
  | cons t rest ih =>
    intro pre c fuel hd hp hno hf
    obtain ⟨f, rfl⟩ : ∃ f, fuel = f + 1 := ⟨fuel - 1, by omega⟩
    have hf1 : rest.length < f := by simp at hf; omega
    have hno1 : ∀ x ∈ rest, ¬ (x.type = TOKEN_TYPE_SYMBOL ∧ x.cval = '#') :=
      fun x hx => hno x (List.mem_cons_of_mem _ hx)
    rw [read_to_end_if_succ, next_token_no_increment_at c pre (t :: rest) hd hp,
      hashtag_and_identifier_not_hash c _ (no_hash_at_cursor c pre (t :: rest) hd hp hno),
      next_token_at c pre rest t hd hp]
    simp only [List.head?_cons, Option.isNone_some, Bool.false_eq_true, if_false,
      Option.isSome_none]
    rw [is_hashtag_and_any_starting_if_not_hash _
      (no_hash_at_cursor _ (pre ++ [t]) rest (by simp [hd]) (by simp) hno1)]
    simp only [Bool.false_eq_true, if_false]
    rw [ih (pre ++ [t]) _ f (by simp [hd]) (by simp) hno1 hf1]

theorem handle_token_hash (host : Host) (fuel : Nat) (c : compile_process) (t : token)
    (hty : t.type = TOKEN_TYPE_SYMBOL) (hc : t.cval = '#') :
    preprocessor_handle_token host (fuel + 1) c (some t) =
      match preprocessor_handle_hashtag_token host (preprocessor_handle_token host fuel) fuel c t with
      | .error e => .error e
      | .ok (is_preprocessed, c1) =>
        if !is_preprocessed then .ok (preprocessor_token_push_dst c1 t) else .ok c1 := by
  simp [preprocessor_handle_token, hty, preprocessor_handle_symbol, hc]

theorem handle_hashtag_token_ifdef (host : Host)
    (handle_token : compile_process → Option token → Res compile_process)
    (fuel : Nat) (c : compile_process) (t : token)
    (hn : (preprocessor_next_token c).1 = some (tok_identifier "ifdef")) :
    preprocessor_handle_hashtag_token host handle_token fuel c t =
      (preprocessor_handle_ifdef_token handle_token fuel (preprocessor_next_token c).2).map
        (fun c1 => (true, c1)) := by
  simp only [preprocessor_handle_hashtag_token, hn]
  rfl

theorem handle_hashtag_token_ifndef (host : Host)
    (handle_token : compile_process → Option token → Res compile_process)
    (fuel : Nat) (c : compile_process) (t : token)
    (hn : (preprocessor_next_token c).1 = some (tok_identifier "ifndef")) :
    preprocessor_handle_hashtag_token host handle_token fuel c t =
      (preprocessor_handle_ifndef_token handle_token fuel (preprocessor_next_token c).2).map
        (fun c1 => (true, c1)) := by
  simp only [preprocessor_handle_hashtag_token, hn]
  rfl

theorem run_unmatched_opening (host : Host) (negated : Bool) (X : token) (rest : List token)
    (defs : List preprocessor_definition) (fuel : Nat)
    (hno : ∀ t ∈ rest, ¬ (t.type = TOKEN_TYPE_SYMBOL ∧ t.cval = '#'))
    (hfuel : rest.length + 2 < fuel) :
    preprocessor_run host fuel
        (initial_process
          (tok_symbol '#' :: tok_identifier (if negated then "ifndef" else "ifdef") :: X :: rest)
          defs) =
      .ok ⟨⟨tok_symbol '#' :: tok_identifier (if negated then "ifndef" else "ifdef") :: X :: rest,
              rest.length + 3, []⟩,
            ⟨if (preprocessor_get_definition ⟨defs, []⟩ X.sval).isSome = !negated then
                rest.filter (fun t => decide (t.type ≠ TOKEN_TYPE_NEWLINE))
              else [], 0, []⟩,
            ⟨defs, []⟩, []⟩ := by
  obtain ⟨g, rfl⟩ : ∃ g, fuel = g + 1 + 1 + 1 := ⟨fuel - 3, by omega⟩
  have hg : rest.length < g + 1 := by omega
  generalize hI : tok_identifier (if negated then "ifndef" else "ifdef") = I
  have e1 := next_token_at
    (initial_process (tok_symbol '#' :: I :: X :: rest) defs) [] (I :: X :: rest)
    (tok_symbol '#') rfl rfl
  unfold preprocessor_run
  have e0 : ({ initial_process (tok_symbol '#' :: I :: X :: rest) defs with
      token_vec_original := vector_set_peek_pointer
        (initial_process (tok_symbol '#' :: I :: X :: rest) defs).token_vec_original 0 } :
        compile_process) = initial_process (tok_symbol '#' :: I :: X :: rest) defs := rfl
  simp only [e0, e1]
  rw [run_loop_some, handle_token_hash host (g + 1) _ _ rfl rfl]
  have e2 := next_token_at
    ({ initial_process (tok_symbol '#' :: I :: X :: rest) defs with
        token_vec_original :=
          { (initial_process (tok_symbol '#' :: I :: X :: rest) defs).token_vec_original with
            pindex := ([] : List token).length + 1 } } : compile_process)
    [tok_symbol '#'] (X :: rest) I rfl rfl
  have e3 := next_token_at
    ({ initial_process (tok_symbol '#' :: I :: X :: rest) defs with
        token_vec_original :=
          { (initial_process (tok_symbol '#' :: I :: X :: rest) defs).token_vec_original with
            pindex := [tok_symbol '#'].length + 1 } } : compile_process)
    [tok_symbol '#', I] rest X rfl rfl
  cases negated with
  | false =>
    simp only [Bool.false_eq_true, if_false] at hI
    subst hI
    rw [handle_hashtag_token_ifdef host _ _ _ _ (by rw [e2])]
    simp only [e2]
    unfold preprocessor_handle_ifdef_token
    simp only [e3]
    cases hdef : preprocessor_get_definition ⟨defs, []⟩ X.sval with
    | none =>
      have hdef' : preprocessor_get_definition
          (initial_process (tok_symbol '#' :: tok_identifier "ifdef" :: X :: rest)
            defs).preprocessor X.sval = none := hdef
      simp only [hdef', Option.isSome_none]
      rw [read_to_end_if_plain_skipped _ rest [tok_symbol '#', tok_identifier "ifdef", X] _
        (g + 1) rfl rfl hno hg]
      simp only [Except.map, Bool.not_true, Bool.false_eq_true, if_false]
      rw [next_token_at_end _ (by simp [initial_process])]
      rw [run_loop_none]
      simp [initial_process]
    | some d =>
      have hdef' : preprocessor_get_definition
          (initial_process (tok_symbol '#' :: tok_identifier "ifdef" :: X :: rest)
            defs).preprocessor X.sval = some d := hdef
      simp only [hdef', Option.isSome_some]
      rw [read_to_end_if_plain_taken host g rest [tok_symbol '#', tok_identifier "ifdef", X] _
        (g + 1) rfl rfl hno hg]
      simp only [Except.map, Bool.not_true, Bool.false_eq_true, if_false]
      rw [next_token_at_end _ (by simp [initial_process])]
      rw [run_loop_none]
      simp [initial_process]
  | true =>
    simp only [if_true] at hI
    subst hI
    rw [handle_hashtag_token_ifndef host _ _ _ _ (by rw [e2])]
    simp only [e2]
    unfold preprocessor_handle_ifndef_token
    simp only [e3]
    cases hdef : preprocessor_get_definition ⟨defs, []⟩ X.sval with
    | none =>
      have hdef' : preprocessor_get_definition
          (initial_process (tok_symbol '#' :: tok_identifier "ifndef" :: X :: rest)
            defs).preprocessor X.sval = none := hdef
      simp only [hdef', Option.isNone_none]
      rw [read_to_end_if_plain_taken host g rest [tok_symbol '#', tok_identifier "ifndef", X] _
        (g + 1) rfl rfl hno hg]
      simp only [Except.map, Bool.not_true, Bool.false_eq_true, if_false]
      rw [next_token_at_end _ (by simp [initial_process])]
      rw [run_loop_none]
      simp [initial_process]
    | some d =>
      have hdef' : preprocessor_get_definition
          (initial_process (tok_symbol '#' :: tok_identifier "ifndef" :: X :: rest)
            defs).preprocessor X.sval = some d := hdef
      simp only [hdef', Option.isNone_some]
      rw [read_to_end_if_plain_skipped _ rest [tok_symbol '#', tok_identifier "ifndef", X] _
        (g + 1) rfl rfl hno hg]
      simp only [Except.map, Bool.not_true, Bool.false_eq_true, if_false]
      rw [next_token_at_end _ (by simp [initial_process])]
      rw [run_loop_none]
      simp [initial_process]

/-! ### `#define` with a parameter list -/

theorem parse_macro_argument_declaration_loop_succ (fuel : Nat) (c : compile_process)
    (arguments : vector String) (next_token : Option token) :
    preprocessor_parse_macro_argument_declaration_loop (fuel + 1) c arguments next_token =
      if token_is_symbol next_token ')' then .ok (arguments, c)
      else
        match next_token with
        | none => .error Fault.null_deref
        | some tok =>
          if tok.type ≠ TOKEN_TYPE_IDENTIFIER then
            .error (Fault.fatal "You must provide an identifier in the preprocessor definition!")
          else
            if !token_is_operator (preprocessor_next_token c).1 "," &&
                !token_is_symbol (preprocessor_next_token c).1 ')' then
              .error (Fault.fatal "Incomplete sequence for macro arguments")
            else if token_is_symbol (preprocessor_next_token c).1 ')' then
              .ok (vector_push arguments tok.sval, (preprocessor_next_token c).2)
            else
              preprocessor_parse_macro_argument_declaration_loop fuel
                (preprocessor_next_token (preprocessor_next_token c).2).2
                (vector_push arguments tok.sval)
                (preprocessor_next_token (preprocessor_next_token c).2).1 := rfl

theorem identifier_is_no_symbol (i : token) (ch : Char) (h : i.type = TOKEN_TYPE_IDENTIFIER) :
    token_is_symbol (some i) ch = false := by
  simp [token_is_symbol, h]

theorem operator_is_no_symbol (t : token) (op : String) (ch : Char)
    (h : token_is_operator (some t) op = true) : token_is_symbol (some t) ch = false := by
  simp [token_is_operator] at h
  simp [token_is_symbol, h.1]

theorem parse_macro_argument_declaration_loop_ok :
    ∀ (ids : List String) (tail : List token) (i : token) (pre rest : List token)
      (c : compile_process) (arguments : vector String) (fuel : Nat),
      i.type = TOKEN_TYPE_IDENTIFIER → parameter_tail_ok tail ids = true →
      c.token_vec_original.data = pre ++ i :: (tail ++ rest) →
      c.token_vec_original.pindex = pre.length + 1 →
      ids.length < fuel →
      preprocessor_parse_macro_argument_declaration_loop fuel c arguments (some i) =
        .ok ({ arguments with data := arguments.data ++ i.sval :: ids },
             { c with token_vec_original :=
                 { c.token_vec_original with pindex := pre.length + 1 + tail.length } }) := by
  intro ids
  induction ids with
  | nil =>
    intro tail i pre rest c arguments fuel hi htail hd hp hf
    obtain ⟨f, rfl⟩ : ∃ f, fuel = f + 1 := ⟨fuel - 1, by omega⟩
    match tail, htail with
    | [close], htail =>
      simp only [parameter_tail_ok] at htail
      have hn := next_token_at c (pre ++ [i]) rest close (by simp [hd]) (by simp [hp])
      rw [parse_macro_argument_declaration_loop_succ, hn]
      simp [identifier_is_no_symbol i _ hi, hi, htail, vector_push]
  | cons s ids ih =>
    intro tail i pre rest c arguments fuel hi htail hd hp hf
    obtain ⟨f, rfl⟩ : ∃ f, fuel = f + 1 := ⟨fuel - 1, by omega⟩
    have hf1 : ids.length < f := by simp at hf; omega
    match tail, htail with
    | comma :: j :: tl, htail =>
      simp only [parameter_tail_ok, Bool.and_eq_true, decide_eq_true_eq] at htail
      obtain ⟨⟨⟨hcomma, hj⟩, hjs⟩, htl⟩ := htail
      have hn := next_token_at c (pre ++ [i]) (j :: (tl ++ rest)) comma
        (by simp [hd]) (by simp [hp])
      have hn2 := next_token_at
        ({ c with token_vec_original :=
            { c.token_vec_original with pindex := (pre ++ [i]).length + 1 } } :
            compile_process)
        (pre ++ [i, comma]) (tl ++ rest) j (by simp [hd]) (by simp)
      have hih := ih tl j (pre ++ [i, comma]) rest
        ({ c with token_vec_original :=
            { c.token_vec_original with pindex := (pre ++ [i, comma]).length + 1 } } :
            compile_process)
        (vector_push arguments i.sval) f hj htl (by simp [hd]) (by simp) hf1
      rw [parse_macro_argument_declaration_loop_succ, hn]
      simp only [identifier_is_no_symbol i _ hi, hi, hcomma, operator_is_no_symbol comma _ _ hcomma,
        hn2, Bool.false_eq_true, if_false, ne_eq, not_true_eq_false, Bool.not_true,
        Bool.not_false, Bool.false_and, Bool.and_true]
      simp only [List.length_append, List.length_cons, List.length_nil] at hih ⊢
      rw [hih]
      simp only [vector_push, List.append_assoc, List.singleton_append, hjs]
      have hlen : pre.length + (0 + 1 + 1) + 1 + tl.length =
          pre.length + 1 + (tl.length + 1 + 1) := by omega
      rw [hlen]

theorem parse_macro_argument_declaration_ok (ids : List String) (toks pre rest : List token)
    (paren : token) (c : compile_process) (arguments : vector String) (fuel : Nat)
    (hok : parameter_list_ok toks ids = true)
    (hd : c.token_vec_original.data = pre ++ paren :: (toks ++ rest))
    (hp : c.token_vec_original.pindex = pre.length)
    (hparen : token_is_operator (some paren) "(" = true) (hf : ids.length < fuel) :
    preprocessor_parse_macro_argument_declaration fuel c arguments =
      .ok ({ arguments with data := arguments.data ++ ids },
           { c with token_vec_original :=
               { c.token_vec_original with pindex := pre.length + 1 + toks.length } }) := by
  unfold preprocessor_parse_macro_argument_declaration
  rw [next_token_no_increment_at c pre _ hd hp]
  simp only [List.head?_cons, hparen, if_true]
  rw [next_token_at c pre _ paren hd hp]
  simp only []
  match toks, ids, hok with
  | [close], [], hok =>
    simp only [parameter_list_ok] at hok
    obtain ⟨f, rfl⟩ : ∃ f, fuel = f + 1 := ⟨fuel - 1, by omega⟩
    have hn := next_token_at
      ({ c with token_vec_original :=
          { c.token_vec_original with pindex := pre.length + 1 } } : compile_process)
      (pre ++ [paren]) rest close (by simp [hd]) (by simp)
    rw [hn, parse_macro_argument_declaration_loop_succ]
    simp [hok]
  | i :: tail, s :: ids', hok =>
    have hok2 : (i.type = TOKEN_TYPE_IDENTIFIER ∧ i.sval = s) ∧
        parameter_tail_ok tail ids' = true := by
      cases tail with
      | nil => simp [parameter_list_ok, parameter_tail_ok] at hok
      | cons t tl => simpa [parameter_list_ok] using hok
    obtain ⟨⟨hi, his⟩, htail⟩ := hok2
    have hn := next_token_at
      ({ c with token_vec_original :=
          { c.token_vec_original with pindex := pre.length + 1 } } : compile_process)
      (pre ++ [paren]) (tail ++ rest) i (by simp [hd]) (by simp)
    rw [hn]
    have hl := parse_macro_argument_declaration_loop_ok ids' tail i (pre ++ [paren]) rest
      ({ c with token_vec_original :=
          { c.token_vec_original with pindex := (pre ++ [paren]).length + 1 } } :
          compile_process)
      arguments fuel hi htail (by simp [hd]) (by simp) (by simp at hf; omega)
    rw [hl]
    simp [his]
    omega

theorem multi_value_insert_to_vector_loop_prefix :
    ∀ (fuel : Nat) (c : compile_process) (vec : vector token) (value_token : Option token)
      (r : vector token × compile_process),
      preprocessor_multi_value_insert_to_vector_loop fuel c vec value_token = .ok r →
      ∃ more : List token, r.1.data = vec.data ++ more := by
  intro fuel
  induction fuel with
  | zero => intro c b v r h; simp [preprocessor_multi_value_insert_to_vector_loop] at h
  | succ fuel ih =>
    intro c b v r h
    unfold preprocessor_multi_value_insert_to_vector_loop at h
    split at h
    · cases h; exact ⟨[], by simp⟩
    · split at h
      · cases h; exact ⟨[], by simp⟩
      · split at h
        · exact ih _ _ _ _ h
        · obtain ⟨more, hm⟩ := ih _ _ _ _ h
          rename_i tok _ _
          exact ⟨tok :: more, by simp [hm, vector_push]⟩

theorem multi_value_insert_to_vector_first (fuel : Nat) (c : compile_process)
    (pre rest : List token) (first : token)
    (hd : c.token_vec_original.data = pre ++ first :: rest)
    (hp : c.token_vec_original.pindex = pre.length)
    (hnl : first.type ≠ TOKEN_TYPE_NEWLINE) (hsym : first.type ≠ TOKEN_TYPE_SYMBOL)
    (body : vector token) (c3 : compile_process)
    (h : preprocessor_multi_value_insert_to_vector fuel c vector_create = .ok (body, c3)) :
    body.data.head? = some first := by
  unfold preprocessor_multi_value_insert_to_vector at h
  rw [next_token_at c pre rest first hd hp] at h
  cases fuel with
  | zero => simp [preprocessor_multi_value_insert_to_vector_loop] at h
  | succ f =>
    unfold preprocessor_multi_value_insert_to_vector_loop at h
    simp only [hnl, if_false, token_is_symbol, hsym, decide_False, Bool.false_and,
      Bool.false_eq_true] at h
    obtain ⟨more, hm⟩ := multi_value_insert_to_vector_loop_prefix _ _ _ _ _ h
    have hm2 : body.data = (vector_push vector_create first).data ++ more := hm
    rw [hm2]
    simp [vector_push, vector_create]

theorem is_next_macro_arguments_value (c : compile_process) (pre rest : List token)
    (name next : token)
    (hd : c.token_vec_original.data = pre ++ name :: next :: rest)
    (hp : c.token_vec_original.pindex = pre.length + 1) :
    (preprocessor_is_next_macro_arguments c).1 =
      (token_is_operator (some next) "(" && !name.whitespace) := by
  have hprev : preprocessor_previous_token
      { c with token_vec_original := vector_save c.token_vec_original } = some name := by
    unfold preprocessor_previous_token vector_peek_at vector_save
    simp only [hp, hd]
    have h1 : ((pre.length + 1 : Nat) : Int) - 1 = (pre.length : Nat) := by
      push_cast; ring
    rw [h1]
    have h2 := getElem?_append_length_add pre (name :: next :: rest) 0
    simp at h2
    simp [h2]
  have hnext := next_token_at
    ({ c with token_vec_original := vector_save c.token_vec_original } : compile_process)
    (pre ++ [name]) rest next (by simp [vector_save, hd]) (by simp [vector_save, hp])
  unfold preprocessor_is_next_macro_arguments
  simp only [hprev, hnext]

theorem token_named_endif_is_no_directive (t : token) (h : t.sval = "endif") :
    preprocessor_token_is_define t = false ∧ preprocessor_token_is_undef t = false ∧
    preprocessor_token_is_warning t = false ∧ preprocessor_token_is_error t = false ∧
    preprocessor_token_is_if t = false ∧ preprocessor_token_is_ifdef t = false ∧
    preprocessor_token_is_ifndef t = false := by
  simp [preprocessor_token_is_define, preprocessor_token_is_undef,
    preprocessor_token_is_warning, preprocessor_token_is_error, preprocessor_token_is_if,
    preprocessor_token_is_ifdef, preprocessor_token_is_ifndef, h]

/-! ### Probes, directive names and skipped branches -/

theorem target_token_matches (b : token) (s : String) :
    (token_is_identifier (some b) && decide (b.sval = s) || token_is_keyword (some b) s) =
      decide ((b.type = TOKEN_TYPE_IDENTIFIER ∨ b.type = TOKEN_TYPE_KEYWORD) ∧ b.sval = s) := by
  by_cases h1 : b.type = TOKEN_TYPE_IDENTIFIER <;> by_cases h2 : b.type = TOKEN_TYPE_KEYWORD <;>
    by_cases h3 : b.sval = s <;> simp [token_is_identifier, token_is_keyword, h1, h2, h3]

theorem hashtag_and_identifier_eq (c : compile_process) (s : String) :
    preprocessor_hashtag_and_identifier c s =
      (match hashtag_then_name c s with
       | some t => (some t, advance c 2)
       | none => (none, c)) := by
  rcases c with ⟨⟨data, pindex, saves⟩, out, pp, w⟩
  unfold preprocessor_hashtag_and_identifier hashtag_then_name advance
  simp only [preprocessor_next_token_no_increment, vector_peek_no_increment]
  cases h0 : data[pindex]? with
  | none => simp
  | some a =>
    by_cases hs : token_is_symbol (some a) '#' = true
    · simp only [Option.isNone_some, hs, Bool.false_eq_true, if_false, Bool.not_true,
        preprocessor_next_token, vector_peek, vector_save, h0]
      have hs2 : a.type = TOKEN_TYPE_SYMBOL ∧ a.cval = '#' := by
        simpa [token_is_symbol] using hs
      cases h1 : data[pindex + 1]? with
      | none => simp [token_is_identifier, token_is_keyword, vector_restore]
      | some b =>
        have hm := target_token_matches b s
        by_cases hc : (b.type = TOKEN_TYPE_IDENTIFIER ∨ b.type = TOKEN_TYPE_KEYWORD) ∧
            b.sval = s
        · rw [decide_eq_true hc] at hm
          have hall : a.type = TOKEN_TYPE_SYMBOL ∧ a.cval = '#' ∧
              (b.type = TOKEN_TYPE_IDENTIFIER ∨ b.type = TOKEN_TYPE_KEYWORD) ∧ b.sval = s :=
            ⟨hs2.1, hs2.2, hc⟩
          simp only [hm, if_true, if_pos hall, h1, vector_save_purge, List.tail_cons]
        · rw [decide_eq_false hc] at hm
          have hall : ¬ (a.type = TOKEN_TYPE_SYMBOL ∧ a.cval = '#' ∧
              (b.type = TOKEN_TYPE_IDENTIFIER ∨ b.type = TOKEN_TYPE_KEYWORD) ∧ b.sval = s) :=
            fun h => hc h.2.2
          simp only [hm, Bool.false_eq_true, if_false, if_neg hall, vector_restore]
    · have hs2 : ¬ (a.type = TOKEN_TYPE_SYMBOL ∧ a.cval = '#') := by
        simpa [token_is_symbol] using hs
      cases h1 : data[pindex + 1]? with
      | none => simp [hs]
      | some b =>
        have hall : ¬ (a.type = TOKEN_TYPE_SYMBOL ∧ a.cval = '#' ∧
            (b.type = TOKEN_TYPE_IDENTIFIER ∨ b.type = TOKEN_TYPE_KEYWORD) ∧ b.sval = s) :=
          fun h => hs2 ⟨h.1, h.2.1⟩
        simp [hs, if_neg hall]

theorem token_is_directive_iff (t : token) :
    (preprocessor_token_is_define t = true ↔ spelled t "define") ∧
    (preprocessor_token_is_undef t = true ↔ spelled t "undef") ∧
    (preprocessor_token_is_warning t = true ↔ spelled t "warning") ∧
    (preprocessor_token_is_error t = true ↔ spelled t "error") ∧
    (preprocessor_token_is_if t = true ↔ spelled t "if") ∧
    (preprocessor_token_is_ifdef t = true ↔ spelled t "ifdef") ∧
    (preprocessor_token_is_ifndef t = true ↔ spelled t "ifndef") := by
  unfold spelled
  refine ⟨?_, ?_, ?_, ?_, ?_, ?_, ?_⟩ <;>
  · by_cases h1 : t.type = TOKEN_TYPE_IDENTIFIER <;> by_cases h2 : t.type = TOKEN_TYPE_KEYWORD <;>
      simp [preprocessor_token_is_define, preprocessor_token_is_undef,
        preprocessor_token_is_warning, preprocessor_token_is_error, preprocessor_token_is_if,
        preprocessor_token_is_ifdef, preprocessor_token_is_ifndef,
        preprocessor_token_is_preprocessor_keyword, preprocessor_is_preprocessor_keyword,
        h1, h2]
    all_goals intro h; simp [h]

theorem skip_to_endif_error :
    ∀ (fuel : Nat) (c : compile_process) (e : Fault),
      preprocessor_skip_to_endif fuel c = .error e → e = Fault.outOfFuel := by
  intro fuel
  induction fuel with
  | zero => intro c e h; simp [preprocessor_skip_to_endif] at h; exact h.symm
  | succ fuel ih =>
    intro c e h
    unfold preprocessor_skip_to_endif at h
    simp only [] at h
    split at h
    · cases h
    · split at h
      · split at h
        · rename_i e1 h1
          cases h
          exact ih _ _ h1
        · exact ih _ _ h
      · exact ih _ _ h

theorem read_to_end_if_false_error
    (handle_token : compile_process → Option token → Res compile_process) :
    ∀ (fuel : Nat) (c : compile_process) (e : Fault),
      preprocessor_read_to_end_if handle_token fuel c false = .error e →
        e = Fault.outOfFuel := by
  intro fuel
  induction fuel with
  | zero => intro c e h; simp [preprocessor_read_to_end_if] at h; exact h.symm
  | succ fuel ih =>
    intro c e h
    rw [read_to_end_if_succ] at h
    split at h
    · cases h
    · split at h
      · cases h
      · simp only [Bool.false_eq_true, if_false] at h
        split at h
        · split at h
          · rename_i e1 h1
            cases h
            exact skip_to_endif_error _ _ _ h1
          · exact ih _ _ h
        · exact ih _ _ h

theorem read_to_end_if_false_callback
    (handle_token other : compile_process → Option token → Res compile_process) :
    ∀ (fuel : Nat) (c : compile_process),
      preprocessor_read_to_end_if handle_token fuel c false =
        preprocessor_read_to_end_if other fuel c false := by
  intro fuel
  induction fuel with
  | zero => intro c; rfl
  | succ fuel ih =>
    intro c
    rw [read_to_end_if_succ, read_to_end_if_succ]
    simp only [Bool.false_eq_true, if_false, ih]

/-! ### The `#endif` that ends a skipped conditional -/

theorem remaining_advance (c : compile_process) (n : Nat) :
    remaining (advance c n) = (remaining c).drop n := by
  unfold remaining advance
  simp only [List.drop_drop]

theorem advance_advance (c : compile_process) (m n : Nat) :
    advance (advance c m) n = advance c (m + n) := by
  unfold advance
  simp [Nat.add_assoc]

theorem hashtag_then_name_remaining (c : compile_process) (s : String) :
    hashtag_then_name c s =
      match remaining c with
      | h :: t :: _ => if directive_pair h t s = true then some t else none
      | _ => none := by
  have h0 : c.token_vec_original.data[c.token_vec_original.pindex]? = (remaining c)[0]? := by
    unfold remaining; rw [List.getElem?_drop]; rfl
  have h1 : c.token_vec_original.data[c.token_vec_original.pindex + 1]? =
      (remaining c)[1]? := by
    unfold remaining; rw [List.getElem?_drop]
  unfold hashtag_then_name
  rw [h0, h1]
  rcases remaining c with _ | ⟨h, _ | ⟨t, rest⟩⟩
  · rfl
  · rfl
  · simp [directive_pair]

theorem next_token_remaining_nil (c : compile_process) (h : remaining c = []) :
    preprocessor_next_token c = (none, c) := by
  apply next_token_at_end
  unfold remaining at h
  exact List.drop_eq_nil_iff.mp h

theorem next_token_remaining_cons (c : compile_process) (t : token) (rest : List token)
    (h : remaining c = t :: rest) :
    preprocessor_next_token c = (some t, advance c 1) := by
  have h0 : c.token_vec_original.data[c.token_vec_original.pindex]? = some t := by
    have : c.token_vec_original.data[c.token_vec_original.pindex]? = (remaining c)[0]? := by
      unfold remaining; rw [List.getElem?_drop]; rfl
    rw [this, h]; simp
  rcases next_token_cases c with ⟨hn, _⟩ | ⟨u, hu, hn⟩
  · rw [hn] at h0; cases h0
  · rw [hu] at h0; cases h0
    rw [hn]; rfl

theorem is_hashtag_and_any_starting_if_eq (c : compile_process) :
    preprocessor_is_hashtag_and_any_starting_if c =
      if ((hashtag_then_name c "if").isSome || (hashtag_then_name c "ifdef").isSome ||
          (hashtag_then_name c "ifndef").isSome) = true
      then (true, advance c 2) else (false, c) := by
  unfold preprocessor_is_hashtag_and_any_starting_if
  simp only [hashtag_and_identifier_eq c "if"]
  cases h1 : hashtag_then_name c "if" with
  | some t => simp
  | none =>
    simp only [hashtag_and_identifier_eq c "ifdef"]
    cases h2 : hashtag_then_name c "ifdef" with
    | some t => simp
    | none =>
      simp only [hashtag_and_identifier_eq c "ifndef"]
      cases h3 : hashtag_then_name c "ifndef" with
      | some t => simp
      | none => simp

theorem skip_to_endif_succ (fuel : Nat) (c : compile_process) :
    preprocessor_skip_to_endif (fuel + 1) c =
      if (hashtag_then_name c "endif").isSome = true then .ok (advance c 2)
      else if ((hashtag_then_name c "if").isSome || (hashtag_then_name c "ifdef").isSome ||
          (hashtag_then_name c "ifndef").isSome) = true then
        match preprocessor_skip_to_endif fuel (advance c 2) with
        | .error e => .error e
        | .ok c1 => preprocessor_skip_to_endif fuel c1
      else preprocessor_skip_to_endif fuel (preprocessor_next_token c).2 := by
  rw [preprocessor_skip_to_endif]
  simp only [hashtag_and_identifier_eq c "endif"]
  cases h1 : hashtag_then_name c "endif" with
  | some t => simp
  | none =>
    simp only [is_hashtag_and_any_starting_if_eq c]
    by_cases h2 : ((hashtag_then_name c "if").isSome || (hashtag_then_name c "ifdef").isSome ||
          (hashtag_then_name c "ifndef").isSome) = true
    · simp [h2]
    · simp [h2]

theorem skip_to_endif_at_endif (fuel : Nat) (c : compile_process) (h t : token)
    (rest : List token) (hr : remaining c = h :: t :: rest) (he : is_endif_pair h t = true) :
    preprocessor_skip_to_endif (fuel + 1) c = .ok (advance c 2) := by
  have h1 : hashtag_then_name c "endif" = some t := by
    rw [hashtag_then_name_remaining, hr]
    simp only []
    rw [if_pos (show directive_pair h t "endif" = true from he)]
  rw [skip_to_endif_succ, h1]
  simp

theorem skip_to_endif_at_opening (fuel : Nat) (c : compile_process) (h t : token)
    (rest : List token) (hr : remaining c = h :: t :: rest) (he : is_endif_pair h t = false)
    (ho : is_opening_pair h t = true) :
    preprocessor_skip_to_endif (fuel + 1) c =
      match preprocessor_skip_to_endif fuel (advance c 2) with
      | .error e => .error e
      | .ok c1 => preprocessor_skip_to_endif fuel c1 := by
  have h1 : hashtag_then_name c "endif" = none := by
    rw [hashtag_then_name_remaining, hr]
    simp only []
    rw [if_neg (by rw [show directive_pair h t "endif" = false from he]; simp)]
  have h2 : ((hashtag_then_name c "if").isSome || (hashtag_then_name c "ifdef").isSome ||
      (hashtag_then_name c "ifndef").isSome) = true := by
    simp only [hashtag_then_name_remaining, hr]
    unfold is_opening_pair at ho
    cases h3 : directive_pair h t "if" <;> cases h4 : directive_pair h t "ifdef" <;>
      cases h5 : directive_pair h t "ifndef" <;> simp_all
  rw [skip_to_endif_succ, h1, if_pos h2]
  simp

theorem skip_to_endif_at_other (fuel : Nat) (c : compile_process) (h t : token)
    (rest : List token) (hr : remaining c = h :: t :: rest) (he : is_endif_pair h t = false)
    (ho : is_opening_pair h t = false) :
    preprocessor_skip_to_endif (fuel + 1) c = preprocessor_skip_to_endif fuel (advance c 1) := by
  have h1 : hashtag_then_name c "endif" = none := by
    rw [hashtag_then_name_remaining, hr]
    simp only []
    rw [if_neg (by rw [show directive_pair h t "endif" = false from he]; simp)]
  have h2 : ((hashtag_then_name c "if").isSome || (hashtag_then_name c "ifdef").isSome ||
      (hashtag_then_name c "ifndef").isSome) = false := by
    simp only [hashtag_then_name_remaining, hr]
    unfold is_opening_pair at ho
    cases h3 : directive_pair h t "if" <;> cases h4 : directive_pair h t "ifdef" <;>
      cases h5 : directive_pair h t "ifndef" <;> simp_all
  rw [skip_to_endif_succ, h1, h2, next_token_remaining_cons c h (t :: rest) hr]
  simp

theorem skip_to_endif_at_last (fuel : Nat) (c : compile_process) (h : token)
    (hr : remaining c = [h]) :
    preprocessor_skip_to_endif (fuel + 1) c = preprocessor_skip_to_endif fuel (advance c 1) := by
  have h1 : ∀ s, hashtag_then_name c s = none := by
    intro s; rw [hashtag_then_name_remaining, hr]
  rw [skip_to_endif_succ, h1, h1, h1, h1, next_token_remaining_cons c h [] hr]
  simp

theorem skip_to_endif_at_end_step (fuel : Nat) (c : compile_process) (hr : remaining c = []) :
    preprocessor_skip_to_endif (fuel + 1) c = preprocessor_skip_to_endif fuel c := by
  have h1 : ∀ s, hashtag_then_name c s = none := by
    intro s; rw [hashtag_then_name_remaining, hr]
  rw [skip_to_endif_succ, h1, h1, h1, h1, next_token_remaining_nil c hr]
  simp

theorem skip_to_endif_at_end (c : compile_process) (hr : remaining c = []) :
    ∀ fuel, preprocessor_skip_to_endif fuel c = .error Fault.outOfFuel := by
  intro fuel
  induction fuel with
  | zero => rfl
  | succ fuel ih => rw [skip_to_endif_at_end_step fuel c hr, ih]

theorem skip_to_endif_mono :
    ∀ (fuel : Nat) (c c' : compile_process),
      preprocessor_skip_to_endif fuel c = .ok c' →
        preprocessor_skip_to_endif (fuel + 1) c = .ok c' := by
  intro fuel
  induction fuel with
  | zero => intro c c' h; simp [preprocessor_skip_to_endif] at h
  | succ fuel ih =>
    intro c c' h
    rw [skip_to_endif_succ] at h ⊢
    split
    · rename_i h1; rw [if_pos h1] at h; exact h
    · rename_i h1
      rw [if_neg h1] at h
      split
      · rename_i h2
        rw [if_pos h2] at h
        split at h
        · cases h
        · rename_i c1 hc1
          rw [ih _ _ hc1]
          exact ih _ _ h
      · rename_i h2
        rw [if_neg h2] at h
        exact ih _ _ h

theorem skip_to_endif_mono_le (fuel fuel2 : Nat) (c c' : compile_process)
    (hle : fuel ≤ fuel2) (h : preprocessor_skip_to_endif fuel c = .ok c') :
    preprocessor_skip_to_endif fuel2 c = .ok c' := by
  induction hle with
  | refl => exact h
  | step _ ih => exact skip_to_endif_mono _ _ _ ih

theorem skip_levels_mono (fuel : Nat) :
    ∀ (n : Nat) (c c' : compile_process),
      skip_levels fuel n c = .ok c' → skip_levels (fuel + 1) n c = .ok c' := by
  intro n
  induction n with
  | zero => intro c c' h; exact h
  | succ n ih =>
    intro c c' h
    unfold skip_levels at h ⊢
    split at h
    · cases h
    · rename_i c1 hc1
      rw [skip_to_endif_mono _ _ _ hc1]
      exact ih _ _ h

theorem skip_levels_succ_ok (fuel n : Nat) (c c' : compile_process) :
    skip_levels fuel (n + 1) c = .ok c' ↔
      ∃ c1, preprocessor_skip_to_endif fuel c = .ok c1 ∧ skip_levels fuel n c1 = .ok c' := by
  constructor
  · intro h
    unfold skip_levels at h
    split at h
    · cases h
    · rename_i c1 hc1
      exact ⟨c1, hc1, h⟩
  · rintro ⟨c1, hc1, h⟩
    unfold skip_levels
    rw [hc1]
    exact h

theorem matching_endif_cons_cons (depth : Nat) (h t : token) (rest : List token) :
    matching_endif depth (h :: t :: rest) =
      if is_endif_pair h t = true then
        match depth with
        | 0 => some 2
        | d + 1 => (matching_endif d rest).map (fun k => k + 2)
      else if is_opening_pair h t = true then
        (matching_endif (depth + 1) rest).map (fun k => k + 2)
      else (matching_endif depth (t :: rest)).map (fun k => k + 1) := by
  cases depth <;> rfl

theorem skip_levels_of_matching :
    ∀ (n : Nat) (l : List token), l.length ≤ n →
      ∀ (depth k : Nat) (c : compile_process) (fuel : Nat),
        remaining c = l → matching_endif depth l = some k → l.length < fuel →
          skip_levels fuel (depth + 1) c = .ok (advance c k) := by
  intro n
  induction n with
  | zero =>
    intro l hl depth k c fuel _ hm _
    have : l = [] := List.length_eq_zero.mp (by omega)
    subst this
    simp [matching_endif] at hm
  | succ n ih =>
    intro l hl depth k c fuel hr hm hf
    rcases l with _ | ⟨h, _ | ⟨t, rest⟩⟩
    · simp [matching_endif] at hm
    · simp [matching_endif] at hm
    · obtain ⟨f, rfl⟩ : ∃ f, fuel = f + 1 := ⟨fuel - 1, by omega⟩
      simp only [List.length_cons] at hl hf
      have hr2 : remaining (advance c 2) = rest := by rw [remaining_advance, hr]; rfl
      have hr1 : remaining (advance c 1) = t :: rest := by rw [remaining_advance, hr]; rfl
      rw [matching_endif_cons_cons] at hm
      by_cases he : is_endif_pair h t = true
      · rw [if_pos he] at hm
        rw [skip_levels_succ_ok]
        refine ⟨advance c 2, skip_to_endif_at_endif f c h t rest hr he, ?_⟩
        cases depth with
        | zero =>
          simp only [Option.some.injEq] at hm
          subst hm
          rfl
        | succ d =>
          simp only [Option.map_eq_some'] at hm
          obtain ⟨k1, hk1, rfl⟩ := hm
          have := ih rest (by omega) d k1 (advance c 2) (f + 1) hr2 hk1 (by omega)
          rw [this, advance_advance, Nat.add_comm]
      · have he2 : is_endif_pair h t = false := by simpa using he
        rw [if_neg he] at hm
        by_cases ho : is_opening_pair h t = true
        · rw [if_pos ho] at hm
          simp only [Option.map_eq_some'] at hm
          obtain ⟨k1, hk1, rfl⟩ := hm
          have := ih rest (by omega) (depth + 1) k1 (advance c 2) f hr2 hk1 (by omega)
          rw [skip_levels_succ_ok] at this
          obtain ⟨c1, hc1, hrest⟩ := this
          rw [skip_levels_succ_ok] at hrest
          obtain ⟨c2, hc2, hrest⟩ := hrest
          rw [skip_levels_succ_ok]
          refine ⟨c2, ?_, ?_⟩
          · rw [skip_to_endif_at_opening f c h t rest hr he2 ho, hc1]
            exact hc2
          · rw [skip_levels_mono f depth c2 _ hrest, advance_advance, Nat.add_comm]
        · have ho2 : is_opening_pair h t = false := by simpa using ho
          rw [if_neg ho] at hm
          simp only [Option.map_eq_some'] at hm
          obtain ⟨k1, hk1, rfl⟩ := hm
          have := ih (t :: rest) (by simp; omega) depth k1 (advance c 1) f hr1 hk1
            (by simp; omega)
          rw [skip_levels_succ_ok] at this
          obtain ⟨c1, hc1, hrest⟩ := this
          rw [skip_levels_succ_ok]
          refine ⟨c1, ?_, ?_⟩
          · rw [skip_to_endif_at_other f c h t rest hr he2 ho2]
            exact hc1
          · rw [skip_levels_mono f depth c1 _ hrest, advance_advance, Nat.add_comm]

theorem matching_of_skip_levels :
    ∀ (n : Nat) (l : List token), l.length ≤ n →
      ∀ (depth : Nat) (c c' : compile_process) (fuel : Nat),
        remaining c = l → skip_levels fuel (depth + 1) c = .ok c' →
          ∃ k, matching_endif depth l = some k ∧ c' = advance c k := by
  intro n
  induction n with
  | zero =>
    intro l hl depth c c' fuel hr hs
    have : l = [] := List.length_eq_zero.mp (by omega)
    subst this
    rw [skip_levels_succ_ok] at hs
    obtain ⟨c1, hc1, _⟩ := hs
    rw [skip_to_endif_at_end c hr] at hc1
    cases hc1
  | succ n ih =>
    intro l hl depth c c' fuel hr hs
    rw [skip_levels_succ_ok] at hs
    obtain ⟨c1, hc1, hrest⟩ := hs
    rcases l with _ | ⟨h, _ | ⟨t, rest⟩⟩
    · rw [skip_to_endif_at_end c hr] at hc1
      cases hc1
    · cases fuel with
      | zero => cases hc1
      | succ f =>
        rw [skip_to_endif_at_last f c h hr,
          skip_to_endif_at_end (advance c 1) (by rw [remaining_advance, hr]; rfl)] at hc1
        cases hc1
    · cases fuel with
      | zero => cases hc1
      | succ f =>
        simp only [List.length_cons] at hl
        have hr2 : remaining (advance c 2) = rest := by rw [remaining_advance, hr]; rfl
        have hr1 : remaining (advance c 1) = t :: rest := by rw [remaining_advance, hr]; rfl
        rw [matching_endif_cons_cons]
        by_cases he : is_endif_pair h t = true
        · rw [if_pos he]
          rw [skip_to_endif_at_endif f c h t rest hr he] at hc1
          cases hc1
          cases depth with
          | zero =>
            cases hrest
            exact ⟨2, rfl, rfl⟩
          | succ d =>
            obtain ⟨k1, hk1, rfl⟩ := ih rest (by omega) d (advance c 2) c' (f + 1) hr2 hrest
            refine ⟨k1 + 2, by simp [hk1], ?_⟩
            rw [advance_advance, Nat.add_comm]
        · have he2 : is_endif_pair h t = false := by simpa using he
          rw [if_neg he]
          by_cases ho : is_opening_pair h t = true
          · rw [if_pos ho]
            rw [skip_to_endif_at_opening f c h t rest hr he2 ho] at hc1
            split at hc1
            · cases hc1
            · rename_i c0 hc0
              have hs2 : skip_levels (f + 1) (depth + 1 + 1) (advance c 2) = .ok c' := by
                rw [skip_levels_succ_ok]
                refine ⟨c0, skip_to_endif_mono _ _ _ hc0, ?_⟩
                rw [skip_levels_succ_ok]
                exact ⟨c1, skip_to_endif_mono _ _ _ hc1, hrest⟩
              obtain ⟨k1, hk1, rfl⟩ :=
                ih rest (by omega) (depth + 1) (advance c 2) c' (f + 1) hr2 hs2
              refine ⟨k1 + 2, by simp [hk1], ?_⟩
              rw [advance_advance, Nat.add_comm]
          · have ho2 : is_opening_pair h t = false := by simpa using ho
            rw [if_neg ho]
            rw [skip_to_endif_at_other f c h t rest hr he2 ho2] at hc1
            have hs2 : skip_levels (f + 1) (depth + 1) (advance c 1) = .ok c' := by
              rw [skip_levels_succ_ok]
              exact ⟨c1, skip_to_endif_mono _ _ _ hc1, hrest⟩
            obtain ⟨k1, hk1, rfl⟩ :=
              ih (t :: rest) (by simp; omega) depth (advance c 1) c' (f + 1) hr1 hs2
            refine ⟨k1 + 1, by simp [hk1], ?_⟩
            rw [advance_advance, Nat.add_comm]

theorem skip_to_endif_unmatched (c : compile_process)
    (hm : matching_endif 0 (remaining c) = none) :
    ∀ fuel, preprocessor_skip_to_endif fuel c = .error Fault.outOfFuel := by
  intro fuel
  cases h : preprocessor_skip_to_endif fuel c with
  | error e => rw [skip_to_endif_error fuel c e h]
  | ok c' =>
    have hs : skip_levels fuel (0 + 1) c = .ok c' := by
      rw [skip_levels_succ_ok]; exact ⟨c', h, rfl⟩
    obtain ⟨k, hk, _⟩ := matching_of_skip_levels _ _ (Nat.le_refl _) 0 c c' fuel rfl hs
    rw [hm] at hk
    cases hk

theorem skip_to_endif_matched (c : compile_process) (k : Nat)
    (hm : matching_endif 0 (remaining c) = some k) (fuel : Nat)
    (hf : (remaining c).length < fuel) :
    preprocessor_skip_to_endif fuel c = .ok (advance c k) := by
  have := skip_levels_of_matching _ _ (Nat.le_refl _) 0 k c fuel rfl hm hf
  rw [skip_levels_succ_ok] at this
  obtain ⟨c1, hc1, hrest⟩ := this
  cases hrest
  exact hc1

theorem next_token_no_increment_remaining (c : compile_process) :
    preprocessor_next_token_no_increment c = (remaining c).head? := by
  unfold preprocessor_next_token_no_increment vector_peek_no_increment remaining
  rw [List.head?_drop]

theorem read_to_end_if_unclosed_nested
    (handle_token : compile_process → Option token → Res compile_process)
    (c : compile_process) (s h t : token) (tail : List token)
    (hr : remaining c = s :: h :: t :: tail)
    (hs : ¬ (s.type = TOKEN_TYPE_SYMBOL ∧ s.cval = '#'))
    (ho : is_opening_pair h t = true) (hm : matching_endif 0 tail = none) :
    ∀ fuel, preprocessor_read_to_end_if handle_token fuel c false =
      .error Fault.outOfFuel := by
  intro fuel
  cases fuel with
  | zero => rfl
  | succ fuel =>
    have h1 : hashtag_then_name c "endif" = none := by
      rw [hashtag_then_name_remaining, hr]
      simp only []
      rw [if_neg]
      simp only [directive_pair, decide_eq_true_eq]
      exact fun hh => hs ⟨hh.1, hh.2.1⟩
    have hr1 : remaining (advance c 1) = h :: t :: tail := by
      rw [remaining_advance, hr]; rfl
    have hr3 : remaining (advance (advance c 1) 2) = tail := by
      rw [remaining_advance, hr1]; rfl
    have h2 : ((hashtag_then_name (advance c 1) "if").isSome ||
        (hashtag_then_name (advance c 1) "ifdef").isSome ||
        (hashtag_then_name (advance c 1) "ifndef").isSome) = true := by
      simp only [hashtag_then_name_remaining, hr1]
      unfold is_opening_pair at ho
      cases h3 : directive_pair h t "if" <;> cases h4 : directive_pair h t "ifdef" <;>
        cases h5 : directive_pair h t "ifndef" <;> simp_all
    rw [read_to_end_if_succ, next_token_no_increment_remaining, hr,
      hashtag_and_identifier_eq c "endif", h1]
    simp only [List.head?_cons, Option.isNone_some, Bool.false_eq_true, if_false,
      Option.isSome_none]
    rw [next_token_remaining_cons c s _ hr]
    simp only []
    rw [is_hashtag_and_any_starting_if_eq, if_pos h2]
    simp only [if_true]
    rw [skip_to_endif_unmatched _ (by rw [hr3]; exact hm)]

theorem run_unclosed_nested (host : Host) (defs : List preprocessor_definition)
    (name : String) (tail : List token)
    (hget : preprocessor_get_definition ⟨defs, []⟩ name = none)
    (hm : matching_endif 0 tail = none) :
    ∀ fuel, preprocessor_run host fuel (initial_process (nested_ifdef_input name tail) defs) =
      .error Fault.outOfFuel := by
  intro fuel
  have hread := read_to_end_if_unclosed_nested
  cases fuel with
  | zero => rfl
  | succ f =>
    have h0 : preprocessor_run host (f + 1) (initial_process (nested_ifdef_input name tail) defs) =
        preprocessor_run_loop host (f + 1)
          (advance (initial_process (nested_ifdef_input name tail) defs) 1)
          (some (tok_symbol '#')) := rfl
    rw [h0, run_loop_some]
    cases f with
    | zero => rfl
    | succ g =>
      rw [handle_token_hash host g _ _ rfl rfl,
        handle_hashtag_token_ifdef host _ g
          (advance (initial_process (nested_ifdef_input name tail) defs) 1) _ rfl]
      have h3 : preprocessor_handle_ifdef_token (preprocessor_handle_token host g) g
          (preprocessor_next_token
            (advance (initial_process (nested_ifdef_input name tail) defs) 1)).2 =
          preprocessor_read_to_end_if (preprocessor_handle_token host g) g
            (advance (initial_process (nested_ifdef_input name tail) defs) 3) false := by
        have hn : preprocessor_next_token (preprocessor_next_token
            (advance (initial_process (nested_ifdef_input name tail) defs) 1)).2 =
            (some (tok_identifier name),
              advance (initial_process (nested_ifdef_input name tail) defs) 3) := rfl
        unfold preprocessor_handle_ifdef_token
        simp only [hn]
        have hg : preprocessor_get_definition
            (advance (initial_process (nested_ifdef_input name tail) defs) 3).preprocessor
            (tok_identifier name).sval = none := hget
        rw [hg]
        rfl
      rw [h3, hread (preprocessor_handle_token host g)
        (advance (initial_process (nested_ifdef_input name tail) defs) 3) tok_newline (tok_symbol '#')
        (tok_identifier "ifdef") tail rfl (by decide) (by decide) hm g]
      rfl

/-! ### Chains of single-identifier bodies -/

theorem handled_of_map_ok {handled : Bool} {c' : compile_process}
    (x : Res compile_process)
    (h : x.map (fun c1 => (true, c1)) = .ok (handled, c')) : handled = true := by
  obtain ⟨a, _, e⟩ := except_map_ok _ _ _ h
  exact (Prod.mk.inj e).1.symm

theorem get_definition_after_create_of_unique (p : preprocessor) (hp : names_unique p)
    (X : String) (body : List token) (params : Option (List String)) (ops : List table_op)
    (hops : ∀ op ∈ ops, op.name ≠ X) :
    records_named (run_table_ops (preprocessor_definition_create X body params p).2 ops) X =
      [(preprocessor_definition_create X body params p).1] ∧
    preprocessor_get_definition
        (run_table_ops (preprocessor_definition_create X body params p).2 ops) X =
      some (preprocessor_definition_create X body params p).1 := by
  have h : records_named
      (run_table_ops (preprocessor_definition_create X body params p).2 ops) X =
      [(preprocessor_definition_create X body params p).1] := by
    rw [records_named_run_other X ops hops, records_named_create p X body params hp]
  exact ⟨h, get_definition_of_records_named _ _ _ h⟩

/-- C1: when `preprocessor_run` returns normally, the tokens it appended to the
output are a subsequence of the input token vector (each one a copy of its own
input token, in input order, none taken twice) and none of them is a newline;
run on an empty output vector, the whole output is such a subsequence. -/
theorem run_output_subsequence (host : Host) (fuel : Nat) (c c' : compile_process)
    (h : preprocessor_run host fuel c = .ok c') :
    ∃ e : List token, c'.token_vec.data = c.token_vec.data ++ e ∧
      e.Sublist c.token_vec_original.data ∧
      (∀ t ∈ e, t.type ≠ TOKEN_TYPE_NEWLINE) ∧
      (c.token_vec.data = [] → c'.token_vec.data.Sublist c.token_vec_original.data) := by
  unfold preprocessor_run at h
  obtain ⟨_, _, e, ho, hs, hn⟩ := run_loop_emits host fuel _ c' h
  have hs2 : e.Sublist c.token_vec_original.data :=
    hs.trans (segment_sublist _ _ _)
  refine ⟨e, ho, hs2, hn, ?_⟩
  intro hempty
  have : c'.token_vec.data = e := by
    rw [ho]
    show c.token_vec.data ++ e = e
    rw [hempty, List.nil_append]
  rw [this]
  exact hs2

/-- C1, witness: the run over `# if 0 - 1 NL A NL # endif NL B` returns, and
its output `B` is a newline-free subsequence of the input. -/
theorem run_output_subsequence_witness :
    preprocessor_run sample_host 30 (initial_process if_minus_one_input []) =
        .ok if_minus_one_result ∧
    ∃ e : List token,
      if_minus_one_result.token_vec.data =
        (initial_process if_minus_one_input []).token_vec.data ++ e ∧
      e.Sublist (initial_process if_minus_one_input []).token_vec_original.data ∧
      (∀ t ∈ e, t.type ≠ TOKEN_TYPE_NEWLINE) ∧
      ((initial_process if_minus_one_input []).token_vec.data = [] →
        if_minus_one_result.token_vec.data.Sublist
          (initial_process if_minus_one_input []).token_vec_original.data) :=
  ⟨rfl, run_output_subsequence sample_host 30 (initial_process if_minus_one_input [])
    if_minus_one_result rfl⟩

/-- C2: on an input without a `#` symbol token `preprocessor_run` returns (for
every fuel above the number of tokens), the output has received the input
tokens that are not newlines, all of them and in input order, and the
preprocessor instance with its definition table is unchanged. -/
theorem run_without_hashtag (host : Host) (c : compile_process) (fuel : Nat)
    (hno : ∀ t ∈ c.token_vec_original.data, ¬ (t.type = TOKEN_TYPE_SYMBOL ∧ t.cval = '#'))
    (hfuel : c.token_vec_original.data.length < fuel) :
    ∃ c', preprocessor_run host fuel c = .ok c' ∧
      c'.token_vec.data = c.token_vec.data ++
        c.token_vec_original.data.filter (fun t => decide (t.type ≠ TOKEN_TYPE_NEWLINE)) ∧
      c'.preprocessor = c.preprocessor := by
  have h := run_loop_plain host c.token_vec_original.data []
    { c with token_vec_original := vector_set_peek_pointer c.token_vec_original 0 } fuel
    (by simp [vector_set_peek_pointer]) (by simp [vector_set_peek_pointer]) hno hfuel
  exact ⟨_, h, by simp [vector_set_peek_pointer], rfl⟩

/-- C2, witness: a run over `int x NL = ;` with an empty table. -/
theorem run_without_hashtag_witness :
    (∀ t ∈ (initial_process plain_input []).token_vec_original.data,
      ¬ (t.type = TOKEN_TYPE_SYMBOL ∧ t.cval = '#')) ∧
    (initial_process plain_input []).token_vec_original.data.length < 6 ∧
    ∃ c', preprocessor_run sample_host 6 (initial_process plain_input []) = .ok c' ∧
      c'.token_vec.data = (initial_process plain_input []).token_vec.data ++
        (initial_process plain_input []).token_vec_original.data.filter
          (fun t => decide (t.type ≠ TOKEN_TYPE_NEWLINE)) ∧
      c'.preprocessor = (initial_process plain_input []).preprocessor :=
  ⟨by decide, by decide,
    run_without_hashtag sample_host (initial_process plain_input []) 6 (by decide) (by decide)⟩

/-- C3, the code at the failing input: with the cursor on a nested `#ifdef`
that is the first token of the skipped body, `preprocessor_read_to_end_if` with
a false clause stops right after the nested `#endif` (peek index 8) and not
after the outer one (peek index 13); in a whole run the rest of the skipped
body is then processed as live text. -/
theorem read_to_end_if_stops_at_nested_endif :
    (preprocessor_read_to_end_if (preprocessor_handle_token sample_host 30) 30
        (initial_process nested_first_body []) false).map
        (fun c => c.token_vec_original.pindex) = .ok 8 ∧
    (preprocessor_run sample_host 30
        (initial_process ([tok_symbol '#', tok_identifier "ifdef", tok_identifier "X"] ++
          nested_first_body) [])).map (fun c => c.token_vec.data) =
      .ok [tok_identifier "B", tok_symbol '#', tok_identifier "C"] := by
  constructor <;> rfl

/-- C4, the code at the failing input: the controlling expression `0 - 1`
evaluates to -1, which is not zero, yet `preprocessor_handle_if_token` reads the
body with a false clause (`result > 0`), so the run over
`# if 0 - 1 NL A NL # endif NL B` emits `B` only. -/
theorem if_negative_value_skips_branch :
    preprocessor_parse_evaluate sample_host (preprocessor_evaluate sample_host ⟨[], []⟩ 30)
        ⟨if_minus_one_input, 2, []⟩ = .ok (-1, ⟨if_minus_one_input, 5, []⟩) ∧
    preprocessor_handle_if_token sample_host (preprocessor_handle_token sample_host 30) 30
        ⟨⟨if_minus_one_input, 2, []⟩, ⟨[], 0, []⟩, ⟨[], []⟩, []⟩ =
      preprocessor_read_to_end_if (preprocessor_handle_token sample_host 30) 30
        ⟨⟨if_minus_one_input, 5, []⟩, ⟨[], 0, []⟩, ⟨[], []⟩, []⟩ false ∧
    (preprocessor_run sample_host 30 (initial_process if_minus_one_input [])).map
        (fun c => c.token_vec.data) = .ok [tok_identifier "B"] := by
  refine ⟨rfl, rfl, rfl⟩

/-- C5, the code at the failing input: `X` has no record, so the body of
`#ifdef X` is read with a false clause, but the skip ends at the `#endif` of
the nested `#ifdef Y` and the rest of the body is handled as live text: the
run emits `B`, the `#` of the outer `#endif` and `C`, and the `#define Z 1` of
the body is executed, so the table holds `Z` afterwards.  `#ifndef X` on a
table that defines `X` does the same. -/
theorem ifdef_undefined_body_not_discarded :
    preprocessor_get_definition ⟨[], []⟩ "X" = none ∧
    (preprocessor_run sample_host 40 (initial_process ifdef_nested_define_input [])).map
        (fun c => (c.token_vec.data, c.preprocessor.definitions)) =
      .ok ([tok_identifier "B", tok_symbol '#', tok_identifier "C"],
        [number_definition "Z" 1]) ∧
    (preprocessor_run sample_host 40
        (initial_process
          ([tok_symbol '#', tok_identifier "ifndef"] ++ ifdef_nested_define_input.drop 2)
          [number_definition "X" 1])).map
        (fun c => (c.token_vec.data, c.preprocessor.definitions)) =
      .ok ([tok_identifier "B", tok_symbol '#', tok_identifier "C"],
        [number_definition "X" 1, number_definition "Z" 1]) := by
  refine ⟨by rfl, by rfl, by rfl⟩

/-- C6: let `T` be a table built from the empty table by calls of
`preprocessor_definition_create` and `preprocessor_definition_remove`.  After a
create for `X` on `T` and any further calls that name other identifiers,
`preprocessor_get_definition` for `X` returns the record that call created,
with the body and the parameters it was given, and that record is the only
record named `X` in the table. -/
theorem get_definition_after_create (includes : List String) (built : List table_op)
    (X : String) (body : List token) (params : Option (List String)) (ops : List table_op)
    (hops : ∀ op ∈ ops, op.name ≠ X) :
    preprocessor_get_definition
        (run_table_ops
          (preprocessor_definition_create X body params
            (run_table_ops ⟨[], includes⟩ built)).2 ops) X =
      some (preprocessor_definition_create X body params
        (run_table_ops ⟨[], includes⟩ built)).1 ∧
    (preprocessor_definition_create X body params
        (run_table_ops ⟨[], includes⟩ built)).1.name = X ∧
    (preprocessor_definition_create X body params
        (run_table_ops ⟨[], includes⟩ built)).1.value = body ∧
    (preprocessor_definition_create X body params
        (run_table_ops ⟨[], includes⟩ built)).1.arguments = params ∧
    records_named
        (run_table_ops
          (preprocessor_definition_create X body params
            (run_table_ops ⟨[], includes⟩ built)).2 ops) X =
      [(preprocessor_definition_create X body params
        (run_table_ops ⟨[], includes⟩ built)).1] := by
  have hu : names_unique (run_table_ops ⟨[], includes⟩ built) :=
    names_unique_run built ⟨[], includes⟩ (by simp [names_unique])
  have h := get_definition_after_create_of_unique _ hu X body params ops hops
  have hf := created_record_fields (run_table_ops ⟨[], includes⟩ built) X body params
  exact ⟨h.2, hf.1, hf.2.1, hf.2.2, h.1⟩

/-- C6, witness: the table of `#define X 1`, `#define Y 2`; a create for `X`
with the body `3`, followed by a create for `Z` and a remove for `Y`. -/
theorem get_definition_after_create_witness :
    (∀ op ∈ [table_op.create "Z" [] none, table_op.remove "Y"], op.name ≠ "X") ∧
    preprocessor_get_definition
        (run_table_ops
          (preprocessor_definition_create "X" [tok_number 3] (some [])
            (run_table_ops ⟨[], []⟩
              [table_op.create "X" [tok_number 1] (some []),
               table_op.create "Y" [tok_number 2] (some [])])).2
          [table_op.create "Z" [] none, table_op.remove "Y"]) "X" =
      some ⟨PREPROCESSOR_DEFINITION_STANDARD, "X", [tok_number 3], some []⟩ :=
  ⟨by decide,
   (get_definition_after_create [] [table_op.create "X" [tok_number 1] (some []),
      table_op.create "Y" [tok_number 2] (some [])] "X" [tok_number 3] (some [])
      [table_op.create "Z" [] none, table_op.remove "Y"] (by decide)).1⟩

/-- C7: in every table built from the empty table by calls of
`preprocessor_definition_create` and `preprocessor_definition_remove` no two
records share a name, and right after a further create for `X` exactly one
record is named `X`. -/
theorem definition_names_unique (includes : List String) (ops : List table_op) (X : String)
    (body : List token) (params : Option (List String)) :
    names_unique (run_table_ops ⟨[], includes⟩ ops) ∧
    (records_named
      (preprocessor_definition_create X body params (run_table_ops ⟨[], includes⟩ ops)).2
      X).length = 1 := by
  have h : names_unique (run_table_ops ⟨[], includes⟩ ops) :=
    names_unique_run ops ⟨[], includes⟩ (by simp [names_unique])
  refine ⟨h, ?_⟩
  rw [records_named_create _ X body params h]
  rfl

/-- C9, counterexample: when the table already holds a record named `A`,
create for `A` followed by remove for `A` leaves the table without it. -/
theorem create_remove_drops_old_record :
    preprocessor_definition_remove
        (preprocessor_definition_create "A" [tok_number 2] (some [])
          ⟨[number_definition "A" 1], []⟩).2 "A" = ⟨[], []⟩ ∧
      (⟨[], []⟩ : preprocessor) ≠ ⟨[number_definition "A" 1], []⟩ := by
  decide

/-- C9, amended: when the table holds no record named `A`, create for `A`
followed by remove for `A` leaves the table as it was, the same records in the
same order. -/
theorem create_remove_restores (T : preprocessor) (A : String) (body : List token)
    (params : Option (List String)) (hA : ∀ d ∈ T.definitions, d.name ≠ A) :
    preprocessor_definition_remove (preprocessor_definition_create A body params T).2 A = T := by
  have h1 : (preprocessor_definition_create A body params T).2.definitions =
      T.definitions ++ [(preprocessor_definition_create A body params T).1] := by
    rw [definitions_after_create, remove_skip_of_absent A _ hA]
  have h2 : (preprocessor_definition_create A body params T).2.includes = T.includes := by
    simp [preprocessor_definition_create, preprocessor_definition_remove_eq]
  rw [preprocessor_definition_remove_eq, h1,
    remove_skip_append_named A _ (created_record_fields T A body params).1 _ hA]
  cases T with
  | mk defs incl => simp at h2 ⊢; exact h2

/-- C9, witness: the amended statement on a table that holds only `B`. -/
theorem create_remove_restores_witness :
    (∀ d ∈ (⟨[number_definition "B" 7], ["stdio.h"]⟩ : preprocessor).definitions,
      d.name ≠ "A") ∧
    preprocessor_definition_remove
        (preprocessor_definition_create "A" [tok_number 1] (some [])
          ⟨[number_definition "B" 7], ["stdio.h"]⟩).2 "A" =
      ⟨[number_definition "B" 7], ["stdio.h"]⟩ :=
  ⟨by decide,
    create_remove_restores ⟨[number_definition "B" 7], ["stdio.h"]⟩ "A" [tok_number 1] (some [])
      (by decide)⟩

/-- C10, the code at the failing input: on `# pragma once NL C` the dispatcher
reports not handled with the cursor already past `pragma`, and the run emits
`#`, `once`, `C`: the token that follows the `#` is consumed and never reaches
the output. -/
theorem unhandled_hashtag_drops_next_token :
    (preprocessor_handle_hashtag_token sample_host (preprocessor_handle_token sample_host 30) 30
        ⟨⟨pragma_input, 1, []⟩, ⟨[], 0, []⟩, ⟨[], []⟩, []⟩ (tok_symbol '#')).map
        (fun r => (r.1, r.2.token_vec_original.pindex, r.2.token_vec.data)) =
      .ok (false, 2, []) ∧
    (preprocessor_run sample_host 30 (initial_process pragma_input [])).map
        (fun c => c.token_vec.data) =
      .ok [tok_symbol '#', tok_identifier "once", tok_identifier "C"] := by
  constructor <;> rfl

/-- C11, counterexample: the runs over `# ifdef K NL A` with `K` defined (branch
taken) and with `K` undefined (branch skipped), and over `# if 1 NL A`, return
normally at the end of the input; no fatal diagnostic is raised. -/
theorem unmatched_opening_run_returns :
    (preprocessor_run sample_host 30
        (initial_process unmatched_ifdef_input [number_definition "K" 1])).map
        (fun c => c.token_vec.data) = .ok [tok_identifier "A"] ∧
    (preprocessor_run sample_host 30 (initial_process unmatched_ifdef_input [])).map
        (fun c => c.token_vec.data) = .ok [] ∧
    (preprocessor_run sample_host 30 (initial_process unmatched_if_input [])).map
        (fun c => c.token_vec.data) = .ok [tok_identifier "A"] := by
  refine ⟨rfl, rfl, rfl⟩

/-- C11, amended: when an `#ifdef` or `#ifndef` opening is followed up to the
end of the input by tokens none of which is a `#` symbol, so that it has no
matching `#endif`, `preprocessor_run` returns normally with the cursor at the
end of the input: a taken branch has emitted its tokens other than newlines, a
skipped branch nothing, and no diagnostic is raised.  The same holds for
`preprocessor_read_to_end_if` itself, whoever opened the conditional. -/
theorem unmatched_conditional_returns (host : Host) (negated : Bool) (X : token)
    (rest : List token) (defs : List preprocessor_definition) (fuel : Nat)
    (hno : ∀ t ∈ rest, ¬ (t.type = TOKEN_TYPE_SYMBOL ∧ t.cval = '#'))
    (hfuel : rest.length + 2 < fuel) :
    preprocessor_run host fuel
        (initial_process
          (tok_symbol '#' :: tok_identifier (if negated then "ifndef" else "ifdef") :: X :: rest)
          defs) =
      .ok ⟨⟨tok_symbol '#' :: tok_identifier (if negated then "ifndef" else "ifdef") :: X :: rest,
              rest.length + 3, []⟩,
            ⟨if (preprocessor_get_definition ⟨defs, []⟩ X.sval).isSome = !negated then
                rest.filter (fun t => decide (t.type ≠ TOKEN_TYPE_NEWLINE))
              else [], 0, []⟩,
            ⟨defs, []⟩, []⟩ ∧
    (∀ (pre : List token) (c : compile_process),
      c.token_vec_original.data = pre ++ rest → c.token_vec_original.pindex = pre.length →
      preprocessor_read_to_end_if (preprocessor_handle_token host fuel) fuel c true =
        .ok { c with
              token_vec_original :=
                { c.token_vec_original with pindex := c.token_vec_original.data.length }
              token_vec :=
                { c.token_vec with
                  data := c.token_vec.data ++
                    rest.filter (fun t => decide (t.type ≠ TOKEN_TYPE_NEWLINE)) } } ∧
      preprocessor_read_to_end_if (preprocessor_handle_token host fuel) fuel c false =
        .ok { c with
              token_vec_original :=
                { c.token_vec_original with
                  pindex := c.token_vec_original.data.length } }) := by
  refine ⟨run_unmatched_opening host negated X rest defs fuel hno hfuel, ?_⟩
  intro pre c hd hp
  obtain ⟨g, rfl⟩ : ∃ g, fuel = g + 1 := ⟨fuel - 1, by omega⟩
  exact ⟨read_to_end_if_plain_taken host g rest pre c (g + 1) hd hp hno (by omega),
    read_to_end_if_plain_skipped _ rest pre c (g + 1) hd hp hno (by omega)⟩

/-- C11, witness: `# ifndef K NL A NL` on the empty table, where the branch is
taken. -/
theorem unmatched_conditional_returns_witness :
    (∀ t ∈ [tok_newline, tok_identifier "A", tok_newline],
      ¬ (t.type = TOKEN_TYPE_SYMBOL ∧ t.cval = '#')) ∧
    preprocessor_run sample_host 6
        (initial_process
          (tok_symbol '#' :: tok_identifier (if true then "ifndef" else "ifdef") ::
            tok_identifier "K" :: [tok_newline, tok_identifier "A", tok_newline])
          []) =
      .ok ⟨⟨tok_symbol '#' :: tok_identifier (if true then "ifndef" else "ifdef") ::
              tok_identifier "K" :: [tok_newline, tok_identifier "A", tok_newline],
              [tok_newline, tok_identifier "A", tok_newline].length + 3, []⟩,
            ⟨if (preprocessor_get_definition ⟨[], []⟩ (tok_identifier "K").sval).isSome = !true
              then [tok_newline, tok_identifier "A", tok_newline].filter
                (fun t => decide (t.type ≠ TOKEN_TYPE_NEWLINE))
              else [], 0, []⟩,
            ⟨[], []⟩, []⟩ :=
  ⟨by decide,
    (unmatched_conditional_returns sample_host true (tok_identifier "K")
      [tok_newline, tok_identifier "A", tok_newline] [] 6 (by decide) (by decide)).1⟩

/-- C12, counterexample: the run over `# endif NL C` returns normally and has
emitted `#` and `C`; no fatal diagnostic is raised. -/
theorem bare_endif_run_returns :
    (preprocessor_run sample_host 30 (initial_process bare_endif_input [])).map
        (fun c => c.token_vec.data) = .ok [tok_symbol '#', tok_identifier "C"] := by
  rfl

/-- C12, amended: when the driver handles a `#` symbol whose next token is
spelled `endif` (outside a conditional, where no body reader has consumed the
pair), no diagnostic is raised: the dispatcher reports not handled with the
cursor past the `endif` token, and `preprocessor_handle_token` returns normally
with the `#` appended to the output, so the run continues. -/
theorem bare_endif_not_handled (host : Host) (fuel : Nat) (c : compile_process)
    (hash t : token) (hty : hash.type = TOKEN_TYPE_SYMBOL) (hc : hash.cval = '#')
    (hnext : (preprocessor_next_token c).1 = some t) (hsv : t.sval = "endif") :
    preprocessor_handle_hashtag_token host (preprocessor_handle_token host fuel) fuel c hash =
      .ok (false, (preprocessor_next_token c).2) ∧
    preprocessor_handle_token host (fuel + 1) c (some hash) =
      .ok (preprocessor_token_push_dst (preprocessor_next_token c).2 hash) := by
  obtain ⟨h1, h2, h3, h4, h5, h6, h7⟩ := token_named_endif_is_no_directive t hsv
  have hh := handle_hashtag_token_unhandled host (preprocessor_handle_token host fuel) fuel c
    hash t hnext h1 h2 h3 h4 h5 h6 h7
  refine ⟨hh, ?_⟩
  rw [handle_token_hash host fuel c hash hty hc, hh]
  rfl

/-- C12, witness: the `#` of `# endif NL C` handled at the start of the input. -/
theorem bare_endif_not_handled_witness :
    (preprocessor_next_token
        (⟨⟨bare_endif_input, 1, []⟩, ⟨[], 0, []⟩, ⟨[], []⟩, []⟩ : compile_process)).1 =
      some (tok_identifier "endif") ∧
    preprocessor_handle_hashtag_token sample_host (preprocessor_handle_token sample_host 4) 4
        ⟨⟨bare_endif_input, 1, []⟩, ⟨[], 0, []⟩, ⟨[], []⟩, []⟩ (tok_symbol '#') =
      .ok (false, (preprocessor_next_token
        (⟨⟨bare_endif_input, 1, []⟩, ⟨[], 0, []⟩, ⟨[], []⟩, []⟩ : compile_process)).2) ∧
    preprocessor_handle_token sample_host (4 + 1)
        ⟨⟨bare_endif_input, 1, []⟩, ⟨[], 0, []⟩, ⟨[], []⟩, []⟩ (some (tok_symbol '#')) =
      .ok (preprocessor_token_push_dst
        (preprocessor_next_token
          (⟨⟨bare_endif_input, 1, []⟩, ⟨[], 0, []⟩, ⟨[], []⟩, []⟩ : compile_process)).2
        (tok_symbol '#')) :=
  ⟨rfl, bare_endif_not_handled sample_host 4
    ⟨⟨bare_endif_input, 1, []⟩, ⟨[], 0, []⟩, ⟨[], []⟩, []⟩ (tok_symbol '#')
    (tok_identifier "endif") rfl rfl rfl rfl⟩

/-- C13, the code at the failing input: the number 4294967301 (2^32 + 5) fits
in 64 bits, yet `preprocessor_evaluate` returns 5 for a Number node carrying it
and for an identifier whose body is that one number token, because the
evaluator functions return `int`; `# if 4294967296` therefore evaluates to 0
and its body `A` is skipped. -/
theorem evaluate_number_wraps_to_int :
    preprocessor_evaluate sample_host ⟨[], []⟩ 5 (PREPROCESSOR_NUMBER_NODE 4294967301) = .ok 5 ∧
    preprocessor_evaluate sample_host ⟨[number_definition "X" 4294967301], []⟩ 5
        (PREPROCESSOR_IDENTIFIER_NODE "X") = .ok 5 ∧
    (preprocessor_run sample_host 30 (initial_process if_wide_number_input [])).map
        (fun c => c.token_vec.data) = .ok [] := by
  refine ⟨rfl, rfl, rfl⟩

/-- C14, the code at the failing input: `preprocessor_evaluate` has no case for
a Parenthesized node and returns 0 for it, here for `(5)`, while the inner node
evaluates to 5. -/
theorem evaluate_parentheses_returns_zero :
    preprocessor_evaluate sample_host ⟨[], []⟩ 5
        (PREPROCESSOR_PARENTHESES_NODE (PREPROCESSOR_NUMBER_NODE 5)) = .ok 0 ∧
    preprocessor_evaluate sample_host ⟨[], []⟩ 5 (PREPROCESSOR_NUMBER_NODE 5) = .ok 5 := by
  refine ⟨rfl, rfl⟩

/-- C15, the code at the failing input: for `2147483647 + 1` the host
arithmetic reports success with the value 2147483648, and
`preprocessor_evaluate_exp` returns -2147483648, the value converted to `int`. -/
theorem evaluate_exp_wraps_arithmetic_value :
    sample_host.arithmetic 2147483647 1 "+" = (2147483648, true) ∧
    preprocessor_evaluate_exp sample_host (preprocessor_evaluate sample_host ⟨[], []⟩ 5)
        (PREPROCESSOR_NUMBER_NODE 2147483647) (PREPROCESSOR_NUMBER_NODE 1) "+" =
      .ok (-2147483648) := by
  refine ⟨rfl, rfl⟩

/-- C16, counterexample: for a record of the native-callback kind with an empty
body `preprocessor_definition_value` is `NULL`, and
`preprocessor_evaluate_identifier` dereferences it instead of returning 0. -/
theorem evaluate_identifier_native_empty_body :
    (preprocessor_get_definition table_native_X "X").map (fun d => d.value) = some [] ∧
    preprocessor_evaluate_identifier sample_host (preprocessor_evaluate sample_host table_native_X 5)
        table_native_X "X" = .error Fault.null_deref ∧
    (.error Fault.null_deref : Res Int) ≠ .ok 0 := by
  refine ⟨rfl, rfl, by simp⟩

/-- C16, amended: `preprocessor_evaluate_identifier` returns 1 for every name
that has no record in the definition table, and returns 0 for every name whose
record is object-like or function-like and has an empty body; both are normal
returns, and the function only reads the table. -/
theorem evaluate_identifier_undefined_or_empty (host : Host)
    (evaluate : preprocessor_node → Res Int) (p : preprocessor) (name : String) :
    (preprocessor_get_definition p name = none →
      preprocessor_evaluate_identifier host evaluate p name = .ok 1) ∧
    (∀ d, preprocessor_get_definition p name = some d → d.value = [] →
      (d.type = PREPROCESSOR_DEFINITION_STANDARD ∨
        d.type = PREPROCESSOR_DEFINITION_MACRO_FUNCTION) →
      preprocessor_evaluate_identifier host evaluate p name = .ok 0) := by
  constructor
  · intro h
    simp [preprocessor_evaluate_identifier, h]
  · intro d h hv ht
    rcases ht with ht | ht <;>
      simp [preprocessor_evaluate_identifier, h, preprocessor_definition_value,
        preprocessor_definition_value_with_arguments,
        preprocessor_definition_value_for_standard, ht, hv]

/-- C16, witness: an undefined name on the empty table, and a function-like
record with an empty body. -/
theorem evaluate_identifier_undefined_or_empty_witness :
    preprocessor_evaluate_identifier sample_host (preprocessor_evaluate sample_host ⟨[], []⟩ 5)
        ⟨[], []⟩ "X" = .ok 1 ∧
    preprocessor_evaluate_identifier sample_host
        (preprocessor_evaluate sample_host table_function_like_X 5)
        table_function_like_X "X" = .ok 0 :=
  ⟨(evaluate_identifier_undefined_or_empty sample_host _ ⟨[], []⟩ "X").1 rfl,
   (evaluate_identifier_undefined_or_empty sample_host _ table_function_like_X "X").2
      ⟨PREPROCESSOR_DEFINITION_MACRO_FUNCTION, "X", [], some ["a"]⟩ rfl rfl (Or.inr rfl)⟩

/-- C17, the code at the failing input: in `a \ b c NL d` the `\` is not
followed by a newline, yet the capture drops both the `\` and the token `b`
after it; the body is `a c` (the cursor ends past the newline, at slot 5). -/
theorem body_capture_drops_token_after_backslash :
    (preprocessor_multi_value_insert_to_vector 30 (initial_process backslash_mid_line [])
        vector_create).map (fun r => (r.1.data, r.2.token_vec_original.pindex)) =
      .ok ([tok_identifier "a", tok_identifier "c"], 5) := by
  rfl

/-- C18, the code at the failing input: the list `( a , )` has a trailing
comma, yet `preprocessor_parse_macro_argument_declaration` succeeds with the
parameter vector `a` and the cursor just past the `)`. -/
theorem macro_arguments_accept_trailing_comma :
    (preprocessor_parse_macro_argument_declaration 30 (initial_process trailing_comma_list [])
        vector_create).map (fun r => (r.1.data, r.2.token_vec_original.pindex)) =
      .ok (["a"], 4) := by
  rfl

/-- C19: for `#define NAME` with the operator `(` as next token,
`preprocessor_is_next_macro_arguments` returns true exactly when the NAME token
carries no whitespace flag and hands back the state it was given.  With the
flag, no parameters are recorded and the body capture starts at the `(`, which
is the first body token.  Without the flag, a well-formed list `id1 , ... , idn`
up to `)` (tokens `toks`, names `ids`) becomes the parameter list and the body
capture starts just past the `)`, so the parenthesised tokens are not part of
the body. -/
theorem define_parameter_list (fuel : Nat) (c : compile_process) (pre rest : List token)
    (name paren : token)
    (hd : c.token_vec_original.data = pre ++ name :: paren :: rest)
    (hp : c.token_vec_original.pindex = pre.length)
    (hparen : token_is_operator (some paren) "(" = true) :
    preprocessor_is_next_macro_arguments (preprocessor_next_token c).2 =
      (!name.whitespace, (preprocessor_next_token c).2) ∧
    (name.whitespace = true →
      preprocessor_handle_definition_token fuel c =
        (match preprocessor_multi_value_insert_to_vector fuel (preprocessor_next_token c).2
            vector_create with
         | .error e => .error e
         | .ok (body, c3) =>
           .ok { c3 with preprocessor :=
                  (preprocessor_definition_create name.sval body.data (some [])
                    c3.preprocessor).2 }) ∧
      ∀ (body : vector token) (c3 : compile_process),
        preprocessor_multi_value_insert_to_vector fuel (preprocessor_next_token c).2
          vector_create = .ok (body, c3) →
        body.data.head? = some paren) ∧
    (name.whitespace = false →
      ∀ (ids : List String) (toks rest' : List token),
        rest = toks ++ rest' → parameter_list_ok toks ids = true → ids.length < fuel →
        preprocessor_handle_definition_token fuel c =
          (match preprocessor_multi_value_insert_to_vector fuel
              { c with token_vec_original :=
                  { c.token_vec_original with pindex := pre.length + 2 + toks.length } }
              vector_create with
           | .error e => .error e
           | .ok (body, c3) =>
             .ok { c3 with preprocessor :=
                    (preprocessor_definition_create name.sval body.data (some ids)
                      c3.preprocessor).2 })) := by
  have hn := next_token_at c pre (paren :: rest) name hd hp
  have hpair : preprocessor_is_next_macro_arguments (preprocessor_next_token c).2 =
      (!name.whitespace, (preprocessor_next_token c).2) := by
    apply Prod.ext
    · rw [hn]
      have hv := is_next_macro_arguments_value
        ({ c with token_vec_original :=
            { c.token_vec_original with pindex := pre.length + 1 } } : compile_process)
        pre rest name paren hd rfl
      simp only [hv, hparen, Bool.true_and]
    · exact is_next_macro_arguments_state _
  have hty : paren.type = TOKEN_TYPE_OPERATOR := by
    simp [token_is_operator] at hparen
    exact hparen.1
  refine ⟨hpair, ?_, ?_⟩
  · intro hw
    constructor
    · unfold preprocessor_handle_definition_token
      simp only [hpair, hw, Bool.not_true, Bool.false_eq_true, if_false]
      rw [hn]
      rfl
    · intro body c3 h
      rw [hn] at h
      exact multi_value_insert_to_vector_first fuel _ (pre ++ [name]) rest paren
        (by simp [hd]) (by simp) (by simp [hty]) (by simp [hty]) body c3 h
  · intro hw ids toks rest' hrest hok hf
    have hparse := parse_macro_argument_declaration_ok ids toks (pre ++ [name]) rest' paren
      ({ c with token_vec_original :=
          { c.token_vec_original with pindex := pre.length + 1 } } : compile_process)
      vector_create fuel hok (by simp [hd, hrest]) (by simp) hparen hf
    unfold preprocessor_handle_definition_token
    simp only [hpair, hw, Bool.not_false, if_true]
    rw [hn]
    simp only [hparse]
    have hlen : (pre ++ [name]).length + 1 + toks.length =
        pre.length + 2 + toks.length := by simp
    simp only [hlen, vector_create, List.nil_append]

/-- C19, witness: in `F ( a , b ) a NL` the name carries no flag: the probe
answers true and keeps the state, and the definition created has the parameters
`a`, `b` and a body captured from the slot past the `)`, which is `a`; in
`G ( a ) NL` the name carries the flag and the body is `( a )`. -/
theorem define_parameter_list_witness :
    parameter_list_ok
        [tok_identifier "a", tok_operator ",", tok_identifier "b", tok_symbol ')']
        ["a", "b"] = true ∧
    preprocessor_is_next_macro_arguments
        (preprocessor_next_token (initial_process define_F_tokens [])).2 =
      (!(tok_identifier "F").whitespace,
        (preprocessor_next_token (initial_process define_F_tokens [])).2) ∧
    preprocessor_handle_definition_token 9 (initial_process define_F_tokens []) =
      (match preprocessor_multi_value_insert_to_vector 9
          { initial_process define_F_tokens [] with token_vec_original :=
              { (initial_process define_F_tokens []).token_vec_original with
                pindex := ([] : List token).length + 2 +
                  [tok_identifier "a", tok_operator ",", tok_identifier "b",
                    tok_symbol ')'].length } }
          vector_create with
       | .error e => .error e
       | .ok (body, c3) =>
         .ok { c3 with preprocessor :=
                (preprocessor_definition_create (tok_identifier "F").sval body.data
                  (some ["a", "b"]) c3.preprocessor).2 }) ∧
    (preprocessor_handle_definition_token 9 (initial_process define_F_tokens [])).map
        (fun c => c.preprocessor.definitions) =
      .ok [⟨PREPROCESSOR_DEFINITION_MACRO_FUNCTION, "F", [tok_identifier "a"],
            some ["a", "b"]⟩] ∧
    (preprocessor_handle_definition_token 9 (initial_process define_G_tokens [])).map
        (fun c => c.preprocessor.definitions) =
      .ok [⟨PREPROCESSOR_DEFINITION_STANDARD, "G",
            [tok_operator "(", tok_identifier "a", tok_symbol ')'], some []⟩] :=
  ⟨by decide,
    (define_parameter_list 9 (initial_process define_F_tokens []) []
      [tok_identifier "a", tok_operator ",", tok_identifier "b", tok_symbol ')',
        tok_identifier "a", tok_newline]
      (tok_identifier "F") (tok_operator "(") rfl rfl rfl).1,
    (define_parameter_list 9 (initial_process define_F_tokens []) []
      [tok_identifier "a", tok_operator ",", tok_identifier "b", tok_symbol ')',
        tok_identifier "a", tok_newline]
      (tok_identifier "F") (tok_operator "(") rfl rfl rfl).2.2 rfl ["a", "b"]
      [tok_identifier "a", tok_operator ",", tok_identifier "b", tok_symbol ')']
      [tok_identifier "a", tok_newline] rfl (by decide) (by decide),
    rfl, rfl⟩

/-- C20: when the record found for an identifier is object-like and its body is
one token that is neither a number nor an identifier, evaluating the identifier
raises the fatal diagnostic that the definition must hold a number value, in
`preprocessor_evaluate_identifier`, in `preprocessor_evaluate` on the
Identifier node, and in `preprocessor_handle_if_token` when the controlling
expression parses to that node: no value reaches the conditional engine. -/
theorem evaluate_identifier_non_number_body (host : Host) (p : preprocessor) (name : String)
    (d : preprocessor_definition) (t : token)
    (hget : preprocessor_get_definition p name = some d)
    (hty : d.type = PREPROCESSOR_DEFINITION_STANDARD) (hval : d.value = [t])
    (hn : t.type ≠ TOKEN_TYPE_NUMBER) (hi : t.type ≠ TOKEN_TYPE_IDENTIFIER) :
    (∀ evaluate : preprocessor_node → Res Int,
      preprocessor_evaluate_identifier host evaluate p name = .error must_hold_number) ∧
    (∀ fuel : Nat,
      preprocessor_evaluate host p (fuel + 1) (PREPROCESSOR_IDENTIFIER_NODE name) =
        .error must_hold_number) ∧
    (∀ (handle_token : compile_process → Option token → Res compile_process) (fuel : Nat)
        (c : compile_process) (consumed : Nat), c.preprocessor = p →
      host.expressionable_parse false c.token_vec_original.data c.token_vec_original.pindex =
        .ok (some (PREPROCESSOR_IDENTIFIER_NODE name), consumed) →
      preprocessor_handle_if_token host handle_token (fuel + 1) c = .error must_hold_number) := by
  have h1 : ∀ evaluate : preprocessor_node → Res Int,
      preprocessor_evaluate_identifier host evaluate p name = .error must_hold_number := by
    intro evaluate
    simp [preprocessor_evaluate_identifier, hget, preprocessor_definition_value,
      preprocessor_definition_value_with_arguments, preprocessor_definition_value_for_standard,
      hty, hval, preprocessor_definition_evaluated_value,
      preprocessor_definition_evaluated_value_for_standard, vector_back, hn, hi,
      must_hold_number]
  have h2 : ∀ fuel : Nat,
      preprocessor_evaluate host p (fuel + 1) (PREPROCESSOR_IDENTIFIER_NODE name) =
        .error must_hold_number := by
    intro fuel
    rw [evaluate_identifier_node]
    exact h1 _
  refine ⟨h1, h2, ?_⟩
  intro handle_token fuel c consumed hp hparse
  subst hp
  simp [preprocessor_handle_if_token, preprocessor_parse_evaluate, hparse, h2]

/-- C20, witness: the identifier `S` whose object-like body is one string
token. -/
theorem evaluate_identifier_non_number_body_witness :
    preprocessor_get_definition table_string_S "S" =
      some ⟨PREPROCESSOR_DEFINITION_STANDARD, "S", [tok_string "s"], some []⟩ ∧
    (tok_string "s").type ≠ TOKEN_TYPE_NUMBER ∧
    (tok_string "s").type ≠ TOKEN_TYPE_IDENTIFIER ∧
    preprocessor_evaluate sample_host table_string_S 3 (PREPROCESSOR_IDENTIFIER_NODE "S") =
      .error must_hold_number :=
  ⟨rfl, by decide, by decide,
    (evaluate_identifier_non_number_body sample_host table_string_S "S"
      ⟨PREPROCESSOR_DEFINITION_STANDARD, "S", [tok_string "s"], some []⟩ (tok_string "s")
      rfl rfl rfl (by decide) (by decide)).2.1 2⟩

/-- C21, the code at the failing input: the handlers test only whether a token
follows.  In `# ifdef int NL A NL # endif NL B` the keyword `int` after
`ifdef` is looked up in the table like a name: on the empty table the branch
is skipped, on a table that holds a record named `int` it is emitted.  In
`# ifndef NL A NL # endif NL B` the newline after `ifndef` is looked up by its
spelling and the branch is emitted.  No run raises a diagnostic; the handlers
raise theirs when the input ends after the directive name. -/
theorem ifdef_non_identifier_condition_tests_table :
    (preprocessor_run sample_host 20 (initial_process ifdef_keyword_input [])).map
        (fun c => c.token_vec.data) = .ok [tok_identifier "B"] ∧
    (preprocessor_run sample_host 20
        (initial_process ifdef_keyword_input [number_definition "int" 1])).map
        (fun c => c.token_vec.data) = .ok [tok_identifier "A", tok_identifier "B"] ∧
    (preprocessor_run sample_host 20 (initial_process ifndef_newline_input [])).map
        (fun c => c.token_vec.data) = .ok [tok_identifier "A", tok_identifier "B"] ∧
    preprocessor_run sample_host 20 (initial_process [tok_symbol '#', tok_keyword "ifdef"] []) =
      .error (Fault.fatal "No condition token was provided.\n") ∧
    preprocessor_run sample_host 20 (initial_process [tok_symbol '#', tok_keyword "ifndef"] []) =
      .error (Fault.fatal "No condition token was provided\n") := by
  refine ⟨by rfl, by rfl, by rfl, by rfl, by rfl⟩

/-- C22, the code at the failing input: on `NL A B` the loop calls
`preprocessor_next_token` once more after the newline has been consumed, so
`A` is consumed as well, and the token returned is `B`; the cursor ends two
tokens further on, not one. -/
theorem peek_skip_nl_consumes_token_after_newlines (fuel : Nat) :
    preprocessor_peek_next_token_skip_nl (fuel + 3) (initial_process newline_A_B []) =
      .ok (some (tok_identifier "B"), advance (initial_process newline_A_B []) 2) := rfl

/-- C23: `preprocessor_read_to_end_if` with a false clause and
`preprocessor_skip_to_endif` change nothing but the cursor position: when either
returns, the output vector, the definition table, the warnings and the input
tokens are those of the state it started from.  Neither raises a diagnostic
(the only outcome besides returning is running out of fuel), and the result of
the false clause does not depend on the token handler, which is never called. -/
theorem skipped_branch_changes_cursor_only
    (handle_token : compile_process → Option token → Res compile_process)
    (fuel : Nat) (c : compile_process) :
    (∀ c', (preprocessor_read_to_end_if handle_token fuel c false = .ok c' ∨
          preprocessor_skip_to_endif fuel c = .ok c') →
      c'.token_vec = c.token_vec ∧ c'.preprocessor = c.preprocessor ∧
        c'.warnings = c.warnings ∧
        c'.token_vec_original.data = c.token_vec_original.data) ∧
    (∀ e, (preprocessor_read_to_end_if handle_token fuel c false = .error e ∨
          preprocessor_skip_to_endif fuel c = .error e) → e = Fault.outOfFuel) ∧
    (∀ other : compile_process → Option token → Res compile_process,
      preprocessor_read_to_end_if other fuel c false =
        preprocessor_read_to_end_if handle_token fuel c false) := by
  refine ⟨?_, ?_, ?_⟩
  · intro c' h
    rcases h with h | h
    · exact cursor_only_frame (read_to_end_if_false_cursor_only handle_token fuel c c' h)
    · exact cursor_only_frame (skip_to_endif_cursor_only fuel c c' h)
  · intro e h
    rcases h with h | h
    · exact read_to_end_if_false_error handle_token fuel c e h
    · exact skip_to_endif_error fuel c e h
  · intro other
    exact read_to_end_if_false_callback other handle_token fuel c

/-- C23, witness: the false clause over `NL # define Z 1 NL # error NL # endif
NL` returns with the cursor past `# endif`, an empty output and the table it
started with. -/
theorem skipped_branch_changes_cursor_only_witness :
    preprocessor_read_to_end_if (preprocessor_handle_token sample_host 20) 20
        (initial_process skipped_body_input [number_definition "K" 1]) false =
      .ok (advance (initial_process skipped_body_input [number_definition "K" 1]) 11) ∧
    (advance (initial_process skipped_body_input [number_definition "K" 1]) 11).token_vec =
      (initial_process skipped_body_input [number_definition "K" 1]).token_vec ∧
    (advance (initial_process skipped_body_input [number_definition "K" 1]) 11).preprocessor =
      (initial_process skipped_body_input [number_definition "K" 1]).preprocessor :=
  ⟨rfl,
   ((skipped_branch_changes_cursor_only (preprocessor_handle_token sample_host 20) 20
      (initial_process skipped_body_input [number_definition "K" 1])).1 _ (Or.inl rfl)).1,
   ((skipped_branch_changes_cursor_only (preprocessor_handle_token sample_host 20) 20
      (initial_process skipped_body_input [number_definition "K" 1])).1 _ (Or.inl rfl)).2.1⟩

/-- C24: `preprocessor_hashtag_and_identifier` returns the token after the `#`
and moves the cursor forward by exactly two when the next two tokens are the
`#` symbol and an identifier or keyword spelled `s`; in every other case it
returns absence and the state it was given, cursor position included.  In both
cases the save stack of the cursor after the call is the stack before it. -/
theorem hashtag_and_identifier_commits_or_restores (c : compile_process) (s : String) :
    preprocessor_hashtag_and_identifier c s =
      (match hashtag_then_name c s with
       | some t => (some t, advance c 2)
       | none => (none, c)) ∧
    (preprocessor_hashtag_and_identifier c s).2.token_vec_original.saves =
      c.token_vec_original.saves ∧
    (preprocessor_hashtag_and_identifier c s).2.token_vec_original.pindex =
      c.token_vec_original.pindex + (if (hashtag_then_name c s).isSome then 2 else 0) := by
  have h := hashtag_and_identifier_eq c s
  refine ⟨h, ?_, ?_⟩
  · rw [h]
    cases hashtag_then_name c s <;> rfl
  · rw [h]
    cases hashtag_then_name c s <;> rfl

/-- C25: each of the seven predicates `preprocessor_token_is_define`, ...,
`preprocessor_token_is_ifndef` holds exactly for the identifier and keyword
tokens spelled as its directive name.  When a token follows the `#`,
`preprocessor_handle_hashtag_token` answers not handled, without calling a
handler, when that token is not an identifier or keyword spelled as one of the
seven names, and whenever it returns, the answer is handled exactly when the
token is an identifier or keyword spelled as one of the seven names. -/
theorem hashtag_token_handled_iff_directive_name (host : Host)
    (handle_token : compile_process → Option token → Res compile_process)
    (fuel : Nat) (c : compile_process) (t next : token)
    (hn : (preprocessor_next_token c).1 = some next) :
    ((preprocessor_token_is_define next = true ↔ spelled next "define") ∧
      (preprocessor_token_is_undef next = true ↔ spelled next "undef") ∧
      (preprocessor_token_is_warning next = true ↔ spelled next "warning") ∧
      (preprocessor_token_is_error next = true ↔ spelled next "error") ∧
      (preprocessor_token_is_if next = true ↔ spelled next "if") ∧
      (preprocessor_token_is_ifdef next = true ↔ spelled next "ifdef") ∧
      (preprocessor_token_is_ifndef next = true ↔ spelled next "ifndef")) ∧
    ((¬ ∃ d, d ∈ directive_names ∧ spelled next d) →
      preprocessor_handle_hashtag_token host handle_token fuel c t =
        .ok (false, (preprocessor_next_token c).2)) ∧
    (∀ (handled : Bool) (c' : compile_process),
      preprocessor_handle_hashtag_token host handle_token fuel c t = .ok (handled, c') →
        (handled = true ↔ ∃ d, d ∈ directive_names ∧ spelled next d)) := by
  have hp := token_is_directive_iff next
  obtain ⟨p1, p2, p3, p4, p5, p6, p7⟩ := hp
  have hnot : (¬ ∃ d, d ∈ directive_names ∧ spelled next d) →
      preprocessor_handle_hashtag_token host handle_token fuel c t =
        .ok (false, (preprocessor_next_token c).2) := by
    intro hno
    have q : ∀ d, d ∈ directive_names → ¬ spelled next d := fun d hd hs => hno ⟨d, hd, hs⟩
    apply handle_hashtag_token_unhandled host handle_token fuel c t next hn
    · exact Bool.eq_false_iff.mpr (fun h => q "define" (by simp [directive_names]) (p1.mp h))
    · exact Bool.eq_false_iff.mpr (fun h => q "undef" (by simp [directive_names]) (p2.mp h))
    · exact Bool.eq_false_iff.mpr (fun h => q "warning" (by simp [directive_names]) (p3.mp h))
    · exact Bool.eq_false_iff.mpr (fun h => q "error" (by simp [directive_names]) (p4.mp h))
    · exact Bool.eq_false_iff.mpr (fun h => q "if" (by simp [directive_names]) (p5.mp h))
    · exact Bool.eq_false_iff.mpr (fun h => q "ifdef" (by simp [directive_names]) (p6.mp h))
    · exact Bool.eq_false_iff.mpr (fun h => q "ifndef" (by simp [directive_names]) (p7.mp h))
  refine ⟨⟨p1, p2, p3, p4, p5, p6, p7⟩, hnot, ?_⟩
  intro handled c' hres
  by_cases hex : ∃ d, d ∈ directive_names ∧ spelled next d
  · refine ⟨fun _ => hex, fun _ => ?_⟩
    obtain ⟨d, hd, hs⟩ := hex
    have hone : preprocessor_token_is_define next = true ∨
        preprocessor_token_is_undef next = true ∨ preprocessor_token_is_warning next = true ∨
        preprocessor_token_is_error next = true ∨ preprocessor_token_is_if next = true ∨
        preprocessor_token_is_ifdef next = true ∨ preprocessor_token_is_ifndef next = true := by
      simp only [directive_names, List.mem_cons, List.mem_singleton, List.not_mem_nil,
        or_false] at hd
      rcases hd with rfl | rfl | rfl | rfl | rfl | rfl | rfl
      · exact Or.inl (p1.mpr hs)
      · exact Or.inr (Or.inl (p2.mpr hs))
      · exact Or.inr (Or.inr (Or.inl (p3.mpr hs)))
      · exact Or.inr (Or.inr (Or.inr (Or.inl (p4.mpr hs))))
      · exact Or.inr (Or.inr (Or.inr (Or.inr (Or.inl (p5.mpr hs)))))
      · exact Or.inr (Or.inr (Or.inr (Or.inr (Or.inr (Or.inl (p6.mpr hs))))))
      · exact Or.inr (Or.inr (Or.inr (Or.inr (Or.inr (Or.inr (p7.mpr hs))))))
    unfold preprocessor_handle_hashtag_token at hres
    simp only [hn] at hres
    split at hres
    · exact handled_of_map_ok _ hres
    · split at hres
      · exact handled_of_map_ok _ hres
      · split at hres
        · exact handled_of_map_ok _ hres
        · split at hres
          · exact handled_of_map_ok _ hres
          · split at hres
            · exact handled_of_map_ok _ hres
            · split at hres
              · exact handled_of_map_ok _ hres
              · split at hres
                · exact handled_of_map_ok _ hres
                · rename_i n1 n2 n3 n4 n5 n6 n7
                  rcases hone with h | h | h | h | h | h | h <;> contradiction
  · rw [hnot hex] at hres
    cases hres
    constructor
    · intro h; cases h
    · intro h; exact absurd h hex

/-- C25, witness: after the `#` of `# undef X` the dispatcher removes `X` and
answers handled, `undef` being one of the seven names; after the `#` of
`# pragma` it answers not handled. -/
theorem hashtag_token_handled_iff_directive_name_witness :
    preprocessor_handle_hashtag_token sample_host (preprocessor_handle_token sample_host 5) 5
        (initial_process [tok_keyword "undef", tok_identifier "X"] [number_definition "X" 1])
        (tok_symbol '#') =
      .ok (true, advance (initial_process [tok_keyword "undef", tok_identifier "X"] []) 2) ∧
    (∃ d, d ∈ directive_names ∧ spelled (tok_keyword "undef") d) ∧
    preprocessor_handle_hashtag_token sample_host (preprocessor_handle_token sample_host 5) 5
        (initial_process [tok_identifier "pragma"] []) (tok_symbol '#') =
      .ok (false, advance (initial_process [tok_identifier "pragma"] []) 1) :=
  ⟨rfl,
   ((hashtag_token_handled_iff_directive_name sample_host
      (preprocessor_handle_token sample_host 5) 5
      (initial_process [tok_keyword "undef", tok_identifier "X"] [number_definition "X" 1])
      (tok_symbol '#') (tok_keyword "undef") rfl).2.2 true
      (advance (initial_process [tok_keyword "undef", tok_identifier "X"] []) 2) rfl).mp rfl,
   (hashtag_token_handled_iff_directive_name sample_host
      (preprocessor_handle_token sample_host 5) 5
      (initial_process [tok_identifier "pragma"] []) (tok_symbol '#') (tok_identifier "pragma")
      rfl).2.1 (by simp [directive_names, spelled, tok_identifier])⟩

/-- C27: `preprocessor_skip_to_endif` returns for some amount of fuel exactly
when the tokens from the cursor hold the `#endif` that matches the current
nesting level; it then returns with the cursor just past that `#endif`, for
every fuel larger than the number of tokens left.  Without that `#endif` the
call is out of fuel whatever the fuel and raises no diagnostic.  At the end of
the input a turn of the loop leaves the state as it is.  A run over
`# ifdef NAME NL # ifdef` followed by tokens without the matching `#endif`,
`NAME` having no record, is out of fuel whatever the fuel. -/
theorem skip_to_endif_terminates_iff_endif_matches (c : compile_process) :
    ((∃ fuel c', preprocessor_skip_to_endif fuel c = .ok c') ↔
      (matching_endif 0 (remaining c)).isSome = true) ∧
    (∀ k, matching_endif 0 (remaining c) = some k → ∀ fuel, (remaining c).length < fuel →
      preprocessor_skip_to_endif fuel c = .ok (advance c k)) ∧
    (matching_endif 0 (remaining c) = none →
      ∀ fuel, preprocessor_skip_to_endif fuel c = .error Fault.outOfFuel) ∧
    (remaining c = [] → (preprocessor_next_token c).2 = c ∧
      ∀ fuel, preprocessor_skip_to_endif (fuel + 1) c = preprocessor_skip_to_endif fuel c) ∧
    (∀ (host : Host) (defs : List preprocessor_definition) (name : String)
        (tail : List token),
      preprocessor_get_definition ⟨defs, []⟩ name = none → matching_endif 0 tail = none →
      ∀ fuel, preprocessor_run host fuel (initial_process (nested_ifdef_input name tail) defs) =
        .error Fault.outOfFuel) := by
  refine ⟨⟨?_, ?_⟩, ?_, ?_, ?_, ?_⟩
  · rintro ⟨fuel, c', h⟩
    cases hm : matching_endif 0 (remaining c) with
    | some k => rfl
    | none =>
      rw [skip_to_endif_unmatched c hm fuel] at h
      cases h
  · intro h
    cases hm : matching_endif 0 (remaining c) with
    | none => rw [hm] at h; cases h
    | some k =>
      exact ⟨(remaining c).length + 1, advance c k,
        skip_to_endif_matched c k hm _ (Nat.lt_succ_self _)⟩
  · intro k hm fuel hf
    exact skip_to_endif_matched c k hm fuel hf
  · intro hm
    exact skip_to_endif_unmatched c hm
  · intro hr
    refine ⟨?_, fun fuel => skip_to_endif_at_end_step fuel c hr⟩
    rw [next_token_remaining_nil c hr]
  · intro host defs name tail hget hm
    exact run_unclosed_nested host defs name tail hget hm

/-- C27, witness: from `A # ifdef B # endif C # endif D` the call returns just
past the second `# endif`, nine tokens on; from `A # ifdef B # endif C` it is
out of fuel with 100 units, and so is the run over `# ifdef K NL # ifdef` with
that tail and an empty table. -/
theorem skip_to_endif_terminates_iff_endif_matches_witness :
    preprocessor_skip_to_endif 11 (initial_process (nested_closed_tail ++
        [tok_symbol '#', tok_identifier "endif", tok_identifier "D"]) []) =
      .ok (advance (initial_process (nested_closed_tail ++
        [tok_symbol '#', tok_identifier "endif", tok_identifier "D"]) []) 9) ∧
    preprocessor_skip_to_endif 100 (initial_process nested_closed_tail []) =
      .error Fault.outOfFuel ∧
    preprocessor_run sample_host 100
        (initial_process (nested_ifdef_input "K" nested_closed_tail) []) =
      .error Fault.outOfFuel :=
  ⟨(skip_to_endif_terminates_iff_endif_matches (initial_process (nested_closed_tail ++
        [tok_symbol '#', tok_identifier "endif", tok_identifier "D"]) [])).2.1 9 (by rfl) 11
      (by decide),
   (skip_to_endif_terminates_iff_endif_matches (initial_process nested_closed_tail [])).2.2.1
      (by rfl) 100,
   (skip_to_endif_terminates_iff_endif_matches (initial_process nested_closed_tail [])).2.2.2.2
      sample_host [] "K" nested_closed_tail (by rfl) (by rfl) 100⟩

/-- C28: a Unary, Ternary, Joined or Keyword node evaluates to 0 for every
operator, every child, every host and every definition table, already with the
fuel for one call, which leaves none for evaluating a child; the outcome is a
value, not a diagnostic.  The Keyword node built for `defined`, alone or joined
with the Identifier node of its argument, evaluates to 0 on every table. -/
theorem evaluate_unhandled_kinds_zero (host : Host) (p : preprocessor) (fuel : Nat) :
    (∀ (op : String) (operand : preprocessor_node),
      preprocessor_evaluate host p (fuel + 1) (PREPROCESSOR_UNARY_NODE op operand) = .ok 0) ∧
    (∀ (t f : preprocessor_node),
      preprocessor_evaluate host p (fuel + 1) (PREPROCESSOR_TENARY_NODE t f) = .ok 0) ∧
    (∀ (l r : preprocessor_node),
      preprocessor_evaluate host p (fuel + 1) (PREPROCESSOR_JOINED_NODE l r) = .ok 0) ∧
    (∀ (sval : String),
      preprocessor_evaluate host p (fuel + 1) (PREPROCESSOR_KEYWORD_NODE sval) = .ok 0) ∧
    (∀ (x : String),
      preprocessor_evaluate host p (fuel + 1)
        (PREPROCESSOR_JOINED_NODE (PREPROCESSOR_KEYWORD_NODE "defined")
          (PREPROCESSOR_IDENTIFIER_NODE x)) = .ok 0) :=
  ⟨fun _ _ => rfl, fun _ _ => rfl, fun _ _ => rfl, fun _ => rfl, fun _ => rfl⟩

end PeachCompiler
